import Mathlib

/-!
Verification of the `perf` repository: a deterministic benchmark-corpus
generator (`generate_corpus.py`) and a benchmark comparison tool
(`compare.py`).

Modelling conventions:
* Python strings are lists of characters (`Str`); Python floats are modelled
  as exact rationals, with `round(x, n)` as rounding half-up of the scaled
  value (the two-decimal grid facts used below are insensitive to the
  half-way tie rule).
* Rational arithmetic inside the model goes through `qAdd`/`qSub`/`qMul`/
  `qDivQ`/`qlit`, thin kernel-computable wrappers around `mkRat` proved equal
  to the ordinary field operations (`qAdd_eq` and friends); this lets closed
  runs of the model evaluate by `decide`.
* The process-wide random source (the `random` module, seeded once at import)
  is an abstract tape `Nat -> Nat` with a cursor; every primitive draw
  consumes one tape cell and maps it into the documented range of the
  corresponding `random` function.  All claims quantify over every tape, so
  every concrete behaviour of the Python generator corresponds to some tape.
* File-system writing is out of scope; a generated corpus is the collection
  of produced file contents, which is what byte-for-byte identity is about.
-/

/-- Python strings, as lists of characters. -/
abbrev Str := List Char

/-- Chars of a Lean string literal, used to transcribe Python literals. -/
def str (s : String) : Str := s.toList

/-- The character `{` (kept out of string literals). -/
def lbrace : Char := Char.ofNat 123

/-- The character `}`. -/
def rbrace : Char := Char.ofNat 125

/-- The character `"`. -/
def dquote : Char := Char.ofNat 34

/-- Python `"..."` quoting as emitted by the generator: `f'"{v}"'`. -/
def quoteS (v : Str) : Str := dquote :: v ++ [dquote]

/-- Python `s.startswith(p)` on lists of characters. -/
def leadsWith : Str → Str → Bool
  | [], _ => true
  | _ :: _, [] => false
  | a :: as, b :: bs => a = b && leadsWith as bs

/-- Python `p in s` (substring containment); used only with nonempty `p`. -/
def hasSeg (p : Str) : Str → Bool
  | [] => leadsWith p []
  | c :: rest => leadsWith p (c :: rest) || hasSeg p rest

/-- Drop the trailing characters satisfying `p` (Python `rstrip`). -/
def dropTrail (p : Char → Bool) (t : Str) : Str := (t.reverse.dropWhile p).reverse

/-- Python `s.strip()`; the generator's strings only ever hold plain spaces. -/
def trimS (t : Str) : Str := dropTrail (fun c => c = ' ') (t.dropWhile (fun c => c = ' '))

/-- Python `s.strip(cs)`: remove every leading and trailing char in the class. -/
def stripBoth (p : Char → Bool) (t : Str) : Str := dropTrail p (t.dropWhile p)

/-- Python `s.split(sep)` for a one-character separator. -/
def splitChar (sep : Char) : Str → List Str
  | [] => [[]]
  | c :: rest =>
    match splitChar sep rest with
    | [] => if c = sep then [[], []] else [[c]]
    | s :: ss => if c = sep then [] :: s :: ss else (c :: s) :: ss

/-- Python `s.split(sep, 1)`: the part before the first occurrence of `sep`,
and the part after it when `sep` occurs. -/
def splitOnce (sep : Str) : Str → Str × Option Str
  | [] => ([], none)
  | c :: rest =>
    if leadsWith sep (c :: rest) then ([], some (List.drop sep.length (c :: rest)))
    else
      let p := splitOnce sep rest
      (c :: p.1, p.2)

/-- Decimal digits of a natural number, most significant first (`fuel` bounds
the recursion; `natChars` supplies enough). -/
def natCharsAux : Nat → Nat → Str
  | 0, _ => []
  | fuel + 1, n =>
    if n < 10 then [Nat.digitChar n]
    else natCharsAux fuel (n / 10) ++ [Nat.digitChar (n % 10)]

/-- Python `str(n)` for a natural number. -/
def natChars (n : Nat) : Str := natCharsAux (n + 1) n

/-- Numeric value of a digit string (the reading direction of `int(s)`). -/
def digitsVal (s : Str) : Nat := s.foldl (fun acc c => acc * 10 + (c.toNat - 48)) 0

/-- Lookup in an association list (insertion-ordered Python dict with unique
keys). -/
def lookupA {α : Type} (l : List (Str × α)) (k : Str) : Option α :=
  match l with
  | [] => none
  | (a, b) :: r => if a = k then some b else lookupA r k

/-! ## Kernel-computable rational arithmetic

`Rat.add`, `Rat.mul`, `Rat.div` and decimal literals do not reduce inside the
kernel, so the model uses these `mkRat`-based equivalents, each proved equal
to the ordinary field operation. -/

/-- Rational addition through `mkRat`. -/
def qAdd (a b : ℚ) : ℚ := mkRat (a.num * b.den + b.num * a.den) (a.den * b.den)

/-- Rational subtraction through `mkRat`. -/
def qSub (a b : ℚ) : ℚ := mkRat (a.num * b.den - b.num * a.den) (a.den * b.den)

/-- Rational multiplication through `mkRat`. -/
def qMul (a b : ℚ) : ℚ := mkRat (a.num * b.num) (a.den * b.den)

/-- Rational division through `Rat.divInt`. -/
def qDivQ (a b : ℚ) : ℚ := Rat.divInt (a.num * b.den) (a.den * b.num)

/-- The rational literal `n / d`. -/
def qlit (n : ℤ) (d : ℕ) : ℚ := mkRat n d

theorem qlit_eq (n : ℤ) (d : ℕ) : qlit n d = (n : ℚ) / d := by
  unfold qlit; rw [Rat.mkRat_eq_div]

theorem qAdd_eq (a b : ℚ) : qAdd a b = a + b := by
  have ha : (a.den : ℚ) ≠ 0 := Nat.cast_ne_zero.mpr a.den_nz
  have hb : (b.den : ℚ) ≠ 0 := Nat.cast_ne_zero.mpr b.den_nz
  unfold qAdd
  rw [Rat.mkRat_eq_div]
  push_cast
  conv_rhs => rw [← Rat.num_div_den a, ← Rat.num_div_den b]
  field_simp

theorem qSub_eq (a b : ℚ) : qSub a b = a - b := by
  have ha : (a.den : ℚ) ≠ 0 := Nat.cast_ne_zero.mpr a.den_nz
  have hb : (b.den : ℚ) ≠ 0 := Nat.cast_ne_zero.mpr b.den_nz
  unfold qSub
  rw [Rat.mkRat_eq_div]
  push_cast
  conv_rhs => rw [← Rat.num_div_den a, ← Rat.num_div_den b]
  field_simp
  ring

theorem qMul_eq (a b : ℚ) : qMul a b = a * b := by
  have ha : (a.den : ℚ) ≠ 0 := Nat.cast_ne_zero.mpr a.den_nz
  have hb : (b.den : ℚ) ≠ 0 := Nat.cast_ne_zero.mpr b.den_nz
  unfold qMul
  rw [Rat.mkRat_eq_div]
  push_cast
  conv_rhs => rw [← Rat.num_div_den a, ← Rat.num_div_den b]
  field_simp

theorem qDivQ_eq (a b : ℚ) : qDivQ a b = a / b := by
  rcases eq_or_ne b 0 with hb0 | hb0
  · subst hb0
    unfold qDivQ
    norm_num
  · have ha : (a.den : ℚ) ≠ 0 := Nat.cast_ne_zero.mpr a.den_nz
    have hb : (b.den : ℚ) ≠ 0 := Nat.cast_ne_zero.mpr b.den_nz
    have hbn : (b.num : ℚ) ≠ 0 := by simpa using Rat.num_ne_zero.mpr hb0
    unfold qDivQ
    rw [Rat.divInt_eq_div]
    push_cast
    conv_rhs => rw [← Rat.num_div_den a, ← Rat.num_div_den b]
    field_simp

/-- Integer floor of a rational, kernel-computably. -/
def pyFloorZ (x : ℚ) : ℤ := x.num / (x.den : ℤ)

theorem pyFloorZ_eq (x : ℚ) : pyFloorZ x = ⌊x⌋ := Rat.floor_def.symm

/-- Round-half-up of a rational, kernel-computably. -/
def roundHalf (x : ℚ) : ℤ := pyFloorZ (qAdd x (qlit 1 2))

theorem roundHalf_eq (x : ℚ) : roundHalf x = round x := by
  unfold roundHalf
  rw [pyFloorZ_eq, qAdd_eq, round_eq, qlit_eq]
  norm_num

/-- The integer `10 ^ d`. -/
def p10 (d : Nat) : ℤ := ((10 ^ d : Nat) : ℤ)

/-- Python `round(q, d)` in exact rational arithmetic. -/
def pyRound (d : Nat) (q : ℚ) : ℚ := Rat.divInt (roundHalf (mkRat (q.num * p10 d) q.den)) (p10 d)

theorem pyRound_eq (d : Nat) (q : ℚ) :
    pyRound d q = ((round (q * 10 ^ d) : ℤ) : ℚ) / 10 ^ d := by
  have hq : mkRat (q.num * p10 d) q.den = q * 10 ^ d := by
    rw [Rat.mkRat_eq_div]
    push_cast [p10]
    conv_rhs => rw [← Rat.num_div_den q, div_mul_eq_mul_div]
  unfold pyRound
  rw [hq, roundHalf_eq, Rat.divInt_eq_div]
  push_cast [p10]
  ring

/-- Python `str(x)` for the nonnegative floats the generator prints: they all
sit on the hundredths grid, and `str` shows one decimal when the value sits on
the tenths grid, two otherwise (e.g. `95.0`, `12.5`, `99.99`). -/
def renderFloat (q : ℚ) : Str :=
  let c : ℤ := pyFloorZ (mkRat (q.num * 100) q.den)
  let w : Nat := (c / 100).toNat
  let f : Nat := (c % 100).toNat
  natChars w ++ '.' ::
    (if f % 10 = 0 then [Nat.digitChar (f / 10)]
     else [Nat.digitChar (f / 10), Nat.digitChar (f % 10)])

/-- Python `float(s)` on the character class `[0-9.]`: digits with at most one
dot and at least one digit; everything else raises, modelled as `none`. -/
def parseFloatQ (s : Str) : Option ℚ :=
  match splitChar '.' s with
  | [ip] => if ip ≠ [] ∧ ip.all Char.isDigit then some (digitsVal ip) else none
  | [ip, fp] =>
    if (ip ++ fp) ≠ [] ∧ (ip ++ fp).all Char.isDigit then
      some (qAdd (digitsVal ip) (mkRat (digitsVal fp) (10 ^ fp.length)))
    else none
  | _ => none

/-! ## compare.py -/

/-- Status of one benchmark in the comparison report (`compare.py`,
lines 41-63): new, regression beyond the threshold, faster beyond the
threshold, or OK. -/
inductive CompStatus
  | isNew
  | regression (pct : ℚ)
  | faster (pct : ℚ)
  | statusOk
deriving DecidableEq

/-- Percentage change of `current` against `baseline`
(`((current_mean - baseline_mean) / baseline_mean) * 100`). -/
def changePct (b c : ℚ) : ℚ := qMul (qDivQ (qSub c b) b) (qlit 100 1)

theorem changePct_eq (b c : ℚ) : changePct b c = (c - b) / b * 100 := by
  unfold changePct
  rw [qMul_eq, qDivQ_eq, qSub_eq, qlit_eq]
  norm_num

/-- The classification of one benchmark present in both runs (`compare.py`
lines 49-55): strictly above the threshold is a regression, strictly below
its negation is faster, otherwise OK. -/
def classify (th b c : ℚ) : CompStatus :=
  let p := changePct b c
  if p > th then .regression p
  else if p < -th then .faster p
  else .statusOk

/-- Lexicographic strict order on names, as Python compares strings. -/
def strLtB : Str → Str → Bool
  | [], [] => false
  | [], _ :: _ => true
  | _ :: _, [] => false
  | a :: as, b :: bs => if a = b then strLtB as bs else decide (a < b)

/-- Python `sorted(current.items())`: dict keys are unique, so ordering by
name matches tuple ordering. -/
def sortByName (l : List (Str × ℚ)) : List (Str × ℚ) :=
  List.insertionSort (fun p q => strLtB p.1 q.1 = true ∨ p.1 = q.1) l

/-- The per-benchmark statuses `compare` computes while iterating over the
sorted current results (`compare.py` lines 41-55).  Removed benchmarks only
add report lines and are irrelevant to pass/fail. -/
def compareEntries (baseline current : List (Str × ℚ)) (th : ℚ) : List (Str × CompStatus) :=
  (sortByName current).map fun p =>
    match lookupA baseline p.1 with
    | none => (p.1, CompStatus.isNew)
    | some b => (p.1, classify th b p.2)

/-- Whether a status is in the `regressions` list `compare` accumulates. -/
def isRegression : CompStatus → Bool
  | .regression _ => true
  | _ => false

/-- The boolean `passed` that `compare` returns: true exactly when the
regressions list stayed empty (`compare.py` lines 71-78). -/
def comparePassed (baseline current : List (Str × ℚ)) (th : ℚ) : Bool :=
  ((compareEntries baseline current th).filter (fun e => isRegression e.2)).isEmpty

/-- The exit code `main` produces once both result files loaded:
`sys.exit(0 if passed else 1)` (`compare.py` lines 89-94; a load failure
exits 2 before any comparison and is outside this model). -/
def compareExit (baseline current : List (Str × ℚ)) (th : ℚ) : Nat :=
  if comparePassed baseline current th then 0 else 1

/-! ### Claims C4 and C10 -/

/-- Claim C4: with baseline `{"checkout": 1.000}` and current
`{"checkout": 1.150}`, the computed change is `+15.0%`; at threshold 10 the
benchmark is classified as a regression, `passed` is `False` and the program
exits 1; at threshold 20 the same inputs give no regression, `passed` is
`True` and the exit status is 0. -/
theorem c4_comparator_example :
    changePct 1 (23 / 20) = 15 ∧
    compareEntries [(str "checkout", 1)] [(str "checkout", 23 / 20)] 10 =
      [(str "checkout", CompStatus.regression 15)] ∧
    comparePassed [(str "checkout", 1)] [(str "checkout", 23 / 20)] 10 = false ∧
    compareExit [(str "checkout", 1)] [(str "checkout", 23 / 20)] 10 = 1 ∧
    compareEntries [(str "checkout", 1)] [(str "checkout", 23 / 20)] 20 =
      [(str "checkout", CompStatus.statusOk)] ∧
    comparePassed [(str "checkout", 1)] [(str "checkout", 23 / 20)] 20 = true ∧
    compareExit [(str "checkout", 1)] [(str "checkout", 23 / 20)] 20 = 0 := by
  have h : (23 / 20 : ℚ) = qlit 23 20 := by rw [qlit_eq]; norm_num
  rw [h]
  decide

/-- Claim C10: for a nonnegative threshold, a benchmark whose percentage
change equals the threshold (or its negation) exactly is classified OK — a
regression needs a strictly larger change — and when no benchmark common to
both runs exceeds the threshold strictly, `compare` returns `passed = True`
and the program exits 0. -/
theorem c10_threshold_boundary (baseline current : List (Str × ℚ)) (th : ℚ)
    (hth : 0 ≤ th) :
    (∀ b c : ℚ, (changePct b c = th ∨ changePct b c = -th) →
      classify th b c = CompStatus.statusOk) ∧
    ((∀ p ∈ current, ∀ b, lookupA baseline p.1 = some b → changePct b p.2 ≤ th) →
      comparePassed baseline current th = true ∧ compareExit baseline current th = 0) := by
  constructor
  · rintro b c (h | h) <;> unfold classify <;> rw [h]
    · rw [if_neg (lt_irrefl th), if_neg (by simp; linarith)]
    · rw [if_neg (by simp; linarith), if_neg (by simp)]
  · intro h
    have hpassed : comparePassed baseline current th = true := by
      unfold comparePassed
      rw [List.isEmpty_iff, List.filter_eq_nil_iff]
      rintro ⟨n, st⟩ hmem
      unfold compareEntries at hmem
      rw [List.mem_map] at hmem
      obtain ⟨p, hp, heq⟩ := hmem
      have hpcur : p ∈ current := (List.perm_insertionSort _ current).mem_iff.mp hp
      simp only [Bool.not_eq_true]
      match hb : lookupA baseline p.1 with
      | none => rw [hb] at heq; cases heq; rfl
      | some b =>
        rw [hb] at heq
        cases heq
        have hle := h p hpcur b hb
        unfold classify
        rw [if_neg (not_lt.mpr hle)]
        split <;> simp [isRegression]
    exact ⟨hpassed, by unfold compareExit; rw [hpassed]; rfl⟩

/-- Witness for C10 at a concrete input: baseline `a -> 1`, current
`a -> 1.1`, threshold 10; the change is exactly the threshold, so the status
is OK and the run passes with exit code 0. -/
theorem c10_threshold_boundary_witness :
    classify 10 1 (qlit 11 10) = CompStatus.statusOk ∧
    comparePassed [(str "a", 1)] [(str "a", qlit 11 10)] 10 = true ∧
    compareExit [(str "a", 1)] [(str "a", qlit 11 10)] 10 = 0 := by
  refine ⟨?_, ?_, ?_⟩
  · exact (c10_threshold_boundary [(str "a", 1)] [(str "a", qlit 11 10)] 10
      (by norm_num)).1 1 (qlit 11 10)
      (Or.inl (by rw [changePct_eq, qlit_eq]; norm_num))
  · exact ((c10_threshold_boundary [(str "a", 1)] [(str "a", qlit 11 10)] 10
      (by norm_num)).2 (by decide)).1
  · exact ((c10_threshold_boundary [(str "a", 1)] [(str "a", qlit 11 10)] 10
      (by norm_num)).2 (by decide)).2

/-! ## The random source (generate_corpus.py, line 23 `random.seed(42)`)

One seeded Mersenne-Twister stream drives the whole generator.  It is
modelled as an abstract tape of naturals with a cursor: each primitive call
of the `random` module consumes one cell and maps it into that primitive's
documented output range.  The claims quantify over all tapes, so every
behaviour of the concrete seeded stream is an instance. -/

/-- State of the process-wide random source: the remaining stream and a
cursor. -/
structure RS where
  tape : Nat → Nat
  pos : Nat

/-- Consume one raw draw. -/
def rsNext (s : RS) : Nat × RS := (s.tape s.pos, ⟨s.tape, s.pos + 1⟩)

/-- The denominator of `random.random()` draws (CPython produces `k / 2^53`). -/
def pow53 : Nat := 2 ^ 53

/-- Python `random.random()`: a rational in `[0, 1)`. -/
def pyRandom (s : RS) : ℚ × RS :=
  let p := rsNext s
  (mkRat (p.1 % pow53) pow53, p.2)

/-- Python `random.randint(lo, hi)` at the generator's call sites, where
`lo <= hi` always holds: an inclusive draw. -/
def pyRandNat (lo hi : Nat) (s : RS) : Nat × RS :=
  let p := rsNext s
  (lo + p.1 % (hi + 1 - lo), p.2)

/-- The exceptions `value_for_type` can raise: `ValueError` (from `float()`
on a bad numeral or `randint` on an empty range) and `RecursionError` (the
fuel guard standing in for Python's recursion limit). -/
inductive PyErr
  | valueError
  | recursionError
deriving DecidableEq

/-- Python `random.randint(lo, hi)` on arbitrary integer bounds:
raises `ValueError` when `lo > hi` (before consuming randomness). -/
def pyRandIntE (lo hi : ℤ) (s : RS) : Except PyErr ℤ × RS :=
  if lo ≤ hi then
    let p := rsNext s
    (.ok (lo + (p.1 : ℤ) % (hi + 1 - lo)), p.2)
  else (.error .valueError, s)

/-- Python `random.choice(l)`; every call site passes a nonempty list. -/
def pyChoice {α : Type} (l : List α) (d : α) (s : RS) : α × RS :=
  let p := rsNext s
  (l.getD (p.1 % l.length) d, p.2)

/-- Python `random.choices(l, k=n)`: `n` independent draws. -/
def pyChoices {α : Type} (l : List α) (d : α) : Nat → RS → List α × RS
  | 0, s => ([], s)
  | k + 1, s =>
    let p := pyChoice l d s
    let rest := pyChoices l d k p.2
    (p.1 :: rest.1, rest.2)

/-- Python `random.sample(l, k)`: `k` draws without replacement; every call
site passes `k <= l.length`. -/
def pySample {α : Type} (d : α) : List α → Nat → RS → List α × RS
  | _, 0, s => ([], s)
  | l, k + 1, s =>
    let p := rsNext s
    let idx := p.1 % l.length
    let rest := pySample d (l.eraseIdx idx) k p.2
    (l.getD idx d :: rest.1, rest.2)

/-- Python `random.uniform(a, b)` = `a + (b - a) * random()`. -/
def pyUniform (a b : ℚ) (s : RS) : ℚ × RS :=
  let p := pyRandom s
  (qAdd a (qMul (qSub b a) p.1), p.2)

/-! ## Name pools (generate_corpus.py, lines 26-58) -/

/-- The 50 service names. -/
def SERVICES : List Str :=
  [str "checkout", str "auth", str "payments", str "orders", str "inventory",
   str "shipping", str "notifications", str "analytics", str "search",
   str "recommendations", str "billing", str "users", str "profiles",
   str "catalog", str "cart", str "gateway", str "messaging", str "scheduler",
   str "monitoring", str "logging", str "cache", str "storage", str "cdn",
   str "ml_inference", str "etl_pipeline", str "data_warehouse",
   str "event_bus", str "rate_limiter", str "circuit_breaker",
   str "load_balancer", str "dns_resolver", str "session_manager",
   str "token_service", str "audit_log", str "webhook_relay",
   str "media_processor", str "pdf_generator", str "email_sender",
   str "sms_gateway", str "push_notifications", str "feature_flags",
   str "ab_testing", str "config_server", str "secrets_manager",
   str "certificate_authority", str "vpn_gateway", str "firewall",
   str "intrusion_detection", str "compliance_checker", str "backup_service",
   str "disaster_recovery"]

/-- The 8 organization names. -/
def ORGS : List Str :=
  [str "acme", str "globex", str "initech", str "hooli", str "piedpiper",
   str "waystar", str "delos", str "massive_dynamic"]

/-- The 20 team names. -/
def TEAMS : List Str :=
  [str "platform", str "payments", str "growth", str "infrastructure",
   str "mobile", str "backend", str "frontend", str "data", str "security",
   str "reliability", str "devops", str "sre", str "ml", str "search",
   str "messaging", str "identity", str "commerce", str "analytics",
   str "observability", str "networking"]

/-- The 4 environment names. -/
def ENVS : List Str := [str "production", str "staging", str "development", str "canary"]

/-- The 24 metric names. -/
def METRICS : List Str :=
  [str "http.requests", str "http.latency.p50", str "http.latency.p95",
   str "http.latency.p99", str "http.errors", str "grpc.requests",
   str "grpc.latency", str "grpc.errors", str "db.queries", str "db.latency",
   str "db.connections", str "db.errors", str "cache.hits",
   str "cache.misses", str "cache.latency", str "cache.evictions",
   str "queue.messages", str "queue.latency", str "queue.depth",
   str "queue.errors", str "cpu.utilization", str "memory.usage",
   str "disk.io", str "network.throughput"]

/-- The status words `oneof_type` samples from for string refinements. -/
def oneofStringPool : List Str :=
  [str "active", str "inactive", str "pending", str "archived", str "draft",
   str "published"]

/-- The lowercase alphabet used by `value_for_type` for string tokens. -/
def asciiLower : Str := str "abcdefghijklmnopqrstuvwxyz"

/-! ## The type grammar (generate_corpus.py, lines 67-143) -/

/-- `simple_type()`: one of the four primitive type names. -/
def simpleType (s : RS) : Str × RS :=
  pyChoice [str "String", str "Integer", str "Float", str "Boolean"] [] s

/-- Ascending sort, Python `sorted` on integers. -/
def sortNats (l : List Nat) : List Nat := List.insertionSort (fun a b => a ≤ b) l

/-- `oneof_type(base)`: a OneOf refinement type (lines 72-82). -/
def oneofType (base : Str) (s : RS) : Str × RS :=
  if base = str "String" then
    let pk := pyRandNat 2 5 s
    let pv := pySample [] oneofStringPool pk.1 pk.2
    let setStr := List.intercalate (str ", ") (pv.1.map quoteS)
    (str "String \x7b x | x in \x7b " ++ setStr ++ str " \x7d \x7d", pv.2)
  else if base = str "Integer" then
    let pk := pyRandNat 2 4 s
    let pv := pySample 0 (List.range' 1 99) pk.1 pk.2
    let setStr := List.intercalate (str ", ") ((sortNats pv.1).map natChars)
    (str "Integer \x7b x | x in \x7b " ++ setStr ++ str " \x7d \x7d", pv.2)
  else simpleType s

/-- `range_type()`: an InclusiveRange refinement type (lines 85-94). -/
def rangeType (s : RS) : Str × RS :=
  let pr := pyRandom s
  if pr.1 < qlit 50 100 then
    let pu1 := pyUniform (qlit 0 1) (qlit 50 1) pr.2
    let low := pyRound 1 pu1.1
    let pu2 := pyUniform (qlit 60 1) (qlit 100 1) pu1.2
    let high := pyRound 1 pu2.1
    (str "Float \x7b x | x in ( " ++ renderFloat low ++ str ".." ++
      renderFloat high ++ str " ) \x7d", pu2.2)
  else
    let pl := pyRandNat 0 50 pr.2
    let ph := pyRandNat 60 1000 pl.2
    (str "Integer \x7b x | x in ( " ++ natChars pl.1 ++ str ".." ++
      natChars ph.1 ++ str " ) \x7d", ph.2)

/-- `random_type(depth, allow_complex=False)`, the form of every nested call
(lines 102, 105, 111): the guard on line 130, `depth > 2 or not
allow_complex`, is then always true, so this instance of `random_type` is its
first branch.  `randomType_false` below certifies the specialization against
the full definition. -/
def randomTypeNC (depth : Nat) (s : RS) : Str × RS := simpleType s

/-- `collection_type(depth)` (lines 97-106): `List(inner)` or
`Dict(String, inner)` with an inner type drawn by
`random_type(depth + 1, allow_complex=False)`. -/
def collectionType (depth : Nat) (s : RS) : Str × RS :=
  if depth > 1 then simpleType s
  else
    let pr := pyRandom s
    if pr.1 < qlit 60 100 then
      let pi := randomTypeNC (depth + 1) pr.2
      (str "List(" ++ pi.1 ++ str ")", pi.2)
    else
      let pi := randomTypeNC (depth + 1) pr.2
      (str "Dict(String, " ++ pi.1 ++ str ")", pi.2)

/-- `modifier_type(depth)` (lines 109-125): `Optional(inner)` or a
`Defaulted` with the matching default literal, the inner type drawn by
`random_type(depth + 1, allow_complex=False)`. -/
def modifierType (depth : Nat) (s : RS) : Str × RS :=
  let pi := randomTypeNC (depth + 1) s
  let pr := pyRandom pi.2
  if pr.1 < qlit 50 100 then (str "Optional(" ++ pi.1 ++ str ")", pr.2)
  else if pi.1 = str "String" then (str "Defaulted(String, \"default\")", pr.2)
  else if pi.1 = str "Integer" then (str "Defaulted(Integer, 0)", pr.2)
  else if pi.1 = str "Float" then (str "Defaulted(Float, 0.0)", pr.2)
  else if pi.1 = str "Boolean" then (str "Defaulted(Boolean, false)", pr.2)
  else (str "Optional(" ++ pi.1 ++ str ")", pr.2)

/-- `random_type(depth, allow_complex)` (lines 128-143): weighted choice among
the grammar's productions; at depth over 2 or without `allow_complex` only a
primitive. -/
def randomType (depth : Nat) (allowComplex : Bool) (s : RS) : Str × RS :=
  if depth > 2 ∨ allowComplex = false then simpleType s
  else
    let pr := pyRandom s
    if pr.1 < qlit 40 100 then simpleType pr.2
    else if pr.1 < qlit 55 100 then
      let pb := pyChoice [str "String", str "Integer"] [] pr.2
      oneofType pb.1 pb.2
    else if pr.1 < qlit 65 100 then rangeType pr.2
    else if pr.1 < qlit 80 100 then collectionType depth pr.2
    else modifierType depth pr.2

/-- The specialization `randomTypeNC` agrees with `random_type` called with
`allow_complex=False`. -/
theorem randomType_false (depth : Nat) (s : RS) :
    randomTypeNC depth s = randomType depth false s := by
  unfold randomTypeNC randomType
  rw [if_pos (Or.inr rfl)]

/-! ## The value synthesizer (generate_corpus.py, lines 149-215)

`value_for_type` re-parses the rendered type text.  Its range branch uses
`re.search` with the pattern `\(\s*([\d.]+)\s*\.\.\s*([\d.]+)\s*\)`; the
matcher below reproduces that search: leftmost position first, greedy
character-class groups with backtracking, `\s*` matching the spaces the
generator emits. -/

/-- Membership in the class `[\d.]`. -/
def isDigitDot (c : Char) : Bool := c.isDigit || c = '.'

/-- Backtracking over the second group's length, longest first: the group
must be followed by `\s*\)`. -/
def tryLens2 (run2 rest2 : Str) : Nat → Option Str
  | 0 => none
  | k + 1 =>
    let r5 := run2.drop (k + 1) ++ rest2
    if leadsWith (str ")") (r5.dropWhile (fun c => c = ' ')) then some (run2.take (k + 1))
    else tryLens2 run2 rest2 k

/-- Backtracking over the first group's length, longest first: the group must
be followed by `\s*\.\.\s*` and a second group. -/
def tryLens1 (run rest0 : Str) : Nat → Option (Str × Str)
  | 0 => none
  | k + 1 =>
    let r := run.drop (k + 1) ++ rest0
    let r2 := r.dropWhile (fun c => c = ' ')
    if leadsWith (str "..") r2 then
      let r3 := (r2.drop 2).dropWhile (fun c => c = ' ')
      let run2 := r3.takeWhile isDigitDot
      match tryLens2 run2 (r3.drop run2.length) run2.length with
      | some g2 => some (run.take (k + 1), g2)
      | none => tryLens1 run rest0 k
    else tryLens1 run rest0 k

/-- One attempted match of the range pattern at the head of `u`. -/
def matchAtR (u : Str) : Option (Str × Str) :=
  match u with
  | [] => none
  | c :: u1 =>
    if c = '(' then
      let u2 := u1.dropWhile (fun ch => ch = ' ')
      let run := u2.takeWhile isDigitDot
      tryLens1 run (u2.drop run.length) run.length
    else none

/-- `re.search` for the range pattern: first matching position wins. -/
def matchRange : Str → Option (Str × Str)
  | [] => none
  | c :: rest =>
    match matchAtR (c :: rest) with
    | some g => some g
    | none => matchRange rest

/-- The alias registry `_alias_registry` (line 146): alias name to underlying
type text, filled by `gen_type_aliases` once per blueprint file. -/
abbrev Reg := List (Str × Str)

deriving instance DecidableEq for Except

/-- The list comprehension of the `List(...)` branch (line 194): `count`
element values produced by the supplied synthesizer (`value_for_type` one
recursion level down). -/
def synthManyF (f : RS → Except PyErr Str × RS) : Nat → RS → Except PyErr (List Str) × RS
  | 0, s => (.ok [], s)
  | k + 1, s =>
    match f s with
    | (.ok v, s1) =>
      match synthManyF f k s1 with
      | (.ok vs, s2) => (.ok (v :: vs), s2)
      | (.error e, s2) => (.error e, s2)
    | (.error e, s1) => (.error e, s1)

/-- The key/value loop of the `Dict(String, ...)` branch (lines 198-203):
entries rendered as `key_i: value`. -/
def synthPairsF (f : RS → Except PyErr Str × RS) : Nat → Nat → RS → Except PyErr (List Str) × RS
  | _, 0, s => (.ok [], s)
  | i, k + 1, s =>
    match f s with
    | (.ok v, s1) =>
      match synthPairsF f (i + 1) k s1 with
      | (.ok ps, s2) => (.ok ((str "key_" ++ natChars i ++ str ": " ++ v) :: ps), s2)
      | (.error e, s2) => (.error e, s2)
    | (.error e, s1) => (.error e, s1)

/-- `value_for_type(type_str)` (lines 149-215): a literal for a type string,
matching the source's branch order; `fuel` stands for Python's recursion
limit and every generator call site gives it slack (the generated nesting
depth is at most 3). -/
def valueForTypeF : Nat → Reg → Str → RS → Except PyErr Str × RS
  | 0, _, _, s => (.error .recursionError, s)
  | fuel + 1, reg, typeStr, s =>
    let t := trimS typeStr
    if leadsWith (str "_") t ∧ (lookupA reg t).isSome then
      valueForTypeF fuel reg ((lookupA reg t).getD []) s
    else if t = str "String" then
      let pk := pyRandNat 5 15 s
      let pc := pyChoices asciiLower ' ' pk.1 pk.2
      (.ok (quoteS pc.1), pc.2)
    else if t = str "Integer" then
      let pn := pyRandNat 1 10000 s
      (.ok (natChars pn.1), pn.2)
    else if t = str "Float" then
      let pu := pyUniform (qlit 1 100) (qlit 100 1) s
      (.ok (renderFloat (pyRound 2 pu.1)), pu.2)
    else if t = str "Boolean" then
      let pb := pyChoice [str "true", str "false"] [] s
      (.ok pb.1, pb.2)
    else if t = str "URL" then
      let pc := pyChoices asciiLower ' ' 8 s
      (.ok (quoteS (str "https://example.com/" ++ pc.1)), pc.2)
    else if t = str "Percentage" then
      let pu := pyUniform (qlit 0 1) (qlit 100 1) s
      (.ok (renderFloat (pyRound 2 pu.1) ++ [Char.ofNat 37]), pu.2)
    else if leadsWith (str "String \x7b x | x in \x7b") t then
      let inner := dropTrail (fun c => c = ' ' || c = rbrace) ((splitChar lbrace t).getLastD [])
      let vals := (splitChar ',' inner).map (fun v => stripBoth (fun c => c = dquote) (trimS v))
      let pv := pyChoice vals [] s
      (.ok (quoteS pv.1), pv.2)
    else if leadsWith (str "Integer \x7b x | x in \x7b") t then
      let inner := dropTrail (fun c => c = ' ' || c = rbrace) ((splitChar lbrace t).getLastD [])
      let vals := (splitChar ',' inner).map trimS
      let pv := pyChoice vals [] s
      (.ok pv.1, pv.2)
    else if hasSeg (str "x | x in (") t ∧ hasSeg (str "..") t then
      match matchRange t with
      | none => (.ok (str "50"), s)
      | some g =>
        match parseFloatQ g.1, parseFloatQ g.2 with
        | some low, some high =>
          if hasSeg (str "Float") t then
            let pu := pyUniform low high s
            (.ok (renderFloat (pyRound 2 pu.1)), pu.2)
          else
            match pyRandIntE (pyFloorZ low) (pyFloorZ high) s with
            | (.ok n, s1) => (.ok (natChars n.toNat), s1)
            | (.error e, s1) => (.error e, s1)
        | _, _ => (.error .valueError, s)
    else if leadsWith (str "List(") t then
      let pk := pyRandNat 1 4 s
      match synthManyF (valueForTypeF fuel reg ((t.drop 5).dropLast)) pk.1 pk.2 with
      | (.ok vals, s1) => (.ok (str "[" ++ List.intercalate (str ", ") vals ++ str "]"), s1)
      | (.error e, s1) => (.error e, s1)
    else if leadsWith (str "Dict(String, ") t then
      let pk := pyRandNat 1 3 s
      match synthPairsF (valueForTypeF fuel reg ((t.drop 13).dropLast)) 0 pk.1 pk.2 with
      | (.ok pairs, s1) =>
        (.ok (str "\x7b " ++ List.intercalate (str ", ") pairs ++ str " \x7d"), s1)
      | (.error e, s1) => (.error e, s1)
    else if leadsWith (str "Optional(") t then
      valueForTypeF fuel reg ((t.drop 9).dropLast) s
    else if leadsWith (str "Defaulted(") t then
      valueForTypeF fuel reg (splitOnce (str ", ") ((t.drop 10).dropLast)).1 s
    else
      (.ok (quoteS (str "fallback_value")), s)

/-! ## Alias and extendable generation (generate_corpus.py, lines 220-267) -/

/-- The newline character joining emitted lines. -/
def nl : Char := '\n'

/-- Python `"\n".join(lines)`. -/
def joinNL (lines : List Str) : Str := List.intercalate [nl] lines

/-- The sample pool of `gen_type_aliases`: `ENVS + ["qa", "test", "demo",
"perf"]`. -/
def aliasEnvPool : List Str := ENVS ++ [str "qa", str "test", str "demo", str "perf"]

/-- The loop body of `gen_type_aliases` (lines 225-239), from index `i`:
alias declaration lines, alias names, and the `_alias_registry` entries. -/
def genTypeAliasesAux (i : Nat) : Nat → RS → (List Str × List Str × Reg) × RS
  | 0, s => (([], [], []), s)
  | n + 1, s =>
    let name := str "_type_" ++ natChars i
    let pr := pyRandom s
    let pu : Str × RS :=
      if pr.1 < qlit 50 100 then
        let pk := pyRandNat 2 5 pr.2
        let pv := pySample [] aliasEnvPool pk.1 pk.2
        (str "String \x7b x | x in \x7b " ++
          List.intercalate (str ", ") (pv.1.map quoteS) ++ str " \x7d \x7d", pv.2)
      else
        let pu1 := pyUniform (qlit 0 1) (qlit 50 1) pr.2
        let pu2 := pyUniform (qlit 60 1) (qlit 100 1) pu1.2
        (str "Float \x7b x | x in ( " ++ renderFloat (pyRound 1 pu1.1) ++ str ".." ++
          renderFloat (pyRound 1 pu2.1) ++ str " ) \x7d", pu2.2)
    let line := name ++ str " (Type): " ++ pu.1
    let rest := genTypeAliasesAux (i + 1) n pu.2
    ((line :: rest.1.1, name :: rest.1.2.1, (name, pu.1) :: rest.1.2.2), rest.2)

/-- `gen_type_aliases(count)` (lines 220-240); it first clears the registry,
so the returned registry is the whole registry. -/
def genTypeAliases (count : Nat) (s : RS) : (List Str × List Str × Reg) × RS :=
  genTypeAliasesAux 0 count s

/-- The field loop of one Requires extendable (lines 252-257). -/
def genReqFieldLoop (i j : Nat) : Nat → RS → List Str × RS
  | 0, s => ([], s)
  | n + 1, s =>
    let pt := simpleType s
    let rest := genReqFieldLoop i (j + 1) n pt.2
    ((str "req_" ++ natChars i ++ str "_field_" ++ natChars j ++ str ": " ++ pt.1) :: rest.1,
      rest.2)

/-- The Requires loop of `gen_extendables` (lines 249-258). -/
def genReqExtLoop (i : Nat) : Nat → RS → (List Str × List Str) × RS
  | 0, s => (([], []), s)
  | n + 1, s =>
    let name := str "_req_" ++ natChars i
    let pn := pyRandNat 1 3 s
    let pf := genReqFieldLoop i 0 pn.1 pn.2
    let line := name ++ str " (Requires): \x7b " ++ List.intercalate (str ", ") pf.1 ++
      str " \x7d"
    let rest := genReqExtLoop (i + 1) n pf.2
    ((line :: rest.1.1, name :: rest.1.2), rest.2)

/-- The Provides loop of `gen_extendables` (lines 262-265): each Provides
extendable carries exactly the vendor field. -/
def provExtLines (i : Nat) : Nat → List Str × List Str
  | 0 => ([], [])
  | n + 1 =>
    let name := str "_prov_" ++ natChars i
    let rest := provExtLines (i + 1) n
    ((name ++ str " (Provides): \x7b vendor: \"datadog\" \x7d") :: rest.1, name :: rest.2)

/-- `gen_extendables(req_count, prov_count)` (lines 243-267):
(declaration lines, Requires names, Provides names). -/
def genExtendables (reqCount provCount : Nat) (s : RS) :
    (List Str × List Str × List Str) × RS :=
  let pr := genReqExtLoop 0 reqCount s
  let pv := provExtLines 0 provCount
  ((pr.1.1 ++ pv.1, pr.1.2, pv.2), pr.2)

/-! ## Blueprint generation (generate_corpus.py, lines 270-420) -/

/-- Membership in the regex class `\w`. -/
def isWordChar (c : Char) : Bool := c.isAlphanum || c = '_'

/-- `re.findall(r'(\w+): (\w+)', t)` (line 389), with explicit fuel: each
step either advances one position or consumes a whole match, so `t.length`
steps always suffice (`findallWC` supplies them). -/
def findallWCF : Nat → Str → List (Str × Str)
  | 0, _ => []
  | fuel + 1, t =>
    match t with
    | [] => []
    | c :: rest =>
      if isWordChar c then
        let w1 := (c :: rest).takeWhile isWordChar
        match (c :: rest).drop w1.length with
        | ':' :: ' ' :: r2 =>
          let w2 := r2.takeWhile isWordChar
          if w2.isEmpty then findallWCF fuel rest
          else (w1, w2) :: findallWCF fuel (r2.drop w2.length)
        | _ => findallWCF fuel rest
      else findallWCF fuel rest

/-- `re.findall(r'(\w+): (\w+)', t)`. -/
def findallWC (t : Str) : List (Str × Str) := findallWCF t.length t

/-- One blueprint item as `gen_blueprint_item` (lines 270-362) builds it: the
emitted text plus the data the function tracks while building it. -/
structure BPItem where
  text : Str
  fieldInfo : List (Str × Str)
  exts : List Str
  envParam : Option Str
  svcParam : Option Str
  hasVendor : Bool
  provLines : List Str

/-- The Requires-field loop of `gen_blueprint_item` (lines 295-309): the
first two fields are plain `String`, later ones draw alias names (when any
exist, with probability 0.2) or grammar types under the complexity setting. -/
def genFieldsLoop (name : Str) (aliasNames : List Str) (complexity : Str) (i : Nat) :
    Nat → RS → List (Str × Str) × RS
  | 0, s => ([], s)
  | n + 1, s =>
    let fname := name ++ str "_param_" ++ natChars i
    let pt : Str × RS :=
      if i < 2 then (str "String", s)
      else if aliasNames.isEmpty then
        if complexity = str "large" ∨ complexity = str "huge" then randomType 0 true s
        else randomType 0 (decide (complexity ≠ str "small")) s
      else
        let pr := pyRandom s
        if pr.1 < qlit 20 100 then pyChoice aliasNames [] pr.2
        else if complexity = str "large" ∨ complexity = str "huge" then randomType 0 true pr.2
        else randomType 0 (decide (complexity ≠ str "small")) pr.2
    let rest := genFieldsLoop name aliasNames complexity (i + 1) n pt.2
    ((fname, pt.1) :: rest.1, rest.2)

/-- The template-variable test of `gen_blueprint_item` (lines 329-333): plain
`String`, a `String {` refinement, or an alias resolving to a String type. -/
def isSimpleString (reg : Reg) (ftype : Str) : Bool :=
  let t := trimS ftype
  t = str "String" || leadsWith (str "String \x7b") t ||
    (leadsWith (str "_") t &&
      (match lookupA reg t with
       | some u => leadsWith (str "String") u
       | none => false))

/-- The env/svc selection loop (lines 328-337): the first qualifying field
becomes `env_param`, the second `svc_param`. -/
def scanParams (reg : Reg) : List (Str × Str) → Option Str → Option Str →
    Option Str × Option Str
  | [], e, v => (e, v)
  | (fn, ft) :: rest, e, v =>
    if isSimpleString reg ft && e.isNone then scanParams reg rest (some fn) v
    else if isSimpleString reg ft && v.isNone then scanParams reg rest e (some fn)
    else scanParams reg rest e v

/-- `gen_blueprint_item(name, req_ext_names, prov_ext_names, alias_names,
complexity)` (lines 270-362). -/
def genBlueprintItem (name : Str) (reqExtNames provExtNames aliasNames : List Str)
    (complexity : Str) (reg : Reg) (s : RS) : BPItem × RS :=
  let pP : List Str × RS :=
    if provExtNames.isEmpty then ([], s)
    else
      let pr := pyRandom s
      if pr.1 < qlit 60 100 then
        let pk := pyRandNat 1 2 pr.2
        pySample [] provExtNames (min pk.1 provExtNames.length) pk.2
      else ([], pr.2)
  let pR : List Str × RS :=
    if reqExtNames.isEmpty then ([], pP.2)
    else
      let pr := pyRandom pP.2
      if pr.1 < qlit 50 100 then
        let pk := pyRandNat 1 1 pr.2
        pySample [] reqExtNames (min pk.1 reqExtNames.length) pk.2
      else ([], pr.2)
  let exts := pP.1 ++ pR.1
  let extendsStr : Str :=
    if exts.isEmpty then []
    else str " extends [" ++ List.intercalate (str ", ") exts ++ str "]"
  let header := str "  * " ++ quoteS name ++ extendsStr ++ str ":"
  let pN : Nat × RS :=
    if complexity = str "small" then pyRandNat 1 2 pR.2
    else if complexity = str "medium" then pyRandNat 2 5 pR.2
    else if complexity = str "large" then pyRandNat 4 8 pR.2
    else pyRandNat 6 12 pR.2
  let pF := genFieldsLoop name aliasNames complexity 0 pN.1 pN.2
  let fieldInfo := pF.1
  let reqFieldStrs := fieldInfo.map (fun p => p.1 ++ str ": " ++ p.2)
  let requiresLines : List Str :=
    if reqFieldStrs.length ≤ 2 then
      [str "    Requires \x7b " ++ List.intercalate (str ", ") reqFieldStrs ++ str " \x7d"]
    else
      str "    Requires \x7b" ::
        reqFieldStrs.map (fun f => str "      " ++ f ++ str ",") ++ [str "    \x7d"]
  let hasProvExt : Bool :=
    if provExtNames.isEmpty then false else provExtNames.any (fun e => exts.contains e)
  let pM := pyChoice METRICS [] pF.2
  let params := scanParams reg fieldInfo none none
  let tmpl := fun (e : Str) => str "$" ++ e ++ str "->" ++ e ++ str "$"
  let numeratorQ := str "sum:" ++ pM.1 ++ [lbrace] ++
    (match params.1 with | some e => tmpl e | none => []) ++
    (match params.2 with
     | some v => (if params.1.isSome then str "," ++ tmpl v else tmpl v)
     | none => []) ++ [rbrace]
  let denominatorQ := str "sum:" ++ pM.1 ++ str ".total" ++ [lbrace] ++
    (match params.1 with | some e => tmpl e | none => []) ++ [rbrace]
  let provLines : List Str :=
    str "    Provides \x7b" ::
      (if hasProvExt then [] else [str "      vendor: \"datadog\","]) ++
      [str "      evaluation: \"numerator / denominator\",",
       str "      indicators: \x7b",
       str "        numerator: " ++ quoteS numeratorQ ++ str ",",
       str "        denominator: " ++ quoteS denominatorQ,
       str "      \x7d",
       str "    \x7d"]
  let allLines := header :: requiresLines ++ provLines
  ({ text := joinNL allLines, fieldInfo := fieldInfo, exts := exts,
     envParam := params.1, svcParam := params.2, hasVendor := !hasProvExt,
     provLines := provLines }, pM.2)

/-- The re-parsing loop of `gen_blueprints_file` (lines 380-390): one unused
`randint(1, 3)` draw per Requires extendable, then the extendable's fields
recovered from its rendered text. -/
def reparseLoop (extLines : List Str) (i : Nat) :
    Nat → RS → List (Str × List (Str × Str)) × RS
  | 0, s => ([], s)
  | n + 1, s =>
    let name := str "_req_" ++ natChars i
    let pn := pyRandNat 1 3 s
    let hits := extLines.filter (fun e => leadsWith (name ++ str " ") e)
    let rest := reparseLoop extLines (i + 1) n pn.2
    match hits with
    | [] => (rest.1, rest.2)
    | e0 :: _ =>
      let afterBrace := match (splitOnce [lbrace] e0).2 with | some a => a | none => []
      ((name, findallWC afterBrace) :: rest.1, rest.2)

/-- The blueprint loop of `gen_blueprints_file` (lines 393-415): item texts,
blueprint names, and the tracked all-fields map (own fields plus fields of
every extended Requires extendable, detected through the substring tests of
lines 410-414). -/
def bpLoop (reqNames provNames aliasNames : List Str) (complexity : Str) (reg : Reg)
    (reqExtFields : List (Str × List (Str × Str))) (i : Nat) :
    Nat → RS → (List Str × List Str × List (Str × List (Str × Str))) × RS
  | 0, s => (([], [], []), s)
  | n + 1, s =>
    let service := SERVICES.getD (i % SERVICES.length) []
    let suffix : Str :=
      if i ≥ SERVICES.length then str "_" ++ natChars (i / SERVICES.length) else []
    let bpName := service ++ str "_slo" ++ suffix
    let pI := genBlueprintItem bpName reqNames provNames aliasNames complexity reg s
    let extFields := reqNames.foldr (fun extName acc =>
      (if hasSeg (str "extends [") pI.1.text ∧ hasSeg extName pI.1.text then
        (match lookupA reqExtFields extName with | some fs => fs | none => [])
      else []) ++ acc) []
    let rest := bpLoop reqNames provNames aliasNames complexity reg reqExtFields (i + 1) n pI.2
    ((pI.1.text :: rest.1.1, bpName :: rest.1.2.1,
      (bpName, pI.1.fieldInfo ++ extFields) :: rest.1.2.2), rest.2)

/-- The result of `gen_blueprints_file` (lines 365-420): the file content and
the tracked names, field map, alias names and registry the later stages use. -/
structure BPFile where
  content : Str
  names : List Str
  fieldsMap : List (Str × List (Str × Str))
  aliasNames : List Str
  reg : Reg

/-- `gen_blueprints_file(num_blueprints, complexity, num_aliases,
num_req_ext, num_prov_ext)` (lines 365-420). -/
def genBlueprintsFile (numBlueprints : Nat) (complexity : Str)
    (numAliases numReqExt numProvExt : Nat) (s : RS) : BPFile × RS :=
  let pA := genTypeAliases numAliases s
  let pE := genExtendables numReqExt numProvExt pA.2
  let pRF := reparseLoop pE.1.1 0 numReqExt pE.2
  let pB := bpLoop pE.1.2.1 pE.1.2.2 pA.1.2.1 complexity pA.1.2.2 pRF.1 0 numBlueprints pRF.2
  let bpLines := str "Blueprints for \"SLO\"" :: pB.1.1
  let sections : List Str :=
    (if pA.1.1.isEmpty then [] else [joinNL pA.1.1]) ++
    (if pE.1.1.isEmpty then [] else [joinNL pE.1.1]) ++
    [joinNL bpLines]
  ({ content := List.intercalate [nl, nl] sections ++ [nl], names := pB.1.2.1,
     fieldsMap := pB.1.2.2, aliasNames := pA.1.2.1, reg := pA.1.2.2 }, pB.2)

/-! ## Expectation generation (generate_corpus.py, lines 423-444) -/

/-- One generated expectation: its name, the per-field values, and the two
fixed scalar fields. -/
structure ExpRec where
  ename : Str
  vals : List (Str × Str)
  threshold : ℚ
  window : Nat

/-- The per-field value loop of one expectation (lines 433-435). -/
def expValsLoop (fuel : Nat) (reg : Reg) :
    List (Str × Str) → RS → Except PyErr (List (Str × Str)) × RS
  | [], s => (.ok [], s)
  | f :: rest, s =>
    match valueForTypeF fuel reg f.2 s with
    | (.ok v, s1) =>
      match expValsLoop fuel reg rest s1 with
      | (.ok ps, s2) => (.ok ((f.1, v) :: ps), s2)
      | (.error e, s2) => (.error e, s2)
    | (.error e, s1) => (.error e, s1)

/-- The recursion budget handed to `value_for_type`: the generated type text
nests at most three levels, so 100 is ample slack for Python's limit. -/
def synthFuel : Nat := 100

/-- The expectation loop of `gen_expectation_file` (lines 427-442), from
index `i`: rendered lines and the structured records behind them. -/
def expLoop (reg : Reg) (bpName : Str) (fields : List (Str × Str)) (team : Str) (i : Nat) :
    Nat → RS → Except PyErr (List Str × List ExpRec) × RS
  | 0, s => (.ok ([], []), s)
  | n + 1, s =>
    let expName := team ++ str "_" ++ bpName ++ str "_" ++ natChars i
    match expValsLoop synthFuel reg fields s with
    | (.ok pairs, s1) =>
      let pt := pyUniform (qlit 95 1) (qlit 9999 100) s1
      let threshold := pyRound 2 pt.1
      let pw := pyChoice [7, 30, 90] 0 pt.2
      let itemLines :=
        (str "  * " ++ quoteS expName ++ str ":") ::
        str "    Provides \x7b" ::
        pairs.map (fun p => str "      " ++ p.1 ++ str ": " ++ p.2 ++ str ",") ++
        [str "      threshold: " ++ renderFloat threshold ++ str ",",
         str "      window_in_days: " ++ natChars pw.1,
         str "    \x7d"]
      match expLoop reg bpName fields team (i + 1) n pw.2 with
      | (.ok rl, s2) =>
        (.ok (itemLines ++ rl.1,
          { ename := expName, vals := pairs, threshold := threshold, window := pw.1 } :: rl.2),
          s2)
      | (.error e, s2) => (.error e, s2)
    | (.error e, s1) => (.error e, s1)

/-- `gen_expectation_file(blueprint_name, fields, num_expectations, org,
team)` (lines 423-444); `org` is accepted and unused, as in the source. -/
def genExpectationFile (reg : Reg) (bpName : Str) (fields : List (Str × Str))
    (numExpectations : Nat) (_org team : Str) (s : RS) :
    Except PyErr (Str × List ExpRec) × RS :=
  match expLoop reg bpName fields team 0 numExpectations s with
  | (.ok rl, s1) =>
    (.ok (joinNL ((str "Expectations for " ++ quoteS bpName) :: rl.1) ++ [nl], rl.2), s1)
  | (.error e, s1) => (.error e, s1)

/-! ## Scale profiles and orchestration (generate_corpus.py, lines 449-588) -/

/-- One entry of `SCALES` (lines 449-510). -/
structure ScaleConfig where
  numBlueprints : Nat
  complexity : Str
  numAliases : Nat
  numReqExt : Nat
  numProvExt : Nat
  numOrgs : Nat
  teamsPerOrg : Nat
  expPerTeamBlueprint : Nat

/-- `SCALES["small"]`. -/
def smallConfig : ScaleConfig := ⟨2, str "small", 0, 0, 0, 1, 1, 2⟩

/-- `SCALES["medium"]`. -/
def mediumConfig : ScaleConfig := ⟨5, str "medium", 2, 1, 1, 2, 2, 3⟩

/-- `SCALES["large"]`. -/
def largeConfig : ScaleConfig := ⟨20, str "large", 5, 3, 3, 3, 4, 5⟩

/-- `SCALES["huge"]`. -/
def hugeConfig : ScaleConfig := ⟨50, str "huge", 10, 5, 5, 5, 5, 8⟩

/-- `SCALES["insane"]`. -/
def insaneConfig : ScaleConfig := ⟨50, str "huge", 10, 5, 5, 8, 10, 15⟩

/-- `SCALES["absurd"]`. -/
def absurdConfig : ScaleConfig := ⟨50, str "huge", 10, 5, 5, 8, 20, 25⟩

/-- The `SCALES` table in iteration order. -/
def SCALES : List (Str × ScaleConfig) :=
  [(str "small", smallConfig), (str "medium", mediumConfig), (str "large", largeConfig),
   (str "huge", hugeConfig), (str "insane", insaneConfig), (str "absurd", absurdConfig)]

/-- One written expectation file: its directory pair, its content, and the
per-blueprint records inside. -/
structure ExpFile where
  org : Str
  team : Str
  content : Str
  parts : List (Str × List ExpRec)

/-- A generated corpus: the blueprint file plus every expectation file, with
the counters `generate_scale` tracks. -/
structure Corpus where
  bpContent : Str
  bpNames : List Str
  fieldsMap : List (Str × List (Str × Str))
  expFiles : List ExpFile
  totalExpectations : Nat

/-- Python `list(dict.fromkeys(l))`: first-occurrence deduplication. -/
def dedupFirst (l : List Str) : List Str :=
  l.foldl (fun acc x => if acc.contains x then acc else acc ++ [x]) []

/-- The per-team blueprint subset of `generate_scale` (lines 552-558): a
rotated window over the blueprint names, deduplicated keeping first
occurrences. -/
def rotatedBps (names : List Str) (numOrgs teamsPerOrg orgI teamI : Nat) : List Str :=
  let base := names.take (max 1 (names.length / (numOrgs * teamsPerOrg) + 1))
  let offset := (orgI * teamsPerOrg + teamI) * base.length
  dedupFirst ((List.range base.length).map (fun j => names.getD ((offset + j) % names.length) []))

/-- The per-team loop body over its blueprints (lines 560-565): file content
parts, per-blueprint records, and the `total_expectations` increments. -/
def teamBpsLoop (reg : Reg) (fieldsMap : List (Str × List (Str × Str))) (expPer : Nat)
    (org team : Str) : List Str → RS → Except PyErr (List Str × List (Str × List ExpRec) × Nat) × RS
  | [], s => (.ok ([], [], 0), s)
  | bp :: rest, s =>
    let fields := match lookupA fieldsMap bp with | some fs => fs | none => []
    match genExpectationFile reg bp fields expPer org team s with
    | (.ok pr, s1) =>
      match teamBpsLoop reg fieldsMap expPer org team rest s1 with
      | (.ok r2, s2) => (.ok (pr.1 :: r2.1, (bp, pr.2) :: r2.2.1, expPer + r2.2.2), s2)
      | (.error e, s2) => (.error e, s2)
    | (.error e, s1) => (.error e, s1)

/-- The team loop of `generate_scale` (lines 547-569). -/
def teamsLoop (reg : Reg) (fieldsMap : List (Str × List (Str × Str))) (names : List Str)
    (cfg : ScaleConfig) (orgI : Nat) (orgName : Str) (teamI : Nat) :
    Nat → RS → Except PyErr (List ExpFile × Nat) × RS
  | 0, s => (.ok ([], 0), s)
  | n + 1, s =>
    let teamName := TEAMS.getD (teamI % TEAMS.length) []
    let bps := rotatedBps names cfg.numOrgs cfg.teamsPerOrg orgI teamI
    match teamBpsLoop reg fieldsMap cfg.expPerTeamBlueprint orgName teamName bps s with
    | (.ok r, s1) =>
      match teamsLoop reg fieldsMap names cfg orgI orgName (teamI + 1) n s1 with
      | (.ok r2, s2) =>
        (.ok ({ org := orgName, team := teamName, content := joinNL r.1,
                parts := r.2.1 } :: r2.1, r.2.2 + r2.2), s2)
      | (.error e, s2) => (.error e, s2)
    | (.error e, s1) => (.error e, s1)

/-- The organization loop of `generate_scale` (lines 545-569). -/
def orgsLoop (reg : Reg) (fieldsMap : List (Str × List (Str × Str))) (names : List Str)
    (cfg : ScaleConfig) (orgI : Nat) :
    Nat → RS → Except PyErr (List ExpFile × Nat) × RS
  | 0, s => (.ok ([], 0), s)
  | n + 1, s =>
    let orgName := ORGS.getD (orgI % ORGS.length) []
    match teamsLoop reg fieldsMap names cfg orgI orgName 0 cfg.teamsPerOrg s with
    | (.ok r, s1) =>
      match orgsLoop reg fieldsMap names cfg (orgI + 1) n s1 with
      | (.ok r2, s2) => (.ok (r.1 ++ r2.1, r.2 + r2.2), s2)
      | (.error e, s2) => (.error e, s2)
    | (.error e, s1) => (.error e, s1)

/-- `generate_scale(scale_name, config)` (lines 516-588), up to the
file-system writes and byte-size statistics: the blueprint file content and
every expectation file content, with the expectation counter. -/
def generateScale (cfg : ScaleConfig) (s : RS) : Except PyErr Corpus × RS :=
  let pB := genBlueprintsFile cfg.numBlueprints cfg.complexity cfg.numAliases
    cfg.numReqExt cfg.numProvExt s
  match orgsLoop pB.1.reg pB.1.fieldsMap pB.1.names cfg 0 cfg.numOrgs pB.2 with
  | (.ok r, s1) =>
    (.ok { bpContent := pB.1.content, bpNames := pB.1.names, fieldsMap := pB.1.fieldsMap,
           expFiles := r.1, totalExpectations := r.2 }, s1)
  | (.error e, s1) => (.error e, s1)

/-! ## String lemmas

Elementary facts about the Python string operations above, used to re-trace
`value_for_type`'s parsing of the grammar's rendered type text. -/

theorem ne_of_length_ne {xs ys : Str} (h : xs.length ≠ ys.length) : xs ≠ ys :=
  fun he => h (he ▸ rfl)

theorem leadsWith_eq_of_take (p xs ys : Str) :
    leadsWith p (xs ++ ys) = (leadsWith (p.take xs.length) xs && leadsWith (p.drop xs.length) ys) := by
  induction p generalizing xs with
  | nil => simp [leadsWith]
  | cons a as ih =>
    cases xs with
    | nil => simp [leadsWith]
    | cons b bs =>
      simp only [List.cons_append, leadsWith, List.length_cons, List.take_succ_cons,
        List.drop_succ_cons, List.append_eq]
      rw [ih bs, Bool.and_assoc]

theorem leadsWith_refl (p : Str) : leadsWith p p = true := by
  induction p with
  | nil => rfl
  | cons a as ih => simp [leadsWith, ih]

theorem lenDropWhile_le (p : Char → Bool) (l : Str) : (l.dropWhile p).length ≤ l.length := by
  induction l with
  | nil => simp
  | cons a as ih =>
    by_cases h : p a = true
    · rw [List.dropWhile_cons_of_pos h]
      simp only [List.length_cons]
      omega
    · rw [List.dropWhile_cons_of_neg (by simpa using h)]

theorem dropWhile_keep (p : Char → Bool) (xs ys : Str) (hne : xs ≠ [])
    (hx : xs.dropWhile p = xs) : (xs ++ ys).dropWhile p = xs ++ ys := by
  cases xs with
  | nil => exact absurd rfl hne
  | cons a as =>
    have hpa : ¬ p a = true := by
      intro h
      rw [List.dropWhile_cons_of_pos h] at hx
      have h1 := congrArg List.length hx
      have h2 := lenDropWhile_le p as
      simp at h1
      omega
    rw [List.cons_append, List.dropWhile_cons_of_neg hpa]

theorem dropWhile_all (p : Char → Bool) (xs ys : Str) (h : ∀ a ∈ xs, p a = true) :
    (xs ++ ys).dropWhile p = ys.dropWhile p := by
  induction xs with
  | nil => rfl
  | cons a as ih =>
    rw [List.cons_append, List.dropWhile_cons_of_pos (h a (by simp))]
    exact ih (fun a ha => h a (by simp [ha]))

theorem takeWhile_all (p : Char → Bool) (xs ys : Str) (h : ∀ a ∈ xs, p a = true) :
    (xs ++ ys).takeWhile p = xs ++ ys.takeWhile p := by
  induction xs with
  | nil => rfl
  | cons a as ih =>
    rw [List.cons_append, List.takeWhile_cons_of_pos (h a (by simp))]
    rw [ih (fun a ha => h a (by simp [ha])), List.cons_append]

theorem dropTrail_append_keep (p : Char → Bool) (xs ys : Str) (hne : ys ≠ [])
    (hy : dropTrail p ys = ys) : dropTrail p (xs ++ ys) = xs ++ ys := by
  unfold dropTrail at *
  rw [List.reverse_append]
  rw [dropWhile_keep p ys.reverse xs.reverse (by simpa using hne)
    (by have := congrArg List.reverse hy; simpa using this)]
  simp

theorem dropTrail_append_all (p : Char → Bool) (xs ys : Str) (h : ∀ a ∈ ys, p a = true) :
    dropTrail p (xs ++ ys) = dropTrail p xs := by
  unfold dropTrail
  rw [List.reverse_append, dropWhile_all p ys.reverse xs.reverse (fun a ha => h a (by simpa using ha))]

theorem dropTrail_snoc (p : Char → Bool) (xs : Str) (a : Char) (h : p a = false) :
    dropTrail p (xs ++ [a]) = xs ++ [a] := by
  apply dropTrail_append_keep p xs [a] (by simp)
  have hpa : ¬ p a = true := by rw [h]; exact Bool.false_ne_true
  unfold dropTrail
  rw [show ([a] : Str).reverse = [a] from rfl, List.dropWhile_cons_of_neg hpa]
  rfl

theorem trimS_eq_self (t : Str) (h1 : t.dropWhile (fun c => c = ' ') = t)
    (h2 : dropTrail (fun c => c = ' ') t = t) : trimS t = t := by
  unfold trimS
  rw [h1, h2]

theorem splitChar_ne_nil (c : Char) (t : Str) : splitChar c t ≠ [] := by
  cases t with
  | nil => simp [splitChar]
  | cons a as =>
    unfold splitChar
    rcases h : splitChar c as with _ | ⟨s, ss⟩ <;> split <;> split <;> simp_all

theorem getLastD_cons_of_ne_nil {l : List Str} (x : Str) (h : l ≠ []) :
    (x :: l).getLastD [] = l.getLastD [] := by
  cases l with
  | nil => exact absurd rfl h
  | cons a as => simp [List.getLastD_cons]

theorem splitChar_no_sep (c : Char) (t : Str) (h : ∀ a ∈ t, a ≠ c) :
    splitChar c t = [t] := by
  induction t with
  | nil => rfl
  | cons a as ih =>
    conv_lhs => rw [splitChar]
    rw [ih (fun x hx => h x (by simp [hx]))]
    simp [h a (by simp)]

theorem splitChar_sep_cons (c : Char) (xs ys : Str) (h : ∀ a ∈ xs, a ≠ c) :
    splitChar c (xs ++ c :: ys) = xs :: splitChar c ys := by
  induction xs with
  | nil =>
    show splitChar c (c :: ys) = [] :: splitChar c ys
    conv_lhs => rw [splitChar]
    rcases hs : splitChar c ys with _ | ⟨s, ss⟩
    · exact absurd hs (splitChar_ne_nil c ys)
    · simp
  | cons a as ih =>
    rw [List.cons_append]
    conv_lhs => rw [splitChar]
    rw [ih (fun x hx => h x (by simp [hx]))]
    simp [h a (by simp)]

theorem lastFrag_sep (c : Char) (xs ys : Str) (h : ∀ a ∈ xs, a ≠ c) :
    (splitChar c (xs ++ c :: ys)).getLastD [] = (splitChar c ys).getLastD [] := by
  rw [splitChar_sep_cons c xs ys h, getLastD_cons_of_ne_nil xs (splitChar_ne_nil c ys)]

theorem hasSeg_cons_of (p : Str) (c : Char) (rest : Str) (h : hasSeg p rest = true) :
    hasSeg p (c :: rest) = true := by
  cases rest with
  | nil => cases p <;> simp_all [hasSeg, leadsWith]
  | cons b bs => unfold hasSeg; rw [h]; simp

theorem hasSeg_of_leadsWith (p t : Str) (h : leadsWith p t = true) : hasSeg p t = true := by
  cases t with
  | nil => cases p with
    | nil => rfl
    | cons a as => simp [leadsWith] at h
  | cons a as => unfold hasSeg; rw [h]; simp

theorem hasSeg_append_right (p xs ys : Str) (h : hasSeg p ys = true) :
    hasSeg p (xs ++ ys) = true := by
  induction xs with
  | nil => exact h
  | cons a as ih => exact hasSeg_cons_of p a (as ++ ys) ih

theorem hasSeg_false_of_head_notMem (c : Char) (p t : Str) (h : c ∉ t) :
    hasSeg (c :: p) t = false := by
  induction t with
  | nil => rfl
  | cons a as ih =>
    unfold hasSeg
    have hca : ¬ c = a := fun he => h (by simp [he])
    rw [ih (fun hm => h (by simp [hm]))]
    simp [leadsWith, hca]

theorem isDigit_ne {c : Char} (d : Char) (h : c.isDigit = true) (hd : d.isDigit = false) :
    c ≠ d := by
  intro he
  rw [he, hd] at h
  cases h

/-! ## Decimal rendering lemmas -/

theorem digitChar_isDigit : ∀ m, m < 10 → (Nat.digitChar m).isDigit = true := by decide

theorem digitChar_val : ∀ m, m < 10 → (Nat.digitChar m).toNat - 48 = m := by decide

theorem digitSingleton_spec (m : Nat) (hm : m < 10) :
    ([Nat.digitChar m] : Str) ≠ [] ∧ (∀ c ∈ ([Nat.digitChar m] : Str), c.isDigit = true) ∧
      digitsVal [Nat.digitChar m] = m := by
  refine ⟨by simp, ?_, ?_⟩
  · intro c hc
    rw [List.mem_singleton] at hc
    subst hc
    exact digitChar_isDigit m hm
  · unfold digitsVal
    simp only [List.foldl_cons, List.foldl_nil]
    rw [Nat.zero_mul, Nat.zero_add]
    exact digitChar_val m hm

theorem natCharsAux_spec (fuel : Nat) :
    ∀ n, n < 10 ^ (fuel + 1) → natCharsAux (fuel + 1) n ≠ [] ∧
      (∀ c ∈ natCharsAux (fuel + 1) n, c.isDigit = true) ∧
      digitsVal (natCharsAux (fuel + 1) n) = n := by
  induction fuel with
  | zero =>
    intro n hn
    have h10 : n < 10 := by simpa using hn
    have hunf : natCharsAux (0 + 1) n = [Nat.digitChar n] := by
      rw [natCharsAux, if_pos h10]
    rw [hunf]
    exact digitSingleton_spec n h10
  | succ f ih =>
    intro n hn
    by_cases h10 : n < 10
    · have hunf : natCharsAux (f + 1 + 1) n = [Nat.digitChar n] := by
        rw [natCharsAux, if_pos h10]
      rw [hunf]
      exact digitSingleton_spec n h10
    · have hunf : natCharsAux (f + 1 + 1) n =
          natCharsAux (f + 1) (n / 10) ++ [Nat.digitChar (n % 10)] := by
        rw [natCharsAux, if_neg h10]
      have hdiv : n / 10 < 10 ^ (f + 1) := by
        rw [Nat.div_lt_iff_lt_mul (by norm_num)]
        calc n < 10 ^ (f + 1 + 1) := hn
        _ = 10 ^ (f + 1) * 10 := by ring
      obtain ⟨hne, hdig, hval⟩ := ih (n / 10) hdiv
      have hm : n % 10 < 10 := Nat.mod_lt n (by norm_num)
      rw [hunf]
      refine ⟨by simp, ?_, ?_⟩
      · intro c hc
        rw [List.mem_append] at hc
        rcases hc with hc | hc
        · exact hdig c hc
        · rw [List.mem_singleton] at hc
          subst hc
          exact digitChar_isDigit _ hm
      · unfold digitsVal
        rw [List.foldl_append]
        simp only [List.foldl_cons, List.foldl_nil]
        unfold digitsVal at hval
        rw [hval, digitChar_val _ hm]
        omega

theorem n_lt_ten_pow_succ (n : Nat) : n < 10 ^ (n + 1) :=
  lt_trans (Nat.lt_pow_self (by norm_num) n) (Nat.pow_lt_pow_succ (by norm_num))

theorem natChars_ne_nil (n : Nat) : natChars n ≠ [] :=
  (natCharsAux_spec n n (n_lt_ten_pow_succ n)).1

theorem natChars_digits (n : Nat) : ∀ c ∈ natChars n, c.isDigit = true :=
  (natCharsAux_spec n n (n_lt_ten_pow_succ n)).2.1

theorem digitsVal_natChars (n : Nat) : digitsVal (natChars n) = n :=
  (natCharsAux_spec n n (n_lt_ten_pow_succ n)).2.2

theorem parseFloatQ_natChars (n : Nat) : parseFloatQ (natChars n) = some (n : ℚ) := by
  unfold parseFloatQ
  rw [splitChar_no_sep '.' (natChars n)
    (fun a ha => isDigit_ne '.' (natChars_digits n a ha) (by decide))]
  show (if natChars n ≠ [] ∧ (natChars n).all Char.isDigit = true then
      some ((digitsVal (natChars n) : ℚ)) else none) = some (n : ℚ)
  rw [if_pos ⟨natChars_ne_nil n, by
    rw [List.all_eq_true]; intro a ha; exact natChars_digits n a ha⟩]
  rw [digitsVal_natChars]

/-! ## Float rendering and parsing lemmas -/

theorem round_mono_q {x y : ℚ} (h : x ≤ y) : round x ≤ round y := by
  rw [round_eq, round_eq]
  exact Int.floor_le_floor (by linarith)

/-- The shape the range-pattern matcher relies on: a nonempty run of digits,
or two nonempty digit runs around a single dot. -/
def numShape (x : Str) : Prop :=
  (x ≠ [] ∧ ∀ c ∈ x, c.isDigit = true) ∨
  (∃ d1 d2, x = d1 ++ '.' :: d2 ∧ d1 ≠ [] ∧ d2 ≠ [] ∧
    (∀ c ∈ d1, c.isDigit = true) ∧ (∀ c ∈ d2, c.isDigit = true))

theorem numShape_natChars (n : Nat) : numShape (natChars n) :=
  Or.inl ⟨natChars_ne_nil n, natChars_digits n⟩

theorem emod100_toNat_lt (c : ℤ) : (c % 100).toNat < 100 := by
  have h1 : c % 100 < 100 := Int.emod_lt_of_pos c (by norm_num)
  omega

theorem numShape_renderFloat (q : ℚ) : numShape (renderFloat q) := by
  right
  unfold renderFloat
  dsimp only
  generalize pyFloorZ (mkRat (q.num * 100) q.den) = c
  have hf : (c % 100).toNat < 100 := emod100_toNat_lt c
  split
  · exact ⟨natChars ((c / 100).toNat), [Nat.digitChar ((c % 100).toNat / 10)], rfl,
      natChars_ne_nil _, by simp, natChars_digits _, by
        intro x hx
        rw [List.mem_singleton] at hx
        subst hx
        exact digitChar_isDigit _ (by omega)⟩
  · exact ⟨natChars ((c / 100).toNat),
      [Nat.digitChar ((c % 100).toNat / 10), Nat.digitChar ((c % 100).toNat % 10)], rfl,
      natChars_ne_nil _, by simp, natChars_digits _, by
        intro x hx
        simp only [List.mem_cons, List.mem_singleton, List.not_mem_nil, or_false] at hx
        rcases hx with hx | hx <;> subst hx
        · exact digitChar_isDigit _ (by omega)
        · exact digitChar_isDigit _ (Nat.mod_lt _ (by norm_num))⟩

theorem mkRat_mul_eq (q : ℚ) : mkRat (q.num * 100) q.den = q * 100 := by
  rw [Rat.mkRat_eq_div]
  push_cast
  conv_rhs => rw [← Rat.num_div_den q, div_mul_eq_mul_div]

theorem digitsVal_two (a b : Nat) :
    digitsVal [Nat.digitChar a, Nat.digitChar b] =
      ((Nat.digitChar a).toNat - 48) * 10 + ((Nat.digitChar b).toNat - 48) := by
  unfold digitsVal
  simp only [List.foldl_cons, List.foldl_nil]
  ring_nf

theorem parseFloatQ_renderFloat (q : ℚ) (h0 : 0 ≤ q) (h100 : (q * 100).den = 1) :
    parseFloatQ (renderFloat q) = some q := by
  have hNum : (((q * 100).num : ℚ)) = q * 100 := by
    conv_rhs => rw [← Rat.num_div_den (q * 100), h100]
    simp
  set N := (q * 100).num with hNdef
  have hN0 : 0 ≤ N := Rat.num_nonneg.mpr (by positivity)
  have hc : pyFloorZ (mkRat (q.num * 100) q.den) = N := by
    rw [pyFloorZ_eq, mkRat_mul_eq, ← hNum, Int.floor_intCast]
  have hsplit : 100 * (N / 100) + N % 100 = N := Int.ediv_add_emod N 100
  have hd0 : 0 ≤ N / 100 := Int.ediv_nonneg hN0 (by norm_num)
  have hm0 : 0 ≤ N % 100 := Int.emod_nonneg N (by norm_num)
  have hmlt : N % 100 < 100 := Int.emod_lt_of_pos N (by norm_num)
  have hq : q = ((N / 100 : ℤ) : ℚ) + ((N % 100 : ℤ) : ℚ) / 100 := by
    have h100q : q = (N : ℚ) / 100 := by
      rw [hNum]
      field_simp
    have hcast : (100 : ℚ) * ((N / 100 : ℤ) : ℚ) + ((N % 100 : ℤ) : ℚ) = (N : ℚ) := by
      exact_mod_cast congrArg (fun z : ℤ => (z : ℚ)) hsplit
    rw [h100q]
    field_simp
    linarith [hcast]
  have hwq : (((N / 100).toNat : ℕ) : ℚ) = ((N / 100 : ℤ) : ℚ) := by
    have h' := Int.toNat_of_nonneg hd0
    exact_mod_cast congrArg (fun z : ℤ => (z : ℚ)) h'
  have hfq : (((N % 100).toNat : ℕ) : ℚ) = ((N % 100 : ℤ) : ℚ) := by
    have h' := Int.toNat_of_nonneg hm0
    exact_mod_cast congrArg (fun z : ℤ => (z : ℚ)) h'
  unfold renderFloat
  rw [hc]
  dsimp only
  set w := (N / 100).toNat with hw
  set f := (N % 100).toNat with hf
  have hflt : f < 100 := by omega
  have hfval : (f : ℚ) = ((N % 100 : ℤ) : ℚ) := hfq
  have hwval : (w : ℚ) = ((N / 100 : ℤ) : ℚ) := hwq
  have hdot : ∀ a ∈ natChars w, a ≠ '.' :=
    fun a ha => isDigit_ne '.' (natChars_digits w a ha) (by decide)
  split
  · next hrem =>
    unfold parseFloatQ
    rw [splitChar_sep_cons '.' (natChars w) [Nat.digitChar (f / 10)] hdot]
    rw [splitChar_no_sep '.' [Nat.digitChar (f / 10)] (by
      intro a ha
      rw [List.mem_singleton] at ha
      subst ha
      exact isDigit_ne '.' (digitChar_isDigit _ (by omega)) (by decide))]
    show (if (natChars w ++ [Nat.digitChar (f / 10)]) ≠ [] ∧
        (natChars w ++ [Nat.digitChar (f / 10)]).all Char.isDigit = true then
        some (qAdd ((digitsVal (natChars w) : ℚ))
          (mkRat (digitsVal [Nat.digitChar (f / 10)])
            (10 ^ ([Nat.digitChar (f / 10)] : Str).length)))
      else none) = some q
    rw [if_pos ⟨by simp, by
      rw [List.all_eq_true]
      intro a ha
      rw [List.mem_append] at ha
      rcases ha with ha | ha
      · exact natChars_digits w a ha
      · rw [List.mem_singleton] at ha
        subst ha
        exact digitChar_isDigit _ (by omega)⟩]
    congr 1
    rw [digitsVal_natChars, (digitSingleton_spec (f / 10) (by omega)).2.2]
    rw [qAdd_eq, Rat.mkRat_eq_div]
    rw [show ([Nat.digitChar (f / 10)] : Str).length = 1 from rfl]
    rw [hq, ← hwval, ← hfval]
    clear_value w f
    obtain ⟨g, hg⟩ : ∃ g, f = 10 * g := ⟨f / 10, by omega⟩
    subst hg
    rw [show 10 * g / 10 = g from by omega]
    push_cast
    ring
  · next hrem =>
    unfold parseFloatQ
    rw [splitChar_sep_cons '.' (natChars w)
      [Nat.digitChar (f / 10), Nat.digitChar (f % 10)] hdot]
    rw [splitChar_no_sep '.' [Nat.digitChar (f / 10), Nat.digitChar (f % 10)] (by
      intro a ha
      simp only [List.mem_cons, List.mem_singleton, List.not_mem_nil, or_false] at ha
      rcases ha with ha | ha <;> subst ha
      · exact isDigit_ne '.' (digitChar_isDigit _ (by omega)) (by decide)
      · exact isDigit_ne '.' (digitChar_isDigit _ (Nat.mod_lt _ (by norm_num))) (by decide))]
    show (if (natChars w ++ [Nat.digitChar (f / 10), Nat.digitChar (f % 10)]) ≠ [] ∧
        (natChars w ++ [Nat.digitChar (f / 10), Nat.digitChar (f % 10)]).all Char.isDigit = true then
        some (qAdd ((digitsVal (natChars w) : ℚ))
          (mkRat (digitsVal [Nat.digitChar (f / 10), Nat.digitChar (f % 10)])
            (10 ^ ([Nat.digitChar (f / 10), Nat.digitChar (f % 10)] : Str).length)))
      else none) = some q
    rw [if_pos ⟨by simp, by
      rw [List.all_eq_true]
      intro a ha
      rw [List.mem_append] at ha
      rcases ha with ha | ha
      · exact natChars_digits w a ha
      · simp only [List.mem_cons, List.mem_singleton, List.not_mem_nil, or_false] at ha
        rcases ha with ha | ha <;> subst ha
        · exact digitChar_isDigit _ (by omega)
        · exact digitChar_isDigit _ (Nat.mod_lt _ (by norm_num))⟩]
    congr 1
    rw [digitsVal_natChars, digitsVal_two]
    rw [digitChar_val _ (by omega : f / 10 < 10), digitChar_val _ (Nat.mod_lt _ (by norm_num))]
    rw [qAdd_eq, Rat.mkRat_eq_div]
    rw [show ([Nat.digitChar (f / 10), Nat.digitChar (f % 10)] : Str).length = 2 from rfl]
    rw [hq, ← hwval, ← hfval]
    clear_value w f
    obtain ⟨a, b, hab, hblt⟩ : ∃ a b, f = 10 * a + b ∧ b < 10 :=
      ⟨f / 10, f % 10, by omega, Nat.mod_lt _ (by norm_num)⟩
    subst hab
    rw [show (10 * a + b) / 10 = a from by omega, show (10 * a + b) % 10 = b from by omega]
    push_cast
    ring

/-! ## Range-pattern matcher lemmas

The generated range text is `<prefix>( <low>..<high> ) }` with numeral shapes
for both bounds; the matcher recovers exactly the two numerals. -/

theorem numShape_ne_nil {x : Str} (h : numShape x) : x ≠ [] := by
  rcases h with ⟨hne, _⟩ | ⟨d1, d2, hx, hd1, _, _, _⟩
  · exact hne
  · subst hx
    cases d1 <;> simp

theorem numShape_head {x : Str} (h : numShape x) :
    ∃ c t, x = c :: t ∧ c.isDigit = true := by
  rcases h with ⟨hne, hdig⟩ | ⟨d1, d2, hx, hd1, _, hdig1, _⟩
  · cases x with
    | nil => exact absurd rfl hne
    | cons c t => exact ⟨c, t, rfl, hdig c (by simp)⟩
  · subst hx
    cases d1 with
    | nil => exact absurd rfl hd1
    | cons c t => exact ⟨c, t ++ '.' :: d2, rfl, hdig1 c (by simp)⟩

theorem numShape_all_digitDot {x : Str} (h : numShape x) : ∀ c ∈ x, isDigitDot c = true := by
  rcases h with ⟨_, hdig⟩ | ⟨d1, d2, hx, _, _, hdig1, hdig2⟩
  · intro c hc
    unfold isDigitDot
    rw [hdig c hc]
    simp
  · subst hx
    intro c hc
    unfold isDigitDot
    rw [List.mem_append, List.mem_cons] at hc
    rcases hc with hc | hc | hc
    · rw [hdig1 c hc]; simp
    · subst hc; simp
    · rw [hdig2 c hc]; simp

theorem head_digit_no_dd (t : Str) (c : Char) (hc : c.isDigit = true) :
    leadsWith (str "..") ((c :: t).dropWhile (fun x => x = ' ')) = false := by
  have hcs : ¬ (c = ' ') := fun he => by subst he; cases hc
  rw [List.dropWhile_cons_of_neg (by simpa using hcs)]
  have hdd : str ".." = '.' :: ['.'] := by decide
  rw [hdd]
  have hne : ¬ ('.' = c) := fun he => isDigit_ne '.' hc (by decide) he.symm
  simp [leadsWith, hne]

theorem dot_digit_no_dd (t : Str) (c : Char) (hc : c.isDigit = true) :
    leadsWith (str "..") (('.' :: c :: t).dropWhile (fun x => x = ' ')) = false := by
  rw [List.dropWhile_cons_of_neg (by decide)]
  have hdd : str ".." = '.' :: ['.'] := by decide
  rw [hdd]
  have hne : ¬ ('.' = c) := fun he => isDigit_ne '.' hc (by decide) he.symm
  simp [leadsWith, hne]

theorem drop_digit_head (d : Str) (hd : ∀ c ∈ d, c.isDigit = true) (j : Nat)
    (hj : j < d.length) : ∃ c t, d.drop j = c :: t ∧ c.isDigit = true := by
  rcases h : d.drop j with _ | ⟨c, t⟩
  · have := congrArg List.length h
    rw [List.length_drop] at this
    simp at this
    omega
  · refine ⟨c, t, rfl, hd c ?_⟩
    have : c ∈ d.drop j := by rw [h]; simp
    exact List.drop_subset j d this

theorem dd_fail (A B : Str) (hA : numShape A) (hB : numShape B)
    (m : Nat) (h1 : A.length < m) (h2 : m ≤ (A ++ '.' :: '.' :: B).length) :
    leadsWith (str "..")
      ((((A ++ '.' :: '.' :: B).drop m) ++ str " ) \x7d").dropWhile (fun x => x = ' ')) =
      false := by
  have hrest : leadsWith (str "..") ((str " ) \x7d").dropWhile (fun x => x = ' ')) = false := by
    decide
  obtain ⟨k, hk⟩ : ∃ k, m = A.length + k := ⟨m - A.length, by omega⟩
  subst hk
  rw [List.drop_append]
  have hklb : 1 ≤ k := by omega
  have hkub : k ≤ 2 + B.length := by
    rw [List.length_append] at h2
    simp at h2
    omega
  obtain ⟨c0, t0, hBe0, hc0⟩ := numShape_head hB
  match k, hklb with
  | 1, _ =>
    rw [List.drop_succ_cons, List.drop_zero, hBe0]
    simp only [List.cons_append]
    exact dot_digit_no_dd (t0 ++ str " ) \x7d") c0 hc0
  | 2, _ =>
    rw [List.drop_succ_cons, List.drop_succ_cons, List.drop_zero, hBe0]
    simp only [List.cons_append]
    exact head_digit_no_dd (t0 ++ str " ) \x7d") c0 hc0
  | (j + 3), _ =>
    rw [List.drop_succ_cons, List.drop_succ_cons]
    have hj : j + 1 ≤ B.length := by omega
    rcases hB with ⟨hne, hdig⟩ | ⟨d1, d2, hBe, hd1, hd2, hdig1, hdig2⟩
    · by_cases hlt : j + 1 < B.length
      · obtain ⟨c, t, he, hc⟩ := drop_digit_head B hdig (j + 1) hlt
        rw [he, List.cons_append]
        exact head_digit_no_dd (t ++ str " ) \x7d") c hc
      · rw [List.drop_eq_nil_of_le (by omega), List.nil_append]
        exact hrest
    · subst hBe
      by_cases hj1 : j + 1 < d1.length
      · rw [List.drop_append_of_le_length (le_of_lt hj1)]
        obtain ⟨c, t, he, hc⟩ := drop_digit_head d1 hdig1 (j + 1) hj1
        rw [he]
        simp only [List.cons_append]
        exact head_digit_no_dd _ c hc
      · by_cases hj2 : j + 1 = d1.length
        · rw [hj2, List.drop_left]
          obtain ⟨c, t, he, hc⟩ := numShape_head (Or.inl ⟨hd2, hdig2⟩ : numShape d2)
          rw [he]
          simp only [List.cons_append]
          exact dot_digit_no_dd _ c hc
        · obtain ⟨j2, hj2e⟩ : ∃ j2, j + 1 = d1.length + (j2 + 1) := by
            refine ⟨j + 1 - d1.length - 1, ?_⟩
            omega
          rw [hj2e, List.drop_append, List.drop_succ_cons]
          have hj2b : j2 ≤ d2.length := by
            rw [List.length_append, List.length_cons] at hj
            omega
          by_cases hlt2 : j2 < d2.length
          · obtain ⟨c, t, he, hc⟩ := drop_digit_head d2 hdig2 j2 hlt2
            rw [he]
            simp only [List.cons_append]
            exact head_digit_no_dd _ c hc
          · rw [List.drop_eq_nil_of_le (by omega), List.nil_append]
            exact hrest

theorem tryLens1_descend (run rest0 : Str) (target : Nat) :
    ∀ len, target ≤ len →
    (∀ m, target < m → m ≤ len →
      leadsWith (str "..") (((run.drop m) ++ rest0).dropWhile (fun x => x = ' ')) = false) →
    tryLens1 run rest0 len = tryLens1 run rest0 target := by
  intro len
  induction len with
  | zero =>
    intro hle _
    have : target = 0 := by omega
    rw [this]
  | succ k ih =>
    intro hle hfail
    rcases Nat.eq_or_lt_of_le hle with heq | hlt
    · rw [heq]
    · have hf := hfail (k + 1) (by omega) (le_refl _)
      conv_lhs => rw [tryLens1]
      rw [if_neg (by rw [hf]; exact Bool.false_ne_true)]
      exact ih (by omega) (fun m hm1 hm2 => hfail m hm1 (by omega))

theorem tryLens2_full (B rest2 : Str) (hB : B ≠ [])
    (hlead : leadsWith (str ")") (rest2.dropWhile (fun x => x = ' ')) = true) :
    tryLens2 B rest2 B.length = some B := by
  cases B with
  | nil => exact absurd rfl hB
  | cons b bs =>
    rw [List.length_cons, tryLens2]
    rw [List.drop_eq_nil_of_le (by rw [List.length_cons]), List.nil_append]
    rw [if_pos hlead]
    rw [List.take_of_length_le (by rw [List.length_cons])]

theorem takeWhile_str_close :
    (str " ) \x7d").takeWhile isDigitDot = [] := by decide

theorem dropWhile_digit_head (X : Str) (c : Char) (hc : c.isDigit = true) :
    (c :: X).dropWhile (fun x => x = ' ') = c :: X := by
  have hcs : ¬ (c = ' ') := fun he => by subst he; cases hc
  rw [List.dropWhile_cons_of_neg (by simpa using hcs)]

theorem tryLens1_success (A B : Str) (hA : numShape A) (hB : numShape B) :
    tryLens1 (A ++ '.' :: '.' :: B) (str " ) \x7d") A.length = some (A, B) := by
  obtain ⟨a0, t0, hAe, _⟩ := numShape_head hA
  obtain ⟨b0, u0, hBe, hb0⟩ := numShape_head hB
  have hlenA : A.length = t0.length + 1 := by rw [hAe]; rfl
  rw [hlenA, tryLens1]
  rw [← hlenA, List.drop_left]
  have hstep1 : (('.' :: '.' :: B) ++ str " ) \x7d").dropWhile (fun x => x = ' ') =
      '.' :: '.' :: (B ++ str " ) \x7d") := by
    simp only [List.cons_append]
    rw [List.dropWhile_cons_of_neg (by decide)]
  rw [hstep1]
  rw [if_pos (by
    have hdd : str ".." = '.' :: ['.'] := by decide
    rw [hdd]
    simp [leadsWith])]
  have h3 : List.dropWhile (fun c => decide (c = ' '))
      (List.drop 2 ('.' :: '.' :: (B ++ str " ) \x7d"))) = B ++ str " ) \x7d" := by
    rw [show List.drop 2 ('.' :: '.' :: (B ++ str " ) \x7d")) = B ++ str " ) \x7d" from rfl,
      hBe, List.cons_append]
    exact dropWhile_digit_head (u0 ++ str " ) \x7d") b0 hb0
  simp only [h3]
  have hrun2 : (B ++ str " ) \x7d").takeWhile isDigitDot = B := by
    rw [takeWhile_all isDigitDot B (str " ) \x7d") (numShape_all_digitDot hB),
      takeWhile_str_close, List.append_nil]
  simp only [hrun2, List.drop_left]
  rw [tryLens2_full B (str " ) \x7d") (numShape_ne_nil hB) (by decide)]
  simp [List.take_left]

theorem matchRange_cons_none (c : Char) (rest : Str) (h : matchAtR (c :: rest) = none) :
    matchRange (c :: rest) = matchRange rest := by
  rw [matchRange, h]

theorem matchAtR_not_paren (c : Char) (rest : Str) (h : ¬ c = '(') :
    matchAtR (c :: rest) = none := by
  simp only [matchAtR]
  rw [if_neg h]

theorem matchRange_skip (C rest : Str) (hC : '(' ∉ C) :
    matchRange (C ++ rest) = matchRange rest := by
  induction C with
  | nil => rfl
  | cons c cs ih =>
    rw [List.cons_append,
      matchRange_cons_none c (cs ++ rest) (matchAtR_not_paren _ _ (fun he => hC (by simp [he]))),
      ih (fun hm => hC (by simp [hm]))]

theorem matchRange_render (C A B : Str) (hC : '(' ∉ C) (hA : numShape A) (hB : numShape B) :
    matchRange (C ++ '(' :: ' ' :: (A ++ '.' :: '.' :: (B ++ str " ) \x7d"))) = some (A, B) := by
  rw [matchRange_skip C _ hC]
  obtain ⟨a0, t0, hAe, ha0⟩ := numShape_head hA
  rw [matchRange]
  have hAt : matchAtR ('(' :: ' ' :: (A ++ '.' :: '.' :: (B ++ str " ) \x7d"))) = some (A, B) := by
    simp only [matchAtR, if_true]
    have hdw : (' ' :: (A ++ '.' :: '.' :: (B ++ str " ) \x7d"))).dropWhile (fun ch => ch = ' ') =
        A ++ '.' :: '.' :: (B ++ str " ) \x7d") := by
      rw [List.dropWhile_cons_of_pos (by decide), hAe, List.cons_append]
      exact dropWhile_digit_head _ a0 ha0
    rw [hdw]
    have hassoc : A ++ '.' :: '.' :: (B ++ str " ) \x7d") =
        (A ++ '.' :: '.' :: B) ++ str " ) \x7d" := by
      simp [List.append_assoc]
    rw [hassoc]
    have hrun : ((A ++ '.' :: '.' :: B) ++ str " ) \x7d").takeWhile isDigitDot =
        A ++ '.' :: '.' :: B := by
      rw [takeWhile_all isDigitDot _ _ (by
        intro x hx
        simp only [List.mem_append, List.mem_cons] at hx
        rcases hx with hx | hx | hx | hx
        · exact numShape_all_digitDot hA x hx
        · subst hx; decide
        · subst hx; decide
        · exact numShape_all_digitDot hB x hx), takeWhile_str_close, List.append_nil]
    rw [hrun]
    rw [show ((A ++ '.' :: '.' :: B) ++ str " ) \x7d").drop (A ++ '.' :: '.' :: B).length =
      str " ) \x7d" from List.drop_left _ _]
    have hdesc := tryLens1_descend (A ++ '.' :: '.' :: B) (str " ) \x7d") A.length
      (A ++ '.' :: '.' :: B).length
      (by rw [List.length_append]; omega)
      (fun m hm1 hm2 => dd_fail A B hA hB m hm1 hm2)
    rw [hdesc]
    exact tryLens1_success A B hA hB
  rw [hAt]

/-! ## Bounds of the random primitives -/

theorem pyRandom_nonneg (s : RS) : 0 ≤ (pyRandom s).1 := by
  dsimp only [pyRandom, rsNext]
  rw [Rat.mkRat_eq_div]
  exact div_nonneg (Nat.cast_nonneg _) (Nat.cast_nonneg _)

theorem pyRandom_lt_one (s : RS) : (pyRandom s).1 < 1 := by
  dsimp only [pyRandom, rsNext]
  rw [Rat.mkRat_eq_div]
  rw [div_lt_one (by norm_num [pow53])]
  exact_mod_cast Nat.mod_lt _ (by norm_num [pow53])

theorem pyUniform_le_left (a b : ℚ) (s : RS) (h : a ≤ b) : a ≤ (pyUniform a b s).1 := by
  dsimp only [pyUniform]
  rw [qAdd_eq, qMul_eq, qSub_eq]
  nlinarith [pyRandom_nonneg s, pyRandom_lt_one s]

theorem pyUniform_lt_right (a b : ℚ) (s : RS) (h : a < b) : (pyUniform a b s).1 < b := by
  dsimp only [pyUniform]
  rw [qAdd_eq, qMul_eq, qSub_eq]
  nlinarith [pyRandom_nonneg s, pyRandom_lt_one s]

theorem pyUniform_le_right (a b : ℚ) (s : RS) (h : a ≤ b) : (pyUniform a b s).1 ≤ b := by
  dsimp only [pyUniform]
  rw [qAdd_eq, qMul_eq, qSub_eq]
  nlinarith [pyRandom_nonneg s, pyRandom_lt_one s]

theorem pyRound_mono (d : Nat) {x y : ℚ} (h : x ≤ y) : pyRound d x ≤ pyRound d y := by
  rw [pyRound_eq, pyRound_eq]
  have hr : round (x * 10 ^ d) ≤ round (y * 10 ^ d) := by
    apply round_mono_q
    have hp : (0 : ℚ) < 10 ^ d := by positivity
    exact mul_le_mul_of_nonneg_right h (le_of_lt hp)
  have hp : (0 : ℚ) < 10 ^ d := by positivity
  exact div_le_div_of_nonneg_right (by exact_mod_cast hr) hp.le

theorem pyRandNat_le_left (lo hi : Nat) (s : RS) : lo ≤ (pyRandNat lo hi s).1 := by
  dsimp only [pyRandNat, rsNext]
  omega

theorem pyRandNat_le_right (lo hi : Nat) (s : RS) (h : lo ≤ hi) : (pyRandNat lo hi s).1 ≤ hi := by
  dsimp only [pyRandNat, rsNext]
  have hm : s.tape s.pos % (hi + 1 - lo) < hi + 1 - lo := Nat.mod_lt _ (by omega)
  omega

theorem getD_eq_getElem_q {α : Type} (l : List α) (d : α) (n : Nat) (h : n < l.length) :
    l.getD n d = l[n] := by
  simp [List.getD, List.getElem?_eq_getElem h]

theorem pyChoice_mem {α : Type} (l : List α) (d : α) (s : RS) (h : l ≠ []) :
    (pyChoice l d s).1 ∈ l := by
  dsimp only [pyChoice, rsNext]
  have hlen : 0 < l.length := List.length_pos.mpr h
  rw [getD_eq_getElem_q l d _ (Nat.mod_lt _ hlen)]
  exact List.getElem_mem _

/-! ## Claim C2 -/

/-- Claim C2: corpus generation is deterministic.  In this embedding every
effect of `generate_scale` is explicit: the single process-wide random
stream seeded once at startup (`random.seed(42)`, lines 22-23) is the `RS`
argument, and no other input exists.  Hence the generated corpus is a pure
function of the profile and the seeded stream: two runs with the same seed
(equal streams) and the same profile produce identical output, byte for
byte. -/
theorem c2_deterministic (cfg : ScaleConfig) (g1 g2 : RS) (h : g1 = g2) :
    generateScale cfg g1 = generateScale cfg g2 := by rw [h]

/-- Witness for C2: the small profile on the all-zeros stream. -/
theorem c2_deterministic_witness :
    (⟨fun _ => 0, 0⟩ : RS) = ⟨fun _ => 0, 0⟩ ∧
      generateScale smallConfig ⟨fun _ => 0, 0⟩ = generateScale smallConfig ⟨fun _ => 0, 0⟩ :=
  ⟨rfl, c2_deterministic smallConfig ⟨fun _ => 0, 0⟩ ⟨fun _ => 0, 0⟩ rfl⟩

/-! ## Claim C8 -/

/-- The expectation records of a `gen_expectation_file` result. -/
def expRecsOf (r : Except PyErr (Str × List ExpRec)) : List ExpRec :=
  match r with
  | .ok pr => pr.2
  | .error _ => []

deriving instance DecidableEq for ExpRec

/-- Counterexample to C8: on the all-zeros stream `random.random()` returns
`0`, so `uniform(95.0, 99.99)` returns exactly `95.0` and the generated
threshold is exactly `95.0` — not strictly greater than `95.0`.  The
threshold interval is closed on the left, not open. -/
theorem c8_counterexample :
    (expRecsOf (genExpectationFile [] (str "bp") [] 1 [] (str "t") ⟨fun _ => 0, 0⟩).1).map
      ExpRec.threshold = [qlit 95 1] := by decide

theorem expLoop_threshold_window (reg : Reg) (bpName : Str) (fields : List (Str × Str))
    (team : Str) :
    ∀ n i s lines recs s', expLoop reg bpName fields team i n s = (.ok (lines, recs), s') →
    ∀ r ∈ recs, qlit 95 1 ≤ r.threshold ∧ r.threshold ≤ qlit 9999 100 ∧
      (r.window = 7 ∨ r.window = 30 ∨ r.window = 90) := by
  intro n
  induction n with
  | zero =>
    intro i s lines recs s' hok r hr
    rw [expLoop] at hok
    simp only [Prod.mk.injEq, Except.ok.injEq] at hok
    obtain ⟨⟨h1, h2⟩, h3⟩ := hok
    subst h2
    cases hr
  | succ n ih =>
    intro i s lines recs s' hok r hr
    rw [expLoop] at hok
    rcases hv : expValsLoop synthFuel reg fields s with ⟨res1, s1⟩
    rw [hv] at hok
    cases res1 with
    | error e => simp at hok
    | ok pairs =>
      dsimp only [] at hok
      rcases hrec : expLoop reg bpName fields team (i + 1) n
          (pyChoice [7, 30, 90] 0 (pyUniform (qlit 95 1) (qlit 9999 100) s1).2).2 with ⟨res2, s2⟩
      rw [hrec] at hok
      cases res2 with
      | error e => simp at hok
      | ok rl =>
        dsimp only [] at hok
        simp only [Prod.mk.injEq, Except.ok.injEq] at hok
        obtain ⟨⟨h1, h2⟩, h3⟩ := hok
        subst h2
        rcases List.mem_cons.mp hr with hhead | htail
        · subst hhead
          refine ⟨?_, ?_, ?_⟩
          · have h95 : pyRound 2 (qlit 95 1) = qlit 95 1 := by decide
            calc qlit 95 1 = pyRound 2 (qlit 95 1) := h95.symm
              _ ≤ _ := pyRound_mono 2 (pyUniform_le_left _ _ s1 (by decide))
          · have h99 : pyRound 2 (qlit 9999 100) = qlit 9999 100 := by decide
            calc pyRound 2 (pyUniform (qlit 95 1) (qlit 9999 100) s1).1
                ≤ pyRound 2 (qlit 9999 100) :=
                  pyRound_mono 2 (pyUniform_le_right _ _ s1 (by decide))
              _ = qlit 9999 100 := h99
          · have hm := pyChoice_mem [7, 30, 90] 0
              (pyUniform (qlit 95 1) (qlit 9999 100) s1).2 (by decide)
            simpa using hm
        · exact ih (i + 1) _ rl.1 rl.2 s2 (by rw [hrec]) r htail

/-- Amended C8: the threshold of every generated expectation lies in the
closed interval `[95.0, 99.99]` (the left endpoint is attainable, see the
counterexample), and `window_in_days` is one of `7`, `30`, `90`. -/
theorem c8_amended (reg : Reg) (bpName : Str) (fields : List (Str × Str))
    (numExpectations : Nat) (org team : Str) (s : RS) (r : ExpRec)
    (hr : r ∈ expRecsOf (genExpectationFile reg bpName fields numExpectations org team s).1) :
    qlit 95 1 ≤ r.threshold ∧ r.threshold ≤ qlit 9999 100 ∧
      (r.window = 7 ∨ r.window = 30 ∨ r.window = 90) := by
  unfold genExpectationFile at hr
  rcases he : expLoop reg bpName fields team 0 numExpectations s with ⟨res, s1⟩
  rw [he] at hr
  cases res with
  | error e => simp [expRecsOf] at hr
  | ok rl =>
    dsimp only [expRecsOf] at hr
    exact expLoop_threshold_window reg bpName fields team numExpectations 0 s rl.1 rl.2 s1
      (by rw [he]) r hr

/-- Witness for the amended C8 at a concrete run. -/
theorem c8_amended_witness :
    qlit 95 1 ≤ (ExpRec.mk (str "t_bp_0") [] (qlit 95 1) 7).threshold ∧
      (ExpRec.mk (str "t_bp_0") [] (qlit 95 1) 7).threshold ≤ qlit 9999 100 ∧
      ((ExpRec.mk (str "t_bp_0") [] (qlit 95 1) 7).window = 7 ∨
        (ExpRec.mk (str "t_bp_0") [] (qlit 95 1) 7).window = 30 ∨
        (ExpRec.mk (str "t_bp_0") [] (qlit 95 1) 7).window = 90) :=
  c8_amended [] (str "bp") [] 1 [] (str "t") ⟨fun _ => 0, 0⟩
    (ExpRec.mk (str "t_bp_0") [] (qlit 95 1) 7) (by decide)

/-! ## Claim C9 -/

/-- The disjunction of the branch guards of `value_for_type` (lines 152-212),
in source order: exactly the type shapes the synthesizer recognizes. -/
def recognizedB (reg : Reg) (typeStr : Str) : Bool :=
  let t := trimS typeStr
  (leadsWith (str "_") t && (lookupA reg t).isSome) ||
    decide (t = str "String") || decide (t = str "Integer") ||
    decide (t = str "Float") || decide (t = str "Boolean") ||
    decide (t = str "URL") || decide (t = str "Percentage") ||
    leadsWith (str "String \x7b x | x in \x7b") t ||
    leadsWith (str "Integer \x7b x | x in \x7b") t ||
    (hasSeg (str "x | x in (") t && hasSeg (str "..") t) ||
    leadsWith (str "List(") t || leadsWith (str "Dict(String, ") t ||
    leadsWith (str "Optional(") t || leadsWith (str "Defaulted(") t

/-- Counterexample to C9: `value_for_type` is not total.  On the type text
`Integer { x | x in ( 9..3 ) }` the range branch parses `low=9, high=3` and
calls `randint(9, 3)`, which raises `ValueError`: the synthesizer can fail
instead of degrading to the fallback literal. -/
theorem c9_counterexample :
    (valueForTypeF 1 [] (str "Integer \x7b x | x in ( 9..3 ) \x7d") ⟨fun _ => 0, 0⟩).1 =
      .error .valueError := by decide

/-- Amended C9: on every type text that matches none of the recognized
shapes, `value_for_type` does return the fixed fallback literal without
consuming randomness — but totality fails on recognized range shapes with
an empty integer range (see the counterexample). -/
theorem c9_amended (fuel : Nat) (reg : Reg) (typeStr : Str) (s : RS)
    (h : recognizedB reg typeStr = false) :
    valueForTypeF (fuel + 1) reg typeStr s = (.ok (quoteS (str "fallback_value")), s) := by
  simp only [recognizedB, Bool.or_eq_false_iff] at h
  obtain ⟨⟨⟨⟨⟨⟨⟨⟨⟨⟨⟨⟨⟨h1, h2⟩, h3⟩, h4⟩, h5⟩, h6⟩, h7⟩, h8⟩, h9⟩, h10⟩, h11⟩, h12⟩, h13⟩,
    h14⟩ := h
  dsimp only [valueForTypeF]
  rw [if_neg (fun hc => by simp [hc.1, hc.2] at h1),
    if_neg (of_decide_eq_false h2), if_neg (of_decide_eq_false h3),
    if_neg (of_decide_eq_false h4), if_neg (of_decide_eq_false h5),
    if_neg (of_decide_eq_false h6), if_neg (of_decide_eq_false h7),
    if_neg (by simp only [h8]; exact Bool.false_ne_true),
    if_neg (by simp only [h9]; exact Bool.false_ne_true),
    if_neg (fun hc => by simp [hc.1, hc.2] at h10),
    if_neg (by simp only [h11]; exact Bool.false_ne_true),
    if_neg (by simp only [h12]; exact Bool.false_ne_true),
    if_neg (by simp only [h13]; exact Bool.false_ne_true),
    if_neg (by simp only [h14]; exact Bool.false_ne_true)]

/-- Witness for the amended C9 on an unrecognized type text. -/
theorem c9_amended_witness :
    valueForTypeF 1 [] (str "Unknown") ⟨fun _ => 0, 0⟩ =
      (.ok (quoteS (str "fallback_value")), ⟨fun _ => 0, 0⟩) :=
  c9_amended 0 [] (str "Unknown") ⟨fun _ => 0, 0⟩ (by decide)

/-! ## Claim C6 -/

/-- Counterexample to C6: with the small complexity the field count is
`randint(1, 2)`, which can be `1`; then only one field exists, and no field
is selected as `svc_param`.  The "first two fields" invariant holds only for
the fields that exist, and the claimed selection of both template variables
fails for single-field blueprints. -/
theorem c6_counterexample :
    ((genBlueprintItem (str "bp") [] [] [] (str "small") [] ⟨fun _ => 0, 0⟩).1.fieldInfo.map
        Prod.snd = [str "String"]) ∧
      (genBlueprintItem (str "bp") [] [] [] (str "small") [] ⟨fun _ => 0, 0⟩).1.svcParam =
        none := by
  decide

theorem genFieldsLoop_fst (name : Str) (aliasN : List Str) (complexity : Str)
    (i : Nat) (hi : i < 2) (n : Nat) (s : RS) :
    (genFieldsLoop name aliasN complexity i (n + 1) s).1 =
      (name ++ str "_param_" ++ natChars i, str "String") ::
        (genFieldsLoop name aliasN complexity (i + 1) n s).1 := by
  rw [genFieldsLoop]
  simp only [if_pos hi]

theorem isSimpleString_string (reg : Reg) : isSimpleString reg (str "String") = true := by
  simp only [isSimpleString]
  rw [show trimS (str "String") = str "String" from by decide]
  simp

theorem scanParams_saturated (reg : Reg) (l : List (Str × Str)) (e v : Str) :
    scanParams reg l (some e) (some v) = (some e, some v) := by
  induction l with
  | nil => rfl
  | cons p rest ih =>
    obtain ⟨fn, ft⟩ := p
    rw [scanParams, if_neg (by simp), if_neg (by simp)]
    exact ih

theorem scanParams_cons_simple_env (reg : Reg) (fn ft : Str) (rest : List (Str × Str))
    (hs : isSimpleString reg ft = true) :
    scanParams reg ((fn, ft) :: rest) none none = scanParams reg rest (some fn) none := by
  rw [scanParams, if_pos (by simp [hs])]

theorem scanParams_cons_simple_svc (reg : Reg) (fn ft e : Str) (rest : List (Str × Str))
    (hs : isSimpleString reg ft = true) :
    scanParams reg ((fn, ft) :: rest) (some e) none =
      scanParams reg rest (some e) (some fn) := by
  rw [scanParams, if_neg (by simp), if_pos (by simp [hs])]

theorem genBlueprintItem_core (name : Str) (reqE provE aliasN : List Str) (complexity : Str)
    (reg : Reg) (s : RS) :
    ∃ c s1, 1 ≤ c ∧
      (genBlueprintItem name reqE provE aliasN complexity reg s).1.fieldInfo =
        (genFieldsLoop name aliasN complexity 0 c s1).1 ∧
      (genBlueprintItem name reqE provE aliasN complexity reg s).1.envParam =
        (scanParams reg (genFieldsLoop name aliasN complexity 0 c s1).1 none none).1 ∧
      (genBlueprintItem name reqE provE aliasN complexity reg s).1.svcParam =
        (scanParams reg (genFieldsLoop name aliasN complexity 0 c s1).1 none none).2 := by
  dsimp only [genBlueprintItem]
  refine ⟨_, _, ?_, rfl, rfl, rfl⟩
  split
  · dsimp only [pyRandNat, rsNext]; omega
  split
  · dsimp only [pyRandNat, rsNext]; omega
  split
  · dsimp only [pyRandNat, rsNext]; omega
  · dsimp only [pyRandNat, rsNext]; omega

theorem take_two_of_snd_one {a : Str × Str} (ha : a.2 = str "String") :
    ∀ p ∈ ([a] : List (Str × Str)).take 2, p.2 = str "String" := by
  intro p hp
  rw [show ([a] : List (Str × Str)).take 2 = [a] from rfl, List.mem_singleton] at hp
  rw [hp]; exact ha

theorem take_two_of_snd_two {a b : Str × Str} {l : List (Str × Str)}
    (ha : a.2 = str "String") (hb : b.2 = str "String") :
    ∀ p ∈ (a :: b :: l).take 2, p.2 = str "String" := by
  intro p hp
  rw [show (a :: b :: l).take 2 = [a, b] from rfl] at hp
  rcases List.mem_cons.mp hp with h | h
  · rw [h]; exact ha
  · rw [List.mem_singleton] at h
    rw [h]; exact hb

/-- Amended C6: every field at index below 2 (of those that exist) has type
`String`; `env_param` is always the first field's name (a field always
exists), and `svc_param` is the second field's name exactly when a second
field exists — with the small complexity the count draw `randint(1, 2)` can
return `1`, in which case `svc_param` stays unset (see the counterexample). -/
theorem c6_amended (name : Str) (reqE provE aliasN : List Str) (complexity : Str)
    (reg : Reg) (s : RS) :
    (∀ p ∈ ((genBlueprintItem name reqE provE aliasN complexity reg s).1.fieldInfo).take 2,
      p.2 = str "String") ∧
    (genBlueprintItem name reqE provE aliasN complexity reg s).1.envParam =
      ((genBlueprintItem name reqE provE aliasN complexity reg s).1.fieldInfo.head?).map
        Prod.fst ∧
    (genBlueprintItem name reqE provE aliasN complexity reg s).1.svcParam =
      (((genBlueprintItem name reqE provE aliasN complexity reg s).1.fieldInfo.drop 1).head?).map
        Prod.fst := by
  obtain ⟨c, s1, hc, hf, he, hv⟩ := genBlueprintItem_core name reqE provE aliasN complexity reg s
  rw [hf, he, hv]
  obtain ⟨m, rfl⟩ : ∃ m, c = m + 1 := ⟨c - 1, by omega⟩
  rw [genFieldsLoop_fst name aliasN complexity 0 (by omega) m s1]
  cases m with
  | zero =>
    rw [show (genFieldsLoop name aliasN complexity 1 0 s1).1 = [] from rfl]
    refine ⟨take_two_of_snd_one rfl, ?_, ?_⟩
    · rw [scanParams_cons_simple_env reg _ _ _ (isSimpleString_string reg)]
      rfl
    · rw [scanParams_cons_simple_env reg _ _ _ (isSimpleString_string reg)]
      rfl
  | succ m' =>
    rw [genFieldsLoop_fst name aliasN complexity 1 (by omega) m' s1]
    refine ⟨take_two_of_snd_two rfl rfl, ?_, ?_⟩
    · rw [scanParams_cons_simple_env reg _ _ _ (isSimpleString_string reg),
        scanParams_cons_simple_svc reg _ _ _ _ (isSimpleString_string reg),
        scanParams_saturated]
      rfl
    · rw [scanParams_cons_simple_env reg _ _ _ (isSimpleString_string reg),
        scanParams_cons_simple_svc reg _ _ _ _ (isSimpleString_string reg),
        scanParams_saturated]
      rfl

/-! ## Claim C7 -/

theorem getD_append_left_c (A X : Str) (n : Nat) (hn : n < A.length) :
    (A ++ X).getD n ' ' = A.getD n ' ' := by
  simp [List.getD, List.getElem?_append_left hn]

theorem ne_of_getD_prefix {A B : Str} (X : Str) (n : Nat) (hn : n < A.length)
    (h : A.getD n ' ' ≠ B.getD n ' ') : A ++ X ≠ B := by
  intro he
  apply h
  rw [← getD_append_left_c A X n hn, he]

theorem isEmpty_any_eq {α : Type} (l : List α) (p : α → Bool) :
    (if l.isEmpty then false else l.any p) = l.any p := by
  cases l <;> simp

theorem count_vendor_provLines (b : Bool) (numQ denQ : Str) :
    (str "    Provides \x7b" ::
        (if b then [] else [str "      vendor: \"datadog\","]) ++
        [str "      evaluation: \"numerator / denominator\",",
         str "      indicators: \x7b",
         str "        numerator: " ++ quoteS numQ ++ str ",",
         str "        denominator: " ++ quoteS denQ,
         str "      \x7d",
         str "    \x7d"]).count (str "      vendor: \"datadog\",") =
      (if b then 0 else 1) := by
  have hnum : (str "        numerator: " ++ (quoteS numQ ++ str ",")) ≠
      str "      vendor: \"datadog\"," :=
    ne_of_getD_prefix _ 6 (by decide) (by decide)
  have hden : (str "        denominator: " ++ quoteS denQ) ≠
      str "      vendor: \"datadog\"," :=
    ne_of_getD_prefix _ 6 (by decide) (by decide)
  cases b <;>
    simp +decide [List.count_cons, List.count_nil, List.count_append, beq_iff_eq, hnum, hden]

/-- Claim C7: the Provides block of a blueprint contains the direct vendor
line exactly when the blueprint extends no Provides extendable, and never
contains it twice: its occurrence count is 0 when some chosen extendable is
a Provides one, and 1 otherwise. -/
theorem c7_vendor_suppression (name : Str) (reqE provE aliasN : List Str)
    (complexity : Str) (reg : Reg) (s : RS) :
    ((genBlueprintItem name reqE provE aliasN complexity reg s).1.provLines).count
        (str "      vendor: \"datadog\",") =
      (if provE.any (fun e =>
          ((genBlueprintItem name reqE provE aliasN complexity reg s).1.exts).contains e)
        then 0 else 1) := by
  dsimp only [genBlueprintItem]
  rw [isEmpty_any_eq]
  exact count_vendor_provLines _ _ _

/-! ## The range branch of the synthesizer -/

theorem leadsWith_append_of (p xs : Str) (h : leadsWith p xs = true) (ys : Str) :
    leadsWith p (xs ++ ys) = true := by
  induction p generalizing xs with
  | nil => rfl
  | cons c cs ih =>
    cases xs with
    | nil => cases h
    | cons x xt =>
      rw [List.cons_append]
      rw [leadsWith] at h ⊢
      simp only [Bool.and_eq_true] at h ⊢
      exact ⟨h.1, ih xt h.2⟩

theorem hasSeg_append_left (p xs ys : Str) (h : hasSeg p xs = true) :
    hasSeg p (xs ++ ys) = true := by
  induction xs with
  | nil =>
    cases p with
    | nil => cases ys with
      | nil => exact h
      | cons y yt => simp [hasSeg, leadsWith]
    | cons c cs => cases h
  | cons a as ih =>
    rw [List.cons_append]
    rw [hasSeg] at h
    rw [hasSeg]
    simp only [Bool.or_eq_true] at h ⊢
    rcases h with h | h
    · exact Or.inl (by rw [← List.cons_append]; exact leadsWith_append_of _ _ h _)
    · exact Or.inr (ih h)

theorem pyFloorZ_natCast (n : Nat) : pyFloorZ ((n : ℕ) : ℚ) = (n : ℤ) := by
  rw [pyFloorZ_eq]
  exact_mod_cast Int.floor_natCast n

theorem pyRound_eq_self (d : Nat) (q : ℚ) (hden : (q * 10 ^ d).den = 1) : pyRound d q = q := by
  rw [pyRound_eq]
  have h1 : ((q * 10 ^ d).num : ℚ) = q * 10 ^ d := by
    conv_rhs => rw [← Rat.num_div_den (q * 10 ^ d)]
    rw [hden]
    simp
  rw [show q * 10 ^ d = ((q * 10 ^ d).num : ℚ) from h1.symm, round_intCast, h1]
  have hp : ((10 : ℚ) ^ d) ≠ 0 := by positivity
  field_simp

theorem trimS_append_wrap (X : Str) (hne : X ≠ []) (hX : X.dropWhile (fun c => c = ' ') = X) :
    trimS (X ++ str " ) \x7d") = X ++ str " ) \x7d" := by
  unfold trimS
  rw [dropWhile_keep _ X _ hne hX]
  exact dropTrail_append_keep _ X _ (by decide) (by decide)

/-- Reduction of `value_for_type` to its range branch: on any trimmed type
text that fails the earlier guards, satisfies the range-shape substring
tests and whose regex search yields groups `A`, `B`, the synthesizer runs
exactly the code of lines 178-190. -/
theorem vft_range_reduce (fuel : Nat) (reg : Reg) (t A B : Str) (s : RS)
    (htrim : trimS t = t)
    (hus : leadsWith (str "_") t = false)
    (hne1 : t ≠ str "String") (hne2 : t ≠ str "Integer") (hne3 : t ≠ str "Float")
    (hne4 : t ≠ str "Boolean") (hne5 : t ≠ str "URL") (hne6 : t ≠ str "Percentage")
    (hos : leadsWith (str "String \x7b x | x in \x7b") t = false)
    (hoi : leadsWith (str "Integer \x7b x | x in \x7b") t = false)
    (hseg1 : hasSeg (str "x | x in (") t = true) (hseg2 : hasSeg (str "..") t = true)
    (hmr : matchRange t = some (A, B)) :
    valueForTypeF (fuel + 1) reg t s =
      match parseFloatQ A, parseFloatQ B with
      | some low, some high =>
        if hasSeg (str "Float") t then
          (.ok (renderFloat (pyRound 2 (pyUniform low high s).1)), (pyUniform low high s).2)
        else
          match pyRandIntE (pyFloorZ low) (pyFloorZ high) s with
          | (.ok n, s1) => (.ok (natChars n.toNat), s1)
          | (.error e, s1) => (.error e, s1)
      | _, _ => (.error .valueError, s) := by
  dsimp only [valueForTypeF]
  rw [htrim]
  rw [if_neg (fun hc => absurd hc.1 (by simp [hus])),
    if_neg hne1, if_neg hne2, if_neg hne3, if_neg hne4, if_neg hne5, if_neg hne6,
    if_neg (by rw [hos]; exact Bool.false_ne_true),
    if_neg (by rw [hoi]; exact Bool.false_ne_true),
    if_pos ⟨hseg1, hseg2⟩, hmr]

theorem vft_range_int (fuel : Nat) (reg : Reg) (lo hi : Nat) (s : RS) (h : lo ≤ hi) :
    ∃ n s', valueForTypeF (fuel + 1) reg
        (str "Integer \x7b x | x in ( " ++ natChars lo ++ str ".." ++ natChars hi ++
          str " ) \x7d") s = (.ok (natChars n), s') ∧ lo ≤ n ∧ n ≤ hi := by
  have hA : numShape (natChars lo) := numShape_natChars lo
  have hB : numShape (natChars hi) := numShape_natChars hi
  have ht_assoc : str "Integer \x7b x | x in ( " ++ natChars lo ++ str ".." ++ natChars hi ++
      str " ) \x7d" = str "Integer \x7b x | x in ( " ++
        (natChars lo ++ (str ".." ++ (natChars hi ++ str " ) \x7d"))) := by
    simp [List.append_assoc]
  have hlen : (str "Integer \x7b x | x in ( " ++ natChars lo ++ str ".." ++ natChars hi ++
      str " ) \x7d").length = 27 + (natChars lo).length + (natChars hi).length := by
    simp only [List.length_append]
    rw [show (str "Integer \x7b x | x in ( ").length = 21 from by decide,
      show (str "..").length = 2 from by decide,
      show (str " ) \x7d").length = 4 from by decide]
    omega
  have hus : leadsWith (str "_") (str "Integer \x7b x | x in ( " ++ natChars lo ++ str ".." ++
      natChars hi ++ str " ) \x7d") = false := by
    rw [ht_assoc, leadsWith_eq_of_take]
    rw [show leadsWith ((str "_").take (str "Integer \x7b x | x in ( ").length)
      (str "Integer \x7b x | x in ( ") = false from by decide]
    rw [Bool.false_and]
  have hos : leadsWith (str "String \x7b x | x in \x7b") (str "Integer \x7b x | x in ( " ++
      natChars lo ++ str ".." ++ natChars hi ++ str " ) \x7d") = false := by
    rw [ht_assoc, leadsWith_eq_of_take]
    rw [show leadsWith ((str "String \x7b x | x in \x7b").take
      (str "Integer \x7b x | x in ( ").length) (str "Integer \x7b x | x in ( ") = false from
      by decide]
    rw [Bool.false_and]
  have hoi : leadsWith (str "Integer \x7b x | x in \x7b") (str "Integer \x7b x | x in ( " ++
      natChars lo ++ str ".." ++ natChars hi ++ str " ) \x7d") = false := by
    rw [ht_assoc, leadsWith_eq_of_take]
    rw [show leadsWith ((str "Integer \x7b x | x in \x7b").take
      (str "Integer \x7b x | x in ( ").length) (str "Integer \x7b x | x in ( ") = false from
      by decide]
    rw [Bool.false_and]
  have hseg1 : hasSeg (str "x | x in (") (str "Integer \x7b x | x in ( " ++ natChars lo ++
      str ".." ++ natChars hi ++ str " ) \x7d") = true := by
    rw [ht_assoc]
    exact hasSeg_append_left _ _ _ (by decide)
  have hseg2 : hasSeg (str "..") (str "Integer \x7b x | x in ( " ++ natChars lo ++ str ".." ++
      natChars hi ++ str " ) \x7d") = true := by
    rw [show str "Integer \x7b x | x in ( " ++ natChars lo ++ str ".." ++ natChars hi ++
      str " ) \x7d" = (str "Integer \x7b x | x in ( " ++ natChars lo) ++
        (str ".." ++ (natChars hi ++ str " ) \x7d")) from by simp [List.append_assoc]]
    exact hasSeg_append_right _ _ _
      (hasSeg_of_leadsWith _ _ (leadsWith_append_of _ _ (leadsWith_refl _) _))
  have hXd : (str "Integer \x7b x | x in ( " ++ natChars lo ++ str ".." ++
      natChars hi).dropWhile (fun c => c = ' ') =
      str "Integer \x7b x | x in ( " ++ natChars lo ++ str ".." ++ natChars hi := by
    have h2 := dropWhile_keep (fun c => c = ' ') (str "Integer \x7b x | x in ( ")
      (natChars lo ++ (str ".." ++ natChars hi)) (by decide) (by decide)
    simpa [List.append_assoc] using h2
  have htrim : trimS (str "Integer \x7b x | x in ( " ++ natChars lo ++ str ".." ++
      natChars hi ++ str " ) \x7d") = str "Integer \x7b x | x in ( " ++ natChars lo ++
      str ".." ++ natChars hi ++ str " ) \x7d" := by
    refine trimS_append_wrap _ ?_ hXd
    intro he
    rw [List.append_eq_nil, List.append_eq_nil, List.append_eq_nil] at he
    exact absurd he.1.1.1 (by decide)
  have hshape : str "Integer \x7b x | x in ( " ++ natChars lo ++ str ".." ++ natChars hi ++
      str " ) \x7d" = str "Integer \x7b x | x in " ++
        ('(' :: ' ' :: (natChars lo ++ '.' :: '.' :: (natChars hi ++ str " ) \x7d"))) := by
    rw [show str "Integer \x7b x | x in ( " =
      str "Integer \x7b x | x in " ++ ['(', ' '] from by decide,
      show str ".." = ['.', '.'] from by decide]
    simp [List.append_assoc]
  have hmr : matchRange (str "Integer \x7b x | x in ( " ++ natChars lo ++ str ".." ++
      natChars hi ++ str " ) \x7d") = some (natChars lo, natChars hi) := by
    rw [hshape]
    exact matchRange_render _ _ _ (by decide) hA hB
  have hF : 'F' ∉ str "Integer \x7b x | x in ( " ++ natChars lo ++ str ".." ++ natChars hi ++
      str " ) \x7d" := by
    simp only [List.mem_append, not_or]
    refine ⟨⟨⟨⟨by decide, ?_⟩, by decide⟩, ?_⟩, by decide⟩
    · intro hc
      exact absurd (natChars_digits lo 'F' hc) (by decide)
    · intro hc
      exact absurd (natChars_digits hi 'F' hc) (by decide)
  have hsegF : hasSeg (str "Float") (str "Integer \x7b x | x in ( " ++ natChars lo ++
      str ".." ++ natChars hi ++ str " ) \x7d") = false := by
    rw [show str "Float" = 'F' :: str "loat" from by decide]
    exact hasSeg_false_of_head_notMem _ _ _ hF
  have key := vft_range_reduce fuel reg _ (natChars lo) (natChars hi) s htrim hus
    (ne_of_length_ne (by rw [hlen, show (str "String").length = 6 from by decide]; omega))
    (ne_of_length_ne (by rw [hlen, show (str "Integer").length = 7 from by decide]; omega))
    (ne_of_length_ne (by rw [hlen, show (str "Float").length = 5 from by decide]; omega))
    (ne_of_length_ne (by rw [hlen, show (str "Boolean").length = 7 from by decide]; omega))
    (ne_of_length_ne (by rw [hlen, show (str "URL").length = 3 from by decide]; omega))
    (ne_of_length_ne (by rw [hlen, show (str "Percentage").length = 10 from by decide]; omega))
    hos hoi hseg1 hseg2 hmr
  rw [key, parseFloatQ_natChars lo, parseFloatQ_natChars hi]
  have hri : pyRandIntE ((lo : ℤ)) ((hi : ℤ)) s =
      (.ok ((lo : ℤ) + (s.tape s.pos : ℤ) % ((hi : ℤ) + 1 - (lo : ℤ))),
        ⟨s.tape, s.pos + 1⟩) := by
    dsimp only [pyRandIntE, rsNext]
    rw [if_pos (by exact_mod_cast h)]
  dsimp only []
  rw [if_neg (by rw [hsegF]; exact Bool.false_ne_true), pyFloorZ_natCast lo,
    pyFloorZ_natCast hi, hri]
  have hmne : ((hi : ℤ) + 1 - (lo : ℤ)) ≠ 0 := by omega
  have hm0 : (0 : ℤ) ≤ (s.tape s.pos : ℤ) % ((hi : ℤ) + 1 - (lo : ℤ)) :=
    Int.emod_nonneg _ hmne
  have hm1 : (s.tape s.pos : ℤ) % ((hi : ℤ) + 1 - (lo : ℤ)) < (hi : ℤ) + 1 - (lo : ℤ) :=
    Int.emod_lt_of_pos _ (by omega)
  exact ⟨((lo : ℤ) + (s.tape s.pos : ℤ) % ((hi : ℤ) + 1 - (lo : ℤ))).toNat,
    ⟨s.tape, s.pos + 1⟩, rfl, by omega, by omega⟩

theorem pyRound_two_den (x : ℚ) : (pyRound 2 x * 100).den = 1 := by
  rw [pyRound_eq]
  rw [show ((round (x * 10 ^ 2) : ℤ) : ℚ) / 10 ^ 2 * 100 =
    ((round (x * 10 ^ 2) : ℤ) : ℚ) from by push_cast; ring]
  exact Rat.den_intCast _

theorem vft_range_float (fuel : Nat) (reg : Reg) (a b : ℚ) (s : RS)
    (ha0 : 0 ≤ a) (hab : a ≤ b) (ha100 : (a * 100).den = 1) (hb100 : (b * 100).den = 1) :
    ∃ q s', valueForTypeF (fuel + 1) reg
        (str "Float \x7b x | x in ( " ++ renderFloat a ++ str ".." ++ renderFloat b ++
          str " ) \x7d") s = (.ok (renderFloat q), s') ∧ a ≤ q ∧ q ≤ b ∧
        (q * 100).den = 1 := by
  have hA : numShape (renderFloat a) := numShape_renderFloat a
  have hB : numShape (renderFloat b) := numShape_renderFloat b
  have hb0 : 0 ≤ b := le_trans ha0 hab
  have ht_assoc : str "Float \x7b x | x in ( " ++ renderFloat a ++ str ".." ++ renderFloat b ++
      str " ) \x7d" = str "Float \x7b x | x in ( " ++
        (renderFloat a ++ (str ".." ++ (renderFloat b ++ str " ) \x7d"))) := by
    simp [List.append_assoc]
  have hlen : (str "Float \x7b x | x in ( " ++ renderFloat a ++ str ".." ++ renderFloat b ++
      str " ) \x7d").length = 25 + (renderFloat a).length + (renderFloat b).length := by
    simp only [List.length_append]
    rw [show (str "Float \x7b x | x in ( ").length = 19 from by decide,
      show (str "..").length = 2 from by decide,
      show (str " ) \x7d").length = 4 from by decide]
    omega
  have hus : leadsWith (str "_") (str "Float \x7b x | x in ( " ++ renderFloat a ++ str ".." ++
      renderFloat b ++ str " ) \x7d") = false := by
    rw [ht_assoc, leadsWith_eq_of_take]
    rw [show leadsWith ((str "_").take (str "Float \x7b x | x in ( ").length)
      (str "Float \x7b x | x in ( ") = false from by decide]
    rw [Bool.false_and]
  have hos : leadsWith (str "String \x7b x | x in \x7b") (str "Float \x7b x | x in ( " ++
      renderFloat a ++ str ".." ++ renderFloat b ++ str " ) \x7d") = false := by
    rw [ht_assoc, leadsWith_eq_of_take]
    rw [show leadsWith ((str "String \x7b x | x in \x7b").take
      (str "Float \x7b x | x in ( ").length) (str "Float \x7b x | x in ( ") = false from
      by decide]
    rw [Bool.false_and]
  have hoi : leadsWith (str "Integer \x7b x | x in \x7b") (str "Float \x7b x | x in ( " ++
      renderFloat a ++ str ".." ++ renderFloat b ++ str " ) \x7d") = false := by
    rw [ht_assoc, leadsWith_eq_of_take]
    rw [show leadsWith ((str "Integer \x7b x | x in \x7b").take
      (str "Float \x7b x | x in ( ").length) (str "Float \x7b x | x in ( ") = false from
      by decide]
    rw [Bool.false_and]
  have hseg1 : hasSeg (str "x | x in (") (str "Float \x7b x | x in ( " ++ renderFloat a ++
      str ".." ++ renderFloat b ++ str " ) \x7d") = true := by
    rw [ht_assoc]
    exact hasSeg_append_left _ _ _ (by decide)
  have hseg2 : hasSeg (str "..") (str "Float \x7b x | x in ( " ++ renderFloat a ++ str ".." ++
      renderFloat b ++ str " ) \x7d") = true := by
    rw [show str "Float \x7b x | x in ( " ++ renderFloat a ++ str ".." ++ renderFloat b ++
      str " ) \x7d" = (str "Float \x7b x | x in ( " ++ renderFloat a) ++
        (str ".." ++ (renderFloat b ++ str " ) \x7d")) from by simp [List.append_assoc]]
    exact hasSeg_append_right _ _ _
      (hasSeg_of_leadsWith _ _ (leadsWith_append_of _ _ (leadsWith_refl _) _))
  have hXd : (str "Float \x7b x | x in ( " ++ renderFloat a ++ str ".." ++
      renderFloat b).dropWhile (fun c => c = ' ') =
      str "Float \x7b x | x in ( " ++ renderFloat a ++ str ".." ++ renderFloat b := by
    have h2 := dropWhile_keep (fun c => c = ' ') (str "Float \x7b x | x in ( ")
      (renderFloat a ++ (str ".." ++ renderFloat b)) (by decide) (by decide)
    simpa [List.append_assoc] using h2
  have htrim : trimS (str "Float \x7b x | x in ( " ++ renderFloat a ++ str ".." ++
      renderFloat b ++ str " ) \x7d") = str "Float \x7b x | x in ( " ++ renderFloat a ++
      str ".." ++ renderFloat b ++ str " ) \x7d" := by
    refine trimS_append_wrap _ ?_ hXd
    intro he
    rw [List.append_eq_nil, List.append_eq_nil, List.append_eq_nil] at he
    exact absurd he.1.1.1 (by decide)
  have hshape : str "Float \x7b x | x in ( " ++ renderFloat a ++ str ".." ++ renderFloat b ++
      str " ) \x7d" = str "Float \x7b x | x in " ++
        ('(' :: ' ' :: (renderFloat a ++ '.' :: '.' :: (renderFloat b ++ str " ) \x7d"))) := by
    rw [show str "Float \x7b x | x in ( " =
      str "Float \x7b x | x in " ++ ['(', ' '] from by decide,
      show str ".." = ['.', '.'] from by decide]
    simp [List.append_assoc]
  have hmr : matchRange (str "Float \x7b x | x in ( " ++ renderFloat a ++ str ".." ++
      renderFloat b ++ str " ) \x7d") = some (renderFloat a, renderFloat b) := by
    rw [hshape]
    exact matchRange_render _ _ _ (by decide) hA hB
  have hsegF : hasSeg (str "Float") (str "Float \x7b x | x in ( " ++ renderFloat a ++
      str ".." ++ renderFloat b ++ str " ) \x7d") = true := by
    rw [ht_assoc]
    exact hasSeg_of_leadsWith _ _ (leadsWith_append_of _ _ (by decide) _)
  have key := vft_range_reduce fuel reg _ (renderFloat a) (renderFloat b) s htrim hus
    (ne_of_length_ne (by rw [hlen, show (str "String").length = 6 from by decide]; omega))
    (ne_of_length_ne (by rw [hlen, show (str "Integer").length = 7 from by decide]; omega))
    (ne_of_length_ne (by rw [hlen, show (str "Float").length = 5 from by decide]; omega))
    (ne_of_length_ne (by rw [hlen, show (str "Boolean").length = 7 from by decide]; omega))
    (ne_of_length_ne (by rw [hlen, show (str "URL").length = 3 from by decide]; omega))
    (ne_of_length_ne (by rw [hlen, show (str "Percentage").length = 10 from by decide]; omega))
    hos hoi hseg1 hseg2 hmr
  rw [key, parseFloatQ_renderFloat a ha0 ha100, parseFloatQ_renderFloat b hb0 hb100]
  dsimp only []
  rw [if_pos (by rw [hsegF])]
  have hselfa : pyRound 2 a = a := by
    apply pyRound_eq_self
    rw [show ((10 : ℚ) ^ 2) = 100 from by norm_num]
    exact ha100
  have hselfb : pyRound 2 b = b := by
    apply pyRound_eq_self
    rw [show ((10 : ℚ) ^ 2) = 100 from by norm_num]
    exact hb100
  refine ⟨pyRound 2 (pyUniform a b s).1, (pyUniform a b s).2, rfl, ?_, ?_, pyRound_two_den _⟩
  · calc a = pyRound 2 a := hselfa.symm
      _ ≤ pyRound 2 (pyUniform a b s).1 := pyRound_mono 2 (pyUniform_le_left a b s hab)
  · calc pyRound 2 (pyUniform a b s).1 ≤ pyRound 2 b :=
        pyRound_mono 2 (pyUniform_le_right a b s hab)
      _ = b := hselfb

/-! ## Claim C3 -/

/-- Counterexample to C3: `range_type` can produce the descriptor
`Integer { x | x in ( 0..60 ) }` (first draw at least one half selects the
integer branch, then `randint(0,50) = 0` and `randint(60,1000) = 60`), and
on the all-zeros stream `value_for_type` then draws `randint(0, 60) = 0`:
the synthesized value equals the lower endpoint, which is not strictly
inside `(low, high)`.  The draw is inclusive, as the code's own
`InclusiveRange` comment says. -/
theorem c3_counterexample :
    (rangeType ⟨fun i => if i = 0 then 2 ^ 52 else 0, 0⟩).1 =
      str "Integer \x7b x | x in ( 0..60 ) \x7d" ∧
    (valueForTypeF 1 [] ((rangeType ⟨fun i => if i = 0 then 2 ^ 52 else 0, 0⟩).1)
        ⟨fun _ => 0, 0⟩).1 = .ok (str "0") := by decide

theorem pyRound_one_den (x : ℚ) : (pyRound 1 x * 100).den = 1 := by
  rw [pyRound_eq]
  rw [show ((round (x * 10 ^ 1) : ℤ) : ℚ) / 10 ^ 1 * 100 =
    ((round (x * 10 ^ 1) * 10 : ℤ) : ℚ) from by push_cast; ring]
  exact Rat.den_intCast _

/-- Amended C3: every descriptor `range_type` produces is either an integer
range whose synthesized value lies in the closed interval `[low, high]`, or
a float range whose synthesized value lies in the closed interval
`[low, high]` — inclusive at both ends (the counterexample shows the lower
endpoint is attained), never an error. -/
theorem c3_amended (reg : Reg) (s1 s2 : RS) (fuel : Nat) :
    (∃ lo hi : Nat, lo ≤ hi ∧
      (rangeType s1).1 = str "Integer \x7b x | x in ( " ++ natChars lo ++ str ".." ++
        natChars hi ++ str " ) \x7d" ∧
      ∃ n s', valueForTypeF (fuel + 1) reg ((rangeType s1).1) s2 = (.ok (natChars n), s') ∧
        lo ≤ n ∧ n ≤ hi) ∨
    (∃ a b : ℚ, 0 ≤ a ∧ a ≤ b ∧
      (rangeType s1).1 = str "Float \x7b x | x in ( " ++ renderFloat a ++ str ".." ++
        renderFloat b ++ str " ) \x7d" ∧
      ∃ q s', valueForTypeF (fuel + 1) reg ((rangeType s1).1) s2 = (.ok (renderFloat q), s') ∧
        a ≤ q ∧ q ≤ b) := by
  by_cases hc : (pyRandom s1).1 < qlit 50 100
  · right
    have hr : (rangeType s1).1 = str "Float \x7b x | x in ( " ++
        renderFloat (pyRound 1 (pyUniform (qlit 0 1) (qlit 50 1) (pyRandom s1).2).1) ++
        str ".." ++ renderFloat (pyRound 1 (pyUniform (qlit 60 1) (qlit 100 1)
          (pyUniform (qlit 0 1) (qlit 50 1) (pyRandom s1).2).2).1) ++ str " ) \x7d" := by
      dsimp only [rangeType]
      rw [if_pos hc]
    have h0a : (0 : ℚ) ≤ pyRound 1 (pyUniform (qlit 0 1) (qlit 50 1) (pyRandom s1).2).1 := by
      calc (0 : ℚ) = pyRound 1 (qlit 0 1) := by decide
        _ ≤ _ := pyRound_mono 1 (pyUniform_le_left _ _ _ (by decide))
    have hab : pyRound 1 (pyUniform (qlit 0 1) (qlit 50 1) (pyRandom s1).2).1 ≤
        pyRound 1 (pyUniform (qlit 60 1) (qlit 100 1)
          (pyUniform (qlit 0 1) (qlit 50 1) (pyRandom s1).2).2).1 := by
      calc pyRound 1 (pyUniform (qlit 0 1) (qlit 50 1) (pyRandom s1).2).1
          ≤ pyRound 1 (qlit 50 1) := pyRound_mono 1 (pyUniform_le_right _ _ _ (by decide))
        _ ≤ pyRound 1 (qlit 60 1) := by decide
        _ ≤ _ := pyRound_mono 1 (pyUniform_le_left _ _ _ (by decide))
    refine ⟨_, _, h0a, hab, hr, ?_⟩
    rw [hr]
    obtain ⟨q, s', h1, h2, h3, _⟩ :=
      vft_range_float fuel reg _ _ s2 h0a hab (pyRound_one_den _) (pyRound_one_den _)
    exact ⟨q, s', h1, h2, h3⟩
  · left
    have hr : (rangeType s1).1 = str "Integer \x7b x | x in ( " ++
        natChars (pyRandNat 0 50 (pyRandom s1).2).1 ++ str ".." ++
        natChars (pyRandNat 60 1000 (pyRandNat 0 50 (pyRandom s1).2).2).1 ++
        str " ) \x7d" := by
      dsimp only [rangeType]
      rw [if_neg hc]
    have hlohi : (pyRandNat 0 50 (pyRandom s1).2).1 ≤
        (pyRandNat 60 1000 (pyRandNat 0 50 (pyRandom s1).2).2).1 := by
      have h1 := pyRandNat_le_right 0 50 (pyRandom s1).2 (by omega)
      have h2 := pyRandNat_le_left 60 1000 (pyRandNat 0 50 (pyRandom s1).2).2
      omega
    refine ⟨_, _, hlohi, hr, ?_⟩
    rw [hr]
    exact vft_range_int fuel reg _ _ s2 hlohi

/-! ## Claim C5: the small profile end to end -/

theorem vft_string (fuel : Nat) (reg : Reg) (s : RS) :
    valueForTypeF (fuel + 1) reg (str "String") s =
      (.ok (quoteS (pyChoices asciiLower ' ' (pyRandNat 5 15 s).1 (pyRandNat 5 15 s).2).1),
        (pyChoices asciiLower ' ' (pyRandNat 5 15 s).1 (pyRandNat 5 15 s).2).2) := by
  dsimp only [valueForTypeF]
  rw [show trimS (str "String") = str "String" from by decide]
  rw [if_neg (fun hc => absurd hc.1 (by decide)), if_pos rfl]

theorem genFieldsLoop_all_string (name : Str) (aliasN : List Str) (complexity : Str) :
    ∀ c i s, c + i ≤ 2 → ∀ p ∈ (genFieldsLoop name aliasN complexity i c s).1,
      p.2 = str "String" := by
  intro c
  induction c with
  | zero =>
    intro i s _ p hp
    rw [show (genFieldsLoop name aliasN complexity i 0 s).1 = [] from rfl] at hp
    cases hp
  | succ c ih =>
    intro i s hle p hp
    rw [genFieldsLoop_fst name aliasN complexity i (by omega) c s] at hp
    rcases List.mem_cons.mp hp with h | h
    · rw [h]
    · exact ih (i + 1) _ (by omega) p h

theorem genBlueprintItem_small_core (name : Str) (reqE provE aliasN : List Str)
    (reg : Reg) (s : RS) :
    ∃ c s1, 1 ≤ c ∧ c ≤ 2 ∧
      (genBlueprintItem name reqE provE aliasN (str "small") reg s).1.fieldInfo =
        (genFieldsLoop name aliasN (str "small") 0 c s1).1 := by
  dsimp only [genBlueprintItem]
  refine ⟨_, _, ?_, ?_, rfl⟩
  · rw [if_pos rfl]
    exact pyRandNat_le_left 1 2 _
  · rw [if_pos rfl]
    exact pyRandNat_le_right 1 2 _ (by omega)

theorem genBlueprintItem_small_all_string (name : Str) (reqE provE aliasN : List Str)
    (reg : Reg) (s : RS) :
    ∀ p ∈ (genBlueprintItem name reqE provE aliasN (str "small") reg s).1.fieldInfo,
      p.2 = str "String" := by
  obtain ⟨c, s1, _, hc2, hf⟩ := genBlueprintItem_small_core name reqE provE aliasN reg s
  rw [hf]
  exact fun p hp => genFieldsLoop_all_string name aliasN (str "small") c 0 s1 (by omega) p hp

/-- The blueprint names `gen_blueprints_file` assigns, which depend only on
the loop index (service pools are fixed), not on the random stream. -/
def bpNamesFor (i : Nat) : Nat → List Str
  | 0 => []
  | n + 1 => (SERVICES.getD (i % SERVICES.length) [] ++ str "_slo" ++
      (if i ≥ SERVICES.length then str "_" ++ natChars (i / SERVICES.length) else [])) ::
      bpNamesFor (i + 1) n

theorem bpLoop_names (reqN provN aliasN : List Str) (complexity : Str) (reg : Reg)
    (rEF : List (Str × List (Str × Str))) :
    ∀ n i s, (bpLoop reqN provN aliasN complexity reg rEF i n s).1.2.1 = bpNamesFor i n := by
  intro n
  induction n with
  | zero => intro i s; rfl
  | succ n ih =>
    intro i s
    dsimp only [bpLoop]
    rw [bpNamesFor, ih]

theorem bpLoop_small_fm (provN aliasN : List Str) (reg : Reg) :
    ∀ n i s, ∀ e ∈ (bpLoop [] provN aliasN (str "small") reg [] i n s).1.2.2,
      ∀ p ∈ e.2, p.2 = str "String" := by
  intro n
  induction n with
  | zero =>
    intro i s e he
    rw [show (bpLoop [] provN aliasN (str "small") reg [] i 0 s).1.2.2 = [] from rfl] at he
    cases he
  | succ n ih =>
    intro i s e he
    dsimp only [bpLoop] at he
    rcases List.mem_cons.mp he with h | h
    · intro p hp
      rw [h] at hp
      simp only [List.foldr_nil, List.append_nil] at hp
      exact genBlueprintItem_small_all_string _ _ _ _ _ _ p hp
    · exact ih (i + 1) _ e h

theorem lookupA_mem {α : Type} (l : List (Str × α)) (k : Str) (v : α)
    (h : lookupA l k = some v) : (k, v) ∈ l := by
  induction l with
  | nil => cases h
  | cons a r ih =>
    obtain ⟨ka, va⟩ := a
    rw [lookupA] at h
    by_cases hk : ka = k
    · rw [if_pos hk] at h
      injection h with h'
      rw [← hk, ← h']
      exact List.mem_cons_self _ _
    · rw [if_neg hk] at h
      exact List.mem_cons_of_mem _ (ih h)

theorem expValsLoop_strings (reg : Reg) :
    ∀ (fields : List (Str × Str)), (∀ p ∈ fields, p.2 = str "String") →
    ∀ s, ∃ pairs s', expValsLoop synthFuel reg fields s = (.ok pairs, s') ∧
      pairs.map Prod.fst = fields.map Prod.fst := by
  intro fields
  induction fields with
  | nil => intro _ s; exact ⟨[], s, rfl, rfl⟩
  | cons f rest ih =>
    intro hall s
    have hf : f.2 = str "String" := hall f (List.mem_cons_self _ _)
    obtain ⟨pairs, s', hok, hkeys⟩ := ih (fun p hp => hall p (List.mem_cons_of_mem f hp))
      ((pyChoices asciiLower ' ' (pyRandNat 5 15 s).1 (pyRandNat 5 15 s).2).2)
    have hvs : valueForTypeF synthFuel reg (str "String") s =
        (.ok (quoteS (pyChoices asciiLower ' ' (pyRandNat 5 15 s).1 (pyRandNat 5 15 s).2).1),
          (pyChoices asciiLower ' ' (pyRandNat 5 15 s).1 (pyRandNat 5 15 s).2).2) :=
      vft_string 99 reg s
    rw [expValsLoop, hf, hvs]
    dsimp only []
    rw [hok]
    exact ⟨_, s', rfl, by simp [hkeys]⟩

theorem expLoop_strings (reg : Reg) (bp : Str) (fields : List (Str × Str)) (team : Str)
    (hall : ∀ p ∈ fields, p.2 = str "String") :
    ∀ n i s, ∃ lines recs s', expLoop reg bp fields team i n s = (.ok (lines, recs), s') ∧
      recs.length = n ∧
      ∀ r ∈ recs, r.vals.map Prod.fst = fields.map Prod.fst := by
  intro n
  induction n with
  | zero => intro i s; exact ⟨[], [], s, rfl, rfl, by simp⟩
  | succ n ih =>
    intro i s
    obtain ⟨pairs, s1, hv, hkeys⟩ := expValsLoop_strings reg fields hall s
    obtain ⟨lines, recs, s2, hrec, hlen, hall2⟩ := ih (i + 1)
      ((pyChoice [7, 30, 90] 0 (pyUniform (qlit 95 1) (qlit 9999 100) s1).2).2)
    rw [expLoop, hv]
    dsimp only []
    rw [hrec]
    refine ⟨_, _, s2, rfl, ?_, ?_⟩
    · rw [List.length_cons, hlen]
    · intro r hr
      rcases List.mem_cons.mp hr with h | h
      · rw [h]
        simpa using hkeys
      · exact hall2 r h

theorem genExpectationFile_strings (reg : Reg) (bp : Str) (fields : List (Str × Str))
    (nE : Nat) (org team : Str) (s : RS) (hall : ∀ p ∈ fields, p.2 = str "String") :
    ∃ content recs s', genExpectationFile reg bp fields nE org team s =
      (.ok (content, recs), s') ∧ recs.length = nE ∧
      ∀ r ∈ recs, r.vals.map Prod.fst = fields.map Prod.fst := by
  obtain ⟨lines, recs, s', hok, hlen, hall2⟩ := expLoop_strings reg bp fields team hall nE 0 s
  dsimp only [genExpectationFile]
  rw [hok]
  exact ⟨_, recs, s', rfl, hlen, hall2⟩

theorem teamBpsLoop_ok (reg : Reg) (fm : List (Str × List (Str × Str))) (expPer : Nat)
    (org team : Str) (hfm : ∀ e ∈ fm, ∀ p ∈ e.2, p.2 = str "String") :
    ∀ bps s, ∃ conts parts s',
      teamBpsLoop reg fm expPer org team bps s =
        (.ok (conts, parts, expPer * bps.length), s') ∧
      parts.length = bps.length ∧
      ∀ pr ∈ parts, pr.2.length = expPer ∧
        ∀ r ∈ pr.2, r.vals.map Prod.fst = ((lookupA fm pr.1).getD []).map Prod.fst := by
  intro bps
  induction bps with
  | nil => intro s; exact ⟨[], [], s, rfl, rfl, by simp⟩
  | cons bp rest ih =>
    intro s
    have htot : ∀ l : List Str, expPer + expPer * l.length = expPer * (bp :: l).length := by
      intro l
      rw [List.length_cons, Nat.mul_succ]
      omega
    rw [teamBpsLoop]
    rcases hl : lookupA fm bp with _ | fs
    · dsimp only []
      obtain ⟨content, recs, s1, hok, hlen, hkeys⟩ :=
        genExpectationFile_strings reg bp [] expPer org team s (by simp)
      obtain ⟨conts, parts, s2, hok2, hplen, hprs⟩ := ih s1
      rw [hok]
      dsimp only []
      rw [hok2]
      dsimp only []
      refine ⟨content :: conts, (bp, recs) :: parts, s2, ?_, ?_, ?_⟩
      · rw [htot rest]
      · rw [List.length_cons, List.length_cons, hplen]
      · intro pr hpr
        rcases List.mem_cons.mp hpr with h | h
        · refine ⟨by rw [h]; exact hlen, ?_⟩
          intro r hr
          rw [h] at hr ⊢
          dsimp only [] at hr ⊢
          rw [hl]
          exact hkeys r hr
        · exact hprs pr h
    · dsimp only []
      obtain ⟨content, recs, s1, hok, hlen, hkeys⟩ :=
        genExpectationFile_strings reg bp fs expPer org team s
          (fun p hp => hfm (bp, fs) (lookupA_mem fm bp fs hl) p hp)
      obtain ⟨conts, parts, s2, hok2, hplen, hprs⟩ := ih s1
      rw [hok]
      dsimp only []
      rw [hok2]
      dsimp only []
      refine ⟨content :: conts, (bp, recs) :: parts, s2, ?_, ?_, ?_⟩
      · rw [htot rest]
      · rw [List.length_cons, List.length_cons, hplen]
      · intro pr hpr
        rcases List.mem_cons.mp hpr with h | h
        · refine ⟨by rw [h]; exact hlen, ?_⟩
          intro r hr
          rw [h] at hr ⊢
          dsimp only [] at hr ⊢
          rw [hl]
          exact hkeys r hr
        · exact hprs pr h

theorem teamsLoop_small (reg : Reg) (fm : List (Str × List (Str × Str))) (names : List Str)
    (orgI : Nat) (orgName : Str) (teamI : Nat) (s : RS)
    (hfm : ∀ e ∈ fm, ∀ p ∈ e.2, p.2 = str "String") :
    ∃ ef s', teamsLoop reg fm names smallConfig orgI orgName teamI 1 s =
        (.ok ([ef], 2 * (rotatedBps names 1 1 orgI teamI).length), s') ∧
      ef.parts.length = (rotatedBps names 1 1 orgI teamI).length ∧
      ∀ pr ∈ ef.parts, pr.2.length = 2 ∧
        ∀ r ∈ pr.2, r.vals.map Prod.fst = ((lookupA fm pr.1).getD []).map Prod.fst := by
  obtain ⟨conts, parts, s1, hok, hplen, hprs⟩ := teamBpsLoop_ok reg fm 2 orgName
    (TEAMS.getD (teamI % TEAMS.length) []) hfm (rotatedBps names 1 1 orgI teamI) s
  rw [teamsLoop]
  rw [show smallConfig.numOrgs = 1 from rfl, show smallConfig.teamsPerOrg = 1 from rfl,
    show smallConfig.expPerTeamBlueprint = 2 from rfl]
  rw [hok]
  dsimp only []
  rw [show teamsLoop reg fm names smallConfig orgI orgName (teamI + 1) 0 s1 =
    (.ok ([], 0), s1) from rfl]
  dsimp only []
  refine ⟨ExpFile.mk orgName (TEAMS.getD (teamI % TEAMS.length) []) (joinNL conts) parts,
    s1, ?_, hplen, hprs⟩
  rw [Nat.add_zero]

theorem orgsLoop_small (reg : Reg) (fm : List (Str × List (Str × Str))) (names : List Str)
    (s : RS) (hfm : ∀ e ∈ fm, ∀ p ∈ e.2, p.2 = str "String") :
    ∃ ef s', orgsLoop reg fm names smallConfig 0 1 s =
        (.ok ([ef], 2 * (rotatedBps names 1 1 0 0).length), s') ∧
      ef.parts.length = (rotatedBps names 1 1 0 0).length ∧
      ∀ pr ∈ ef.parts, pr.2.length = 2 ∧
        ∀ r ∈ pr.2, r.vals.map Prod.fst = ((lookupA fm pr.1).getD []).map Prod.fst := by
  obtain ⟨ef, s1, hok, hplen, hprs⟩ := teamsLoop_small reg fm names 0
    (ORGS.getD (0 % ORGS.length) []) 0 s hfm
  rw [orgsLoop]
  rw [show smallConfig.teamsPerOrg = 1 from rfl]
  rw [hok]
  dsimp only []
  rw [show orgsLoop reg fm names smallConfig 1 0 s1 = (.ok ([], 0), s1) from rfl]
  dsimp only []
  refine ⟨ef, s1, ?_, hplen, hprs⟩
  rw [List.append_nil, Nat.add_zero]

/-- Claim C5: generating the small profile (2 blueprints, small complexity,
no aliases or extendables, 1 organization, 1 team, 2 expectations per
team-blueprint) always succeeds and yields exactly the 2 blueprint
definitions `checkout_slo` and `auth_slo` and exactly `2 × 1 × 2 = 4`
expectation instances, in one expectation file holding 2 expectations for
each of the 2 blueprints; every expectation provides a value for every field
of its blueprint's resolved field set (its `vals` keys are exactly the
resolved field names; `threshold` and `window_in_days` are the two further
fields every record carries by construction). -/
theorem c5_small_profile (s : RS) :
    ∃ c s', generateScale smallConfig s = (.ok c, s') ∧
      c.bpNames = [str "checkout_slo", str "auth_slo"] ∧
      c.totalExpectations = 4 ∧
      c.expFiles.length = 1 ∧
      ∀ ef ∈ c.expFiles, ef.parts.length = 2 ∧
        ∀ pr ∈ ef.parts, pr.2.length = 2 ∧
          ∀ r ∈ pr.2, r.vals.map Prod.fst =
            ((lookupA c.fieldsMap pr.1).getD []).map Prod.fst := by
  have hn : (genBlueprintsFile 2 (str "small") 0 0 0 s).1.names =
      [str "checkout_slo", str "auth_slo"] := by
    have h1 : (genBlueprintsFile 2 (str "small") 0 0 0 s).1.names = bpNamesFor 0 2 :=
      bpLoop_names _ _ _ _ _ _ 2 0 _
    rw [h1]
    decide
  have hfm : ∀ e ∈ (genBlueprintsFile 2 (str "small") 0 0 0 s).1.fieldsMap,
      ∀ p ∈ e.2, p.2 = str "String" := bpLoop_small_fm _ _ _ 2 0 _
  obtain ⟨ef, s2, hOL, hplen, hprs⟩ := orgsLoop_small
    (genBlueprintsFile 2 (str "small") 0 0 0 s).1.reg
    (genBlueprintsFile 2 (str "small") 0 0 0 s).1.fieldsMap
    (genBlueprintsFile 2 (str "small") 0 0 0 s).1.names
    (genBlueprintsFile 2 (str "small") 0 0 0 s).2 hfm
  dsimp only [generateScale]
  rw [show smallConfig.numBlueprints = 2 from rfl,
    show smallConfig.complexity = str "small" from rfl,
    show smallConfig.numAliases = 0 from rfl,
    show smallConfig.numReqExt = 0 from rfl,
    show smallConfig.numProvExt = 0 from rfl,
    show smallConfig.numOrgs = 1 from rfl]
  rw [hOL]
  dsimp only []
  refine ⟨_, s2, rfl, ?_, ?_, rfl, ?_⟩
  · exact hn
  · show 2 * (rotatedBps (genBlueprintsFile 2 (str "small") 0 0 0 s).1.names 1 1 0 0).length = 4
    rw [hn]
    decide
  · intro ef' hef
    rw [List.mem_singleton] at hef
    subst hef
    refine ⟨?_, hprs⟩
    rw [hplen, hn]
    decide

/-! ## Claim C1: round-trip soundness

The definitions of this section are SPEC-SIDE: they transcribe the spec's
data model (its type constructors and each constructor's accepted value
domain), not the code.  `renderTy` maps a structured descriptor to the type
text the program passes around; `accepts` is the descriptor's accepted value
domain.  Ranges are inclusive at both endpoints, following the spec's
invariant `low <= value <= high` and the code's own `InclusiveRange`
comments; the spec's other wording for ranges ("open-ended") is the defect
recorded with claim C3. -/

inductive SpecPrim
  | string
  | integer
  | float
  | boolean

/-- SPEC-SIDE: the spec's type constructors (data model section): primitives,
OneOf refinements over string or integer literal sets, ranges over a numeric
base, `List`, `Dict(String, _)`, `Optional` and `Defaulted`. -/
inductive SpecTy
  | prim (p : SpecPrim)
  | oneofS (vals : List Str)
  | oneofI (vals : List Nat)
  | rangeI (lo hi : Nat)
  | rangeF (a b : ℚ)
  | listT (p : SpecPrim)
  | dictT (p : SpecPrim)
  | optT (p : SpecPrim)
  | dfltT (p : SpecPrim) (d : Str)

/-- The textual name of a primitive. -/
def renderPrim : SpecPrim → Str
  | .string => str "String"
  | .integer => str "Integer"
  | .float => str "Float"
  | .boolean => str "Boolean"

/-- The type text of a structured descriptor, exactly as the Type Grammar
emits it. -/
def renderTy : SpecTy → Str
  | .prim p => renderPrim p
  | .oneofS vals => str "String \x7b x | x in \x7b " ++
      List.intercalate (str ", ") (vals.map quoteS) ++ str " \x7d \x7d"
  | .oneofI vals => str "Integer \x7b x | x in \x7b " ++
      List.intercalate (str ", ") (vals.map natChars) ++ str " \x7d \x7d"
  | .rangeI lo hi => str "Integer \x7b x | x in ( " ++ natChars lo ++ str ".." ++
      natChars hi ++ str " ) \x7d"
  | .rangeF a b => str "Float \x7b x | x in ( " ++ renderFloat a ++ str ".." ++
      renderFloat b ++ str " ) \x7d"
  | .listT p => str "List(" ++ renderPrim p ++ str ")"
  | .dictT p => str "Dict(String, " ++ renderPrim p ++ str ")"
  | .optT p => str "Optional(" ++ renderPrim p ++ str ")"
  | .dfltT p d => str "Defaulted(" ++ renderPrim p ++ str ", " ++ d ++ str ")"

/-- SPEC-SIDE: the accepted value domain of a primitive: a quoted string
literal, a nonnegative integer numeral, a nonnegative float literal, or a
boolean word. -/
def acceptsPrim : SpecPrim → Str → Prop
  | .string, v => ∃ w, v = quoteS w
  | .integer, v => ∃ n : Nat, v = natChars n
  | .float, v => ∃ q : ℚ, 0 ≤ q ∧ parseFloatQ v = some q
  | .boolean, v => v = str "true" ∨ v = str "false"

/-- SPEC-SIDE: the accepted value domain of a descriptor.  OneOf: a literal
of the enumerated set.  Ranges: a numeral within the closed interval.
List: a bracketed sequence of 1 to 4 element literals from the inner domain.
Dict: a braced list of 1 to 3 `key: value` entries under the synthetic key
names `key_0`, `key_1`, ... whose values are from the inner domain.
Optional: the inner domain or null.  Defaulted: the inner domain. -/
def accepts : SpecTy → Str → Prop
  | .prim p, v => acceptsPrim p v
  | .oneofS vals, v => ∃ w ∈ vals, v = quoteS w
  | .oneofI vals, v => ∃ n ∈ vals, v = natChars n
  | .rangeI lo hi, v => ∃ n : Nat, lo ≤ n ∧ n ≤ hi ∧ v = natChars n
  | .rangeF a b, v => ∃ q : ℚ, a ≤ q ∧ q ≤ b ∧ parseFloatQ v = some q
  | .listT p, v => ∃ items : List Str, 1 ≤ items.length ∧ items.length ≤ 4 ∧
      (∀ x ∈ items, acceptsPrim p x) ∧
      v = str "[" ++ List.intercalate (str ", ") items ++ str "]"
  | .dictT p, v => ∃ kvs : List (Str × Str), 1 ≤ kvs.length ∧ kvs.length ≤ 3 ∧
      (∀ j : Nat, ∀ h : j < kvs.length, (kvs.get ⟨j, h⟩).1 = str "key_" ++ natChars j) ∧
      (∀ kv ∈ kvs, acceptsPrim p kv.2) ∧
      v = str "\x7b " ++ List.intercalate (str ", ")
        (kvs.map (fun kv => kv.1 ++ str ": " ++ kv.2)) ++ str " \x7d"
  | .optT p, v => acceptsPrim p v ∨ v = str "null"
  | .dfltT p _, v => acceptsPrim p v

theorem vft_integer (fuel : Nat) (reg : Reg) (s : RS) :
    valueForTypeF (fuel + 1) reg (str "Integer") s =
      (.ok (natChars (pyRandNat 1 10000 s).1), (pyRandNat 1 10000 s).2) := by
  dsimp only [valueForTypeF]
  rw [show trimS (str "Integer") = str "Integer" from by decide]
  rw [if_neg (fun hc => absurd hc.1 (by decide)), if_neg (by decide), if_pos rfl]

theorem vft_float (fuel : Nat) (reg : Reg) (s : RS) :
    valueForTypeF (fuel + 1) reg (str "Float") s =
      (.ok (renderFloat (pyRound 2 (pyUniform (qlit 1 100) (qlit 100 1) s).1)),
        (pyUniform (qlit 1 100) (qlit 100 1) s).2) := by
  dsimp only [valueForTypeF]
  rw [show trimS (str "Float") = str "Float" from by decide]
  rw [if_neg (fun hc => absurd hc.1 (by decide)), if_neg (by decide), if_neg (by decide),
    if_pos rfl]

theorem vft_boolean (fuel : Nat) (reg : Reg) (s : RS) :
    valueForTypeF (fuel + 1) reg (str "Boolean") s =
      (.ok (pyChoice [str "true", str "false"] [] s).1,
        (pyChoice [str "true", str "false"] [] s).2) := by
  dsimp only [valueForTypeF]
  rw [show trimS (str "Boolean") = str "Boolean" from by decide]
  rw [if_neg (fun hc => absurd hc.1 (by decide)), if_neg (by decide), if_neg (by decide),
    if_neg (by decide), if_pos rfl]

theorem vft_prim (p : SpecPrim) (fuel : Nat) (reg : Reg) (s : RS) :
    ∃ v s', valueForTypeF (fuel + 1) reg (renderPrim p) s = (.ok v, s') ∧ acceptsPrim p v := by
  cases p with
  | string =>
    exact ⟨_, _, vft_string fuel reg s, ⟨_, rfl⟩⟩
  | integer =>
    exact ⟨_, _, vft_integer fuel reg s, ⟨_, rfl⟩⟩
  | float =>
    refine ⟨_, _, vft_float fuel reg s, ?_⟩
    refine ⟨pyRound 2 (pyUniform (qlit 1 100) (qlit 100 1) s).1, ?_, ?_⟩
    · calc (0 : ℚ) ≤ pyRound 2 (qlit 1 100) := by decide
        _ ≤ _ := pyRound_mono 2 (pyUniform_le_left _ _ _ (by decide))
    · exact parseFloatQ_renderFloat _
        (by calc (0 : ℚ) ≤ pyRound 2 (qlit 1 100) := by decide
              _ ≤ _ := pyRound_mono 2 (pyUniform_le_left _ _ _ (by decide)))
        (pyRound_two_den _)
  | boolean =>
    refine ⟨_, _, vft_boolean fuel reg s, ?_⟩
    have h := pyChoice_mem [str "true", str "false"] [] s (by decide)
    rcases List.mem_cons.mp h with h' | h'
    · exact Or.inl h'
    · rw [List.mem_singleton] at h'
      exact Or.inr h'

theorem pySample_length {α : Type} (d : α) :
    ∀ (k : Nat) (l : List α) (s : RS), (pySample d l k s).1.length = k := by
  intro k
  induction k with
  | zero => intro l s; rfl
  | succ k ih =>
    intro l s
    dsimp only [pySample]
    rw [List.length_cons, ih]

theorem pySample_subset {α : Type} (d : α) :
    ∀ (k : Nat) (l : List α) (s : RS), k ≤ l.length →
      ∀ x ∈ (pySample d l k s).1, x ∈ l := by
  intro k
  induction k with
  | zero =>
    intro l s _ x hx
    rw [show (pySample d l 0 s).1 = [] from rfl] at hx
    cases hx
  | succ k ih =>
    intro l s hk x hx
    dsimp only [pySample, rsNext] at hx
    have hlpos : 0 < l.length := by omega
    rcases List.mem_cons.mp hx with h | h
    · rw [h, getD_eq_getElem_q l d _ (Nat.mod_lt _ hlpos)]
      exact List.getElem_mem _
    · exact List.eraseIdx_subset l (s.tape s.pos % l.length)
        (ih (l.eraseIdx (s.tape s.pos % l.length)) _
          (by rw [List.length_eraseIdx_of_lt (Nat.mod_lt _ hlpos)]; omega) x h)

theorem intercalate_one (sep x : Str) : List.intercalate sep [x] = x := by
  simp [List.intercalate]

theorem intercalate_two (sep x y : Str) (rest : List Str) :
    List.intercalate sep (x :: y :: rest) = x ++ sep ++ List.intercalate sep (y :: rest) := by
  simp [List.intercalate, List.intersperse]

theorem mem_intercalate_sep {c : Char} (sep : Str) :
    ∀ (ls : List Str), c ∈ List.intercalate sep ls → c ∈ sep ∨ ∃ w ∈ ls, c ∈ w := by
  intro ls
  induction ls with
  | nil =>
    intro h
    rw [show List.intercalate sep [] = [] from rfl] at h
    cases h
  | cons x rest ih =>
    cases rest with
    | nil =>
      intro h
      rw [intercalate_one] at h
      exact Or.inr ⟨x, by simp, h⟩
    | cons y rest2 =>
      intro h
      rw [intercalate_two] at h
      simp only [List.mem_append] at h
      rcases h with (h | h) | h
      · exact Or.inr ⟨x, by simp, h⟩
      · exact Or.inl h
      · rcases ih h with h' | ⟨w, hw, hc⟩
        · exact Or.inl h'
        · exact Or.inr ⟨w, List.mem_cons_of_mem x hw, hc⟩

theorem dropTrail_keep_all (p : Char → Bool) (xs : Str) (h : ∀ c ∈ xs, p c = false) :
    dropTrail p xs = xs := by
  unfold dropTrail
  cases hxr : xs.reverse with
  | nil =>
    rw [List.reverse_eq_nil_iff] at hxr
    rw [hxr]
    rfl
  | cons a as =>
    have ha : p a = false := h a (by
      have hm : a ∈ xs.reverse := by rw [hxr]; exact List.mem_cons_self _ _
      simpa using hm)
    rw [List.dropWhile_cons_of_neg (by simp [ha]), ← hxr, List.reverse_reverse]

theorem trimS_space_quoteS (v : Str) : trimS (' ' :: quoteS v) = quoteS v := by
  unfold trimS
  rw [List.dropWhile_cons_of_pos (by decide)]
  rw [show quoteS v = dquote :: (v ++ [dquote]) from rfl]
  rw [List.dropWhile_cons_of_neg (by decide)]
  rw [show dquote :: (v ++ [dquote]) = (dquote :: v) ++ [dquote] from by simp]
  exact dropTrail_snoc _ _ _ (by decide)

theorem stripBoth_quoteS (v : Str) (hv : ∀ c ∈ v, ¬ c = dquote) :
    stripBoth (fun c => c = dquote) (quoteS v) = v := by
  unfold stripBoth
  rw [show quoteS v = dquote :: (v ++ [dquote]) from rfl]
  rw [List.dropWhile_cons_of_pos (by decide)]
  cases v with
  | nil => decide
  | cons a as =>
    have ha : ¬ a = dquote := hv a (by simp)
    rw [List.cons_append, List.dropWhile_cons_of_neg (by simpa using ha)]
    rw [show a :: (as ++ [dquote]) = (a :: as) ++ [dquote] from by simp]
    rw [dropTrail_append_all _ _ _ (by
      intro x hx
      rw [List.mem_singleton] at hx
      simp [hx])]
    exact dropTrail_keep_all _ _ (fun c hc => decide_eq_false (hv c hc))

theorem trimS_space_digits (dstr : Str) (hd : ∀ c ∈ dstr, c.isDigit = true) (hne : dstr ≠ []) :
    trimS (' ' :: dstr) = dstr := by
  unfold trimS
  rw [List.dropWhile_cons_of_pos (by decide)]
  cases dstr with
  | nil => exact absurd rfl hne
  | cons a as =>
    have ha := hd a (by simp)
    rw [List.dropWhile_cons_of_neg (by simpa using isDigit_ne ' ' ha (by decide))]
    exact dropTrail_keep_all _ _
      (fun c hc => decide_eq_false (isDigit_ne ' ' (hd c hc) (by decide)))

theorem splitMap_quoted :
    ∀ (vals : List Str), vals ≠ [] → (∀ w ∈ vals, ∀ c ∈ w, c ∈ asciiLower) →
    (splitChar ',' (' ' :: List.intercalate (str ", ") (vals.map quoteS))).map
      (fun v => stripBoth (fun c => c = dquote) (trimS v)) = vals := by
  intro vals
  induction vals with
  | nil => intro h; exact absurd rfl h
  | cons v rest ih =>
    intro _ hcl
    have hv : ∀ c ∈ v, c ∈ asciiLower := hcl v (by simp)
    have hvnq : ∀ c ∈ v, ¬ c = dquote := fun c hc => by
      have hm := hv c hc
      intro he
      rw [he] at hm
      exact absurd hm (by decide)
    have hfrag : ∀ a ∈ ' ' :: quoteS v, ¬ a = ',' := by
      intro a ha
      rcases List.mem_cons.mp ha with h | h
      · rw [h]; decide
      · rw [show quoteS v = dquote :: (v ++ [dquote]) from rfl] at h
        rcases List.mem_cons.mp h with h | h
        · rw [h]; decide
        · rcases List.mem_append.mp h with h | h
          · have hm := hv a h
            intro he
            rw [he] at hm
            exact absurd hm (by decide)
          · rw [List.mem_singleton] at h
            rw [h]; decide
    cases rest with
    | nil =>
      rw [show List.map quoteS [v] = [quoteS v] from rfl, intercalate_one]
      rw [splitChar_no_sep ',' _ hfrag]
      rw [List.map_singleton]
      rw [trimS_space_quoteS, stripBoth_quoteS v hvnq]
    | cons v2 rest2 =>
      rw [show List.map quoteS (v :: v2 :: rest2) =
        quoteS v :: quoteS v2 :: List.map quoteS rest2 from rfl]
      rw [intercalate_two]
      rw [show ' ' :: (quoteS v ++ str ", " ++
          List.intercalate (str ", ") (quoteS v2 :: List.map quoteS rest2)) =
        (' ' :: quoteS v) ++ ',' ::
          (' ' :: List.intercalate (str ", ") (quoteS v2 :: List.map quoteS rest2)) from by
        rw [show str ", " = [',', ' '] from by decide]
        simp]
      rw [splitChar_sep_cons ',' _ _ hfrag]
      rw [List.map_cons]
      rw [trimS_space_quoteS, stripBoth_quoteS v hvnq]
      rw [show (quoteS v2 :: List.map quoteS rest2) = List.map quoteS (v2 :: rest2) from rfl]
      rw [ih (by simp) (fun w hw => hcl w (List.mem_cons_of_mem v hw))]

theorem splitMap_ints :
    ∀ (ns : List Nat), ns ≠ [] →
    (splitChar ',' (' ' :: List.intercalate (str ", ") (ns.map natChars))).map trimS =
      ns.map natChars := by
  intro ns
  induction ns with
  | nil => intro h; exact absurd rfl h
  | cons n rest ih =>
    intro _
    have hfrag : ∀ a ∈ ' ' :: natChars n, ¬ a = ',' := by
      intro a ha
      rcases List.mem_cons.mp ha with h | h
      · rw [h]; decide
      · exact isDigit_ne ',' (natChars_digits n a h) (by decide)
    cases rest with
    | nil =>
      rw [show List.map natChars [n] = [natChars n] from rfl, intercalate_one]
      rw [splitChar_no_sep ',' _ hfrag]
      rw [List.map_singleton]
      rw [trimS_space_digits (natChars n) (natChars_digits n) (natChars_ne_nil n)]
    | cons n2 rest2 =>
      rw [show List.map natChars (n :: n2 :: rest2) =
        natChars n :: natChars n2 :: List.map natChars rest2 from rfl]
      rw [intercalate_two]
      rw [show ' ' :: (natChars n ++ str ", " ++
          List.intercalate (str ", ") (natChars n2 :: List.map natChars rest2)) =
        (' ' :: natChars n) ++ ',' ::
          (' ' :: List.intercalate (str ", ") (natChars n2 :: List.map natChars rest2)) from by
        rw [show str ", " = [',', ' '] from by decide]
        simp]
      rw [splitChar_sep_cons ',' _ _ hfrag]
      rw [List.map_cons]
      rw [trimS_space_digits (natChars n) (natChars_digits n) (natChars_ne_nil n)]
      rw [show (natChars n2 :: List.map natChars rest2) =
        List.map natChars (n2 :: rest2) from rfl]
      rw [ih (by simp)]


theorem trimS_append_wrap2 (X : Str) (hne : X ≠ []) (hX : X.dropWhile (fun c => c = ' ') = X) :
    trimS (X ++ str " \x7d \x7d") = X ++ str " \x7d \x7d" := by
  unfold trimS
  rw [dropWhile_keep _ X _ hne hX]
  exact dropTrail_append_keep _ X _ (by decide) (by decide)

theorem intercalate_quoteS_snoc :
    ∀ (vals : List Str), vals ≠ [] →
      ∃ W, List.intercalate (str ", ") (vals.map quoteS) = W ++ [dquote] := by
  intro vals
  induction vals with
  | nil => intro h; exact absurd rfl h
  | cons v rest ih =>
    intro _
    cases rest with
    | nil =>
      rw [show List.map quoteS [v] = [quoteS v] from rfl, intercalate_one]
      exact ⟨dquote :: v, by simp [quoteS]⟩
    | cons v2 rest2 =>
      obtain ⟨W, hW⟩ := ih (by simp)
      rw [show List.map quoteS (v :: v2 :: rest2) =
        quoteS v :: quoteS v2 :: List.map quoteS rest2 from rfl, intercalate_two,
        show (quoteS v2 :: List.map quoteS rest2) = List.map quoteS (v2 :: rest2) from rfl,
        hW]
      exact ⟨quoteS v ++ str ", " ++ W, by simp [List.append_assoc]⟩

theorem intercalate_natChars_snoc :
    ∀ (ns : List Nat), ns ≠ [] →
      ∃ W d, List.intercalate (str ", ") (ns.map natChars) = W ++ [d] ∧
        d.isDigit = true := by
  intro ns
  induction ns with
  | nil => intro h; exact absurd rfl h
  | cons n rest ih =>
    intro _
    cases rest with
    | nil =>
      rw [show List.map natChars [n] = [natChars n] from rfl, intercalate_one]
      refine ⟨(natChars n).dropLast, (natChars n).getLast (natChars_ne_nil n),
        (List.dropLast_append_getLast (natChars_ne_nil n)).symm, ?_⟩
      exact natChars_digits n _ (List.getLast_mem (natChars_ne_nil n))
    | cons n2 rest2 =>
      obtain ⟨W, d, hW, hd⟩ := ih (by simp)
      rw [show List.map natChars (n :: n2 :: rest2) =
        natChars n :: natChars n2 :: List.map natChars rest2 from rfl, intercalate_two,
        show (natChars n2 :: List.map natChars rest2) = List.map natChars (n2 :: rest2)
          from rfl, hW]
      exact ⟨natChars n ++ str ", " ++ W, d, by simp [List.append_assoc], hd⟩

theorem vft_oneofS_reduce (fuel : Nat) (reg : Reg) (t : Str) (s : RS)
    (htrim : trimS t = t)
    (hus : leadsWith (str "_") t = false)
    (hne1 : t ≠ str "String") (hne2 : t ≠ str "Integer") (hne3 : t ≠ str "Float")
    (hne4 : t ≠ str "Boolean") (hne5 : t ≠ str "URL") (hne6 : t ≠ str "Percentage")
    (hosT : leadsWith (str "String \x7b x | x in \x7b") t = true) :
    valueForTypeF (fuel + 1) reg t s =
      (.ok (quoteS (pyChoice ((splitChar ',' (dropTrail (fun c => c = ' ' || c = rbrace)
          ((splitChar lbrace t).getLastD []))).map
            (fun v => stripBoth (fun c => c = dquote) (trimS v))) [] s).1),
        (pyChoice ((splitChar ',' (dropTrail (fun c => c = ' ' || c = rbrace)
          ((splitChar lbrace t).getLastD []))).map
            (fun v => stripBoth (fun c => c = dquote) (trimS v))) [] s).2) := by
  dsimp only [valueForTypeF]
  rw [htrim]
  rw [if_neg (fun hc => absurd hc.1 (by simp [hus])),
    if_neg hne1, if_neg hne2, if_neg hne3, if_neg hne4, if_neg hne5, if_neg hne6,
    if_pos hosT]

theorem vft_oneofI_reduce (fuel : Nat) (reg : Reg) (t : Str) (s : RS)
    (htrim : trimS t = t)
    (hus : leadsWith (str "_") t = false)
    (hne1 : t ≠ str "String") (hne2 : t ≠ str "Integer") (hne3 : t ≠ str "Float")
    (hne4 : t ≠ str "Boolean") (hne5 : t ≠ str "URL") (hne6 : t ≠ str "Percentage")
    (hos : leadsWith (str "String \x7b x | x in \x7b") t = false)
    (hoiT : leadsWith (str "Integer \x7b x | x in \x7b") t = true) :
    valueForTypeF (fuel + 1) reg t s =
      (.ok (pyChoice ((splitChar ',' (dropTrail (fun c => c = ' ' || c = rbrace)
          ((splitChar lbrace t).getLastD []))).map trimS) [] s).1,
        (pyChoice ((splitChar ',' (dropTrail (fun c => c = ' ' || c = rbrace)
          ((splitChar lbrace t).getLastD []))).map trimS) [] s).2) := by
  dsimp only [valueForTypeF]
  rw [htrim]
  rw [if_neg (fun hc => absurd hc.1 (by simp [hus])),
    if_neg hne1, if_neg hne2, if_neg hne3, if_neg hne4, if_neg hne5, if_neg hne6,
    if_neg (by rw [hos]; exact Bool.false_ne_true),
    if_pos hoiT]

theorem vft_oneofS (fuel : Nat) (reg : Reg) (vals : List Str) (s : RS)
    (hne : vals ≠ []) (hcl : ∀ w ∈ vals, ∀ c ∈ w, c ∈ asciiLower) :
    ∃ w s', valueForTypeF (fuel + 1) reg
        (str "String \x7b x | x in \x7b " ++
          List.intercalate (str ", ") (vals.map quoteS) ++ str " \x7d \x7d") s =
        (.ok (quoteS w), s') ∧ w ∈ vals := by
  obtain ⟨W, hW⟩ := intercalate_quoteS_snoc vals hne
  have hXchar : ∀ c ∈ List.intercalate (str ", ") (vals.map quoteS), ¬ c = lbrace := by
    intro c hc
    rcases mem_intercalate_sep (str ", ") _ hc with h | ⟨w', hw', hcw⟩
    · intro he
      rw [he] at h
      exact absurd h (by decide)
    · obtain ⟨w, hwv, rfl⟩ := List.mem_map.mp hw'
      rw [show quoteS w = dquote :: (w ++ [dquote]) from rfl] at hcw
      rcases List.mem_cons.mp hcw with h | h
      · rw [h]; decide
      · rcases List.mem_append.mp h with h | h
        · have hm := hcl w hwv c h
          intro he
          rw [he] at hm
          exact absurd hm (by decide)
        · rw [List.mem_singleton] at h
          rw [h]; decide
  have ht_assoc : str "String \x7b x | x in \x7b " ++
      List.intercalate (str ", ") (vals.map quoteS) ++ str " \x7d \x7d" =
      str "String \x7b x | x in \x7b " ++
        (List.intercalate (str ", ") (vals.map quoteS) ++ str " \x7d \x7d") := by
    simp [List.append_assoc]
  have hlen : (str "String \x7b x | x in \x7b " ++
      List.intercalate (str ", ") (vals.map quoteS) ++ str " \x7d \x7d").length =
      24 + (List.intercalate (str ", ") (vals.map quoteS)).length := by
    simp only [List.length_append]
    rw [show (str "String \x7b x | x in \x7b ").length = 20 from by decide,
      show (str " \x7d \x7d").length = 4 from by decide]
    omega
  have htrim : trimS (str "String \x7b x | x in \x7b " ++
      List.intercalate (str ", ") (vals.map quoteS) ++ str " \x7d \x7d") =
      str "String \x7b x | x in \x7b " ++
        List.intercalate (str ", ") (vals.map quoteS) ++ str " \x7d \x7d" := by
    refine trimS_append_wrap2 _ ?_ ?_
    · intro he
      rw [List.append_eq_nil] at he
      exact absurd he.1 (by decide)
    · exact dropWhile_keep _ _ _ (by decide) (by decide)
  have hus : leadsWith (str "_") (str "String \x7b x | x in \x7b " ++
      List.intercalate (str ", ") (vals.map quoteS) ++ str " \x7d \x7d") = false := by
    rw [ht_assoc, leadsWith_eq_of_take,
      show leadsWith ((str "_").take (str "String \x7b x | x in \x7b ").length)
        (str "String \x7b x | x in \x7b ") = false from by decide, Bool.false_and]
  have hosT : leadsWith (str "String \x7b x | x in \x7b")
      (str "String \x7b x | x in \x7b " ++
        List.intercalate (str ", ") (vals.map quoteS) ++ str " \x7d \x7d") = true := by
    rw [ht_assoc]
    exact leadsWith_append_of _ _ (by decide) _
  have hform : str "String \x7b x | x in \x7b " ++
      List.intercalate (str ", ") (vals.map quoteS) ++ str " \x7d \x7d" =
      str "String " ++ lbrace :: (str " x | x in " ++ lbrace ::
        (' ' :: (List.intercalate (str ", ") (vals.map quoteS) ++ str " \x7d \x7d"))) := by
    rw [show str "String \x7b x | x in \x7b " =
      str "String " ++ (lbrace :: (str " x | x in " ++ (lbrace :: [' ']))) from by decide]
    simp [List.append_assoc]
  have hnolb : ∀ a ∈ ' ' :: (List.intercalate (str ", ") (vals.map quoteS) ++
      str " \x7d \x7d"), a ≠ lbrace := by
    intro a ha
    rcases List.mem_cons.mp ha with h | h
    · rw [h]; decide
    · rcases List.mem_append.mp h with h | h
      · exact hXchar a h
      · intro he
        rw [he] at h
        exact absurd h (by decide)
  have hlast : (splitChar lbrace (str "String \x7b x | x in \x7b " ++
      List.intercalate (str ", ") (vals.map quoteS) ++ str " \x7d \x7d")).getLastD [] =
      ' ' :: (List.intercalate (str ", ") (vals.map quoteS) ++ str " \x7d \x7d") := by
    rw [hform, lastFrag_sep lbrace _ _ (by decide), lastFrag_sep lbrace _ _ (by decide),
      splitChar_no_sep lbrace _ hnolb]
    rfl
  have hinner : dropTrail (fun c => c = ' ' || c = rbrace)
      (' ' :: (List.intercalate (str ", ") (vals.map quoteS) ++ str " \x7d \x7d")) =
      ' ' :: List.intercalate (str ", ") (vals.map quoteS) := by
    rw [show ' ' :: (List.intercalate (str ", ") (vals.map quoteS) ++ str " \x7d \x7d") =
      (' ' :: List.intercalate (str ", ") (vals.map quoteS)) ++ str " \x7d \x7d" from by simp]
    rw [dropTrail_append_all _ _ _ (by decide)]
    rw [hW]
    rw [show ' ' :: (W ++ [dquote]) = (' ' :: W) ++ [dquote] from by simp]
    rw [dropTrail_snoc _ _ _ (by decide)]
  have key := vft_oneofS_reduce fuel reg _ s htrim hus
    (ne_of_length_ne (by rw [hlen, show (str "String").length = 6 from by decide]; omega))
    (ne_of_length_ne (by rw [hlen, show (str "Integer").length = 7 from by decide]; omega))
    (ne_of_length_ne (by rw [hlen, show (str "Float").length = 5 from by decide]; omega))
    (ne_of_length_ne (by rw [hlen, show (str "Boolean").length = 7 from by decide]; omega))
    (ne_of_length_ne (by rw [hlen, show (str "URL").length = 3 from by decide]; omega))
    (ne_of_length_ne (by rw [hlen, show (str "Percentage").length = 10 from by decide]; omega))
    hosT
  rw [key, hlast, hinner, splitMap_quoted vals hne hcl]
  exact ⟨_, _, rfl, pyChoice_mem vals [] s hne⟩

theorem vft_oneofI (fuel : Nat) (reg : Reg) (ns : List Nat) (s : RS) (hne : ns ≠ []) :
    ∃ n s', valueForTypeF (fuel + 1) reg
        (str "Integer \x7b x | x in \x7b " ++
          List.intercalate (str ", ") (ns.map natChars) ++ str " \x7d \x7d") s =
        (.ok (natChars n), s') ∧ n ∈ ns := by
  have hne' : ns.map natChars ≠ [] := by
    cases ns with
    | nil => exact absurd rfl hne
    | cons a as => simp
  obtain ⟨W, d, hW, hd⟩ := intercalate_natChars_snoc ns hne
  have hXchar : ∀ c ∈ List.intercalate (str ", ") (ns.map natChars), ¬ c = lbrace := by
    intro c hc
    rcases mem_intercalate_sep (str ", ") _ hc with h | ⟨w', hw', hcw⟩
    · intro he
      rw [he] at h
      exact absurd h (by decide)
    · obtain ⟨n, _, rfl⟩ := List.mem_map.mp hw'
      exact isDigit_ne lbrace (natChars_digits n c hcw) (by decide)
  have ht_assoc : str "Integer \x7b x | x in \x7b " ++
      List.intercalate (str ", ") (ns.map natChars) ++ str " \x7d \x7d" =
      str "Integer \x7b x | x in \x7b " ++
        (List.intercalate (str ", ") (ns.map natChars) ++ str " \x7d \x7d") := by
    simp [List.append_assoc]
  have hlen : (str "Integer \x7b x | x in \x7b " ++
      List.intercalate (str ", ") (ns.map natChars) ++ str " \x7d \x7d").length =
      25 + (List.intercalate (str ", ") (ns.map natChars)).length := by
    simp only [List.length_append]
    rw [show (str "Integer \x7b x | x in \x7b ").length = 21 from by decide,
      show (str " \x7d \x7d").length = 4 from by decide]
    omega
  have htrim : trimS (str "Integer \x7b x | x in \x7b " ++
      List.intercalate (str ", ") (ns.map natChars) ++ str " \x7d \x7d") =
      str "Integer \x7b x | x in \x7b " ++
        List.intercalate (str ", ") (ns.map natChars) ++ str " \x7d \x7d" := by
    refine trimS_append_wrap2 _ ?_ ?_
    · intro he
      rw [List.append_eq_nil] at he
      exact absurd he.1 (by decide)
    · exact dropWhile_keep _ _ _ (by decide) (by decide)
  have hus : leadsWith (str "_") (str "Integer \x7b x | x in \x7b " ++
      List.intercalate (str ", ") (ns.map natChars) ++ str " \x7d \x7d") = false := by
    rw [ht_assoc, leadsWith_eq_of_take,
      show leadsWith ((str "_").take (str "Integer \x7b x | x in \x7b ").length)
        (str "Integer \x7b x | x in \x7b ") = false from by decide, Bool.false_and]
  have hos : leadsWith (str "String \x7b x | x in \x7b")
      (str "Integer \x7b x | x in \x7b " ++
        List.intercalate (str ", ") (ns.map natChars) ++ str " \x7d \x7d") = false := by
    rw [ht_assoc, leadsWith_eq_of_take,
      show leadsWith ((str "String \x7b x | x in \x7b").take
        (str "Integer \x7b x | x in \x7b ").length)
        (str "Integer \x7b x | x in \x7b ") = false from by decide, Bool.false_and]
  have hoiT : leadsWith (str "Integer \x7b x | x in \x7b")
      (str "Integer \x7b x | x in \x7b " ++
        List.intercalate (str ", ") (ns.map natChars) ++ str " \x7d \x7d") = true := by
    rw [ht_assoc]
    exact leadsWith_append_of _ _ (by decide) _
  have hform : str "Integer \x7b x | x in \x7b " ++
      List.intercalate (str ", ") (ns.map natChars) ++ str " \x7d \x7d" =
      str "Integer " ++ lbrace :: (str " x | x in " ++ lbrace ::
        (' ' :: (List.intercalate (str ", ") (ns.map natChars) ++ str " \x7d \x7d"))) := by
    rw [show str "Integer \x7b x | x in \x7b " =
      str "Integer " ++ (lbrace :: (str " x | x in " ++ (lbrace :: [' ']))) from by decide]
    simp [List.append_assoc]
  have hnolb : ∀ a ∈ ' ' :: (List.intercalate (str ", ") (ns.map natChars) ++
      str " \x7d \x7d"), a ≠ lbrace := by
    intro a ha
    rcases List.mem_cons.mp ha with h | h
    · rw [h]; decide
    · rcases List.mem_append.mp h with h | h
      · exact hXchar a h
      · intro he
        rw [he] at h
        exact absurd h (by decide)
  have hlast : (splitChar lbrace (str "Integer \x7b x | x in \x7b " ++
      List.intercalate (str ", ") (ns.map natChars) ++ str " \x7d \x7d")).getLastD [] =
      ' ' :: (List.intercalate (str ", ") (ns.map natChars) ++ str " \x7d \x7d") := by
    rw [hform, lastFrag_sep lbrace _ _ (by decide), lastFrag_sep lbrace _ _ (by decide),
      splitChar_no_sep lbrace _ hnolb]
    rfl
  have hinner : dropTrail (fun c => c = ' ' || c = rbrace)
      (' ' :: (List.intercalate (str ", ") (ns.map natChars) ++ str " \x7d \x7d")) =
      ' ' :: List.intercalate (str ", ") (ns.map natChars) := by
    rw [show ' ' :: (List.intercalate (str ", ") (ns.map natChars) ++ str " \x7d \x7d") =
      (' ' :: List.intercalate (str ", ") (ns.map natChars)) ++ str " \x7d \x7d" from by simp]
    rw [dropTrail_append_all _ _ _ (by decide)]
    rw [hW]
    rw [show ' ' :: (W ++ [d]) = (' ' :: W) ++ [d] from by simp]
    rw [dropTrail_snoc _ _ _ (by
      simp [decide_eq_false (isDigit_ne ' ' hd (by decide)),
        decide_eq_false (isDigit_ne rbrace hd (by decide))])]
  have key := vft_oneofI_reduce fuel reg _ s htrim hus
    (ne_of_length_ne (by rw [hlen, show (str "String").length = 6 from by decide]; omega))
    (ne_of_length_ne (by rw [hlen, show (str "Integer").length = 7 from by decide]; omega))
    (ne_of_length_ne (by rw [hlen, show (str "Float").length = 5 from by decide]; omega))
    (ne_of_length_ne (by rw [hlen, show (str "Boolean").length = 7 from by decide]; omega))
    (ne_of_length_ne (by rw [hlen, show (str "URL").length = 3 from by decide]; omega))
    (ne_of_length_ne (by rw [hlen, show (str "Percentage").length = 10 from by decide]; omega))
    hos hoiT
  rw [key, hlast, hinner, splitMap_ints ns hne]
  have hm := pyChoice_mem (ns.map natChars) [] s hne'
  obtain ⟨n, hn, heq⟩ := List.mem_map.mp hm
  exact ⟨n, _, by rw [heq], hn⟩

theorem synthManyF_ok (f : RS → Except PyErr Str × RS) (Q : Str → Prop)
    (hf : ∀ s, ∃ v s', f s = (.ok v, s') ∧ Q v) :
    ∀ k s, ∃ items s', synthManyF f k s = (.ok items, s') ∧ items.length = k ∧
      ∀ x ∈ items, Q x := by
  intro k
  induction k with
  | zero => intro s; exact ⟨[], s, rfl, rfl, by simp⟩
  | succ k ih =>
    intro s
    obtain ⟨v, s1, hv, hQ⟩ := hf s
    obtain ⟨items, s2, hrest, hlen, hQs⟩ := ih s1
    rw [synthManyF, hv]
    dsimp only []
    rw [hrest]
    refine ⟨v :: items, s2, rfl, by simp [hlen], ?_⟩
    intro x hx
    rcases List.mem_cons.mp hx with h | h
    · rw [h]; exact hQ
    · exact hQs x h

theorem synthPairsF_ok (f : RS → Except PyErr Str × RS) (Q : Str → Prop)
    (hf : ∀ s, ∃ v s', f s = (.ok v, s') ∧ Q v) :
    ∀ k i s, ∃ kvs : List (Str × Str), ∃ s', synthPairsF f i k s =
      (.ok (kvs.map (fun kv => kv.1 ++ str ": " ++ kv.2)), s') ∧ kvs.length = k ∧
      (∀ j : Nat, ∀ h : j < kvs.length, (kvs.get ⟨j, h⟩).1 = str "key_" ++ natChars (i + j)) ∧
      ∀ kv ∈ kvs, Q kv.2 := by
  intro k
  induction k with
  | zero => intro i s; exact ⟨[], s, rfl, rfl, fun j h => absurd h (by simp), by simp⟩
  | succ k ih =>
    intro i s
    obtain ⟨v, s1, hv, hQ⟩ := hf s
    obtain ⟨kvs, s2, hrest, hlen, hkeys, hQs⟩ := ih (i + 1) s1
    rw [synthPairsF, hv]
    dsimp only []
    rw [hrest]
    refine ⟨(str "key_" ++ natChars i, v) :: kvs, s2, rfl, by simp [hlen], ?_, ?_⟩
    · intro j h
      match j with
      | 0 => simp
      | j + 1 =>
        have hj : j < kvs.length := by
          simp at h
          omega
        have hk := hkeys j hj
        rw [show (List.get ((str "key_" ++ natChars i, v) :: kvs) ⟨j + 1, h⟩) =
          List.get kvs ⟨j, hj⟩ from rfl, hk,
          show i + 1 + j = i + (j + 1) from by omega]
    · intro kv hkv
      rcases List.mem_cons.mp hkv with h | h
      · rw [h]; exact hQ
      · exact hQs kv h

theorem vft_list_reduce (fuel : Nat) (reg : Reg) (t : Str) (s : RS)
    (htrim : trimS t = t)
    (hus : leadsWith (str "_") t = false)
    (hne1 : t ≠ str "String") (hne2 : t ≠ str "Integer") (hne3 : t ≠ str "Float")
    (hne4 : t ≠ str "Boolean") (hne5 : t ≠ str "URL") (hne6 : t ≠ str "Percentage")
    (hos : leadsWith (str "String \x7b x | x in \x7b") t = false)
    (hoi : leadsWith (str "Integer \x7b x | x in \x7b") t = false)
    (hrange : hasSeg (str "x | x in (") t = false)
    (hlist : leadsWith (str "List(") t = true) :
    valueForTypeF (fuel + 1) reg t s =
      (match synthManyF (valueForTypeF fuel reg ((t.drop 5).dropLast))
          (pyRandNat 1 4 s).1 (pyRandNat 1 4 s).2 with
       | (.ok vals, s1) => (.ok (str "[" ++ List.intercalate (str ", ") vals ++ str "]"), s1)
       | (.error e, s1) => (.error e, s1)) := by
  dsimp only [valueForTypeF]
  rw [htrim]
  rw [if_neg (fun hc => absurd hc.1 (by simp [hus])),
    if_neg hne1, if_neg hne2, if_neg hne3, if_neg hne4, if_neg hne5, if_neg hne6,
    if_neg (by rw [hos]; exact Bool.false_ne_true),
    if_neg (by rw [hoi]; exact Bool.false_ne_true),
    if_neg (fun hc => absurd hc.1 (by simp [hrange])),
    if_pos hlist]

theorem vft_dict_reduce (fuel : Nat) (reg : Reg) (t : Str) (s : RS)
    (htrim : trimS t = t)
    (hus : leadsWith (str "_") t = false)
    (hne1 : t ≠ str "String") (hne2 : t ≠ str "Integer") (hne3 : t ≠ str "Float")
    (hne4 : t ≠ str "Boolean") (hne5 : t ≠ str "URL") (hne6 : t ≠ str "Percentage")
    (hos : leadsWith (str "String \x7b x | x in \x7b") t = false)
    (hoi : leadsWith (str "Integer \x7b x | x in \x7b") t = false)
    (hrange : hasSeg (str "x | x in (") t = false)
    (hlist : leadsWith (str "List(") t = false)
    (hdict : leadsWith (str "Dict(String, ") t = true) :
    valueForTypeF (fuel + 1) reg t s =
      (match synthPairsF (valueForTypeF fuel reg ((t.drop 13).dropLast)) 0
          (pyRandNat 1 3 s).1 (pyRandNat 1 3 s).2 with
       | (.ok pairs, s1) =>
         (.ok (str "\x7b " ++ List.intercalate (str ", ") pairs ++ str " \x7d"), s1)
       | (.error e, s1) => (.error e, s1)) := by
  dsimp only [valueForTypeF]
  rw [htrim]
  rw [if_neg (fun hc => absurd hc.1 (by simp [hus])),
    if_neg hne1, if_neg hne2, if_neg hne3, if_neg hne4, if_neg hne5, if_neg hne6,
    if_neg (by rw [hos]; exact Bool.false_ne_true),
    if_neg (by rw [hoi]; exact Bool.false_ne_true),
    if_neg (fun hc => absurd hc.1 (by simp [hrange])),
    if_neg (by rw [hlist]; exact Bool.false_ne_true),
    if_pos hdict]

theorem vft_opt_reduce (fuel : Nat) (reg : Reg) (t : Str) (s : RS)
    (htrim : trimS t = t)
    (hus : leadsWith (str "_") t = false)
    (hne1 : t ≠ str "String") (hne2 : t ≠ str "Integer") (hne3 : t ≠ str "Float")
    (hne4 : t ≠ str "Boolean") (hne5 : t ≠ str "URL") (hne6 : t ≠ str "Percentage")
    (hos : leadsWith (str "String \x7b x | x in \x7b") t = false)
    (hoi : leadsWith (str "Integer \x7b x | x in \x7b") t = false)
    (hrange : hasSeg (str "x | x in (") t = false)
    (hlist : leadsWith (str "List(") t = false)
    (hdict : leadsWith (str "Dict(String, ") t = false)
    (hopt : leadsWith (str "Optional(") t = true) :
    valueForTypeF (fuel + 1) reg t s = valueForTypeF fuel reg ((t.drop 9).dropLast) s := by
  dsimp only [valueForTypeF]
  rw [htrim]
  rw [if_neg (fun hc => absurd hc.1 (by simp [hus])),
    if_neg hne1, if_neg hne2, if_neg hne3, if_neg hne4, if_neg hne5, if_neg hne6,
    if_neg (by rw [hos]; exact Bool.false_ne_true),
    if_neg (by rw [hoi]; exact Bool.false_ne_true),
    if_neg (fun hc => absurd hc.1 (by simp [hrange])),
    if_neg (by rw [hlist]; exact Bool.false_ne_true),
    if_neg (by rw [hdict]; exact Bool.false_ne_true),
    if_pos hopt]

theorem vft_dflt_reduce (fuel : Nat) (reg : Reg) (t : Str) (s : RS)
    (htrim : trimS t = t)
    (hus : leadsWith (str "_") t = false)
    (hne1 : t ≠ str "String") (hne2 : t ≠ str "Integer") (hne3 : t ≠ str "Float")
    (hne4 : t ≠ str "Boolean") (hne5 : t ≠ str "URL") (hne6 : t ≠ str "Percentage")
    (hos : leadsWith (str "String \x7b x | x in \x7b") t = false)
    (hoi : leadsWith (str "Integer \x7b x | x in \x7b") t = false)
    (hrange : hasSeg (str "x | x in (") t = false)
    (hlist : leadsWith (str "List(") t = false)
    (hdict : leadsWith (str "Dict(String, ") t = false)
    (hopt : leadsWith (str "Optional(") t = false)
    (hdflt : leadsWith (str "Defaulted(") t = true) :
    valueForTypeF (fuel + 1) reg t s =
      valueForTypeF fuel reg (splitOnce (str ", ") ((t.drop 10).dropLast)).1 s := by
  dsimp only [valueForTypeF]
  rw [htrim]
  rw [if_neg (fun hc => absurd hc.1 (by simp [hus])),
    if_neg hne1, if_neg hne2, if_neg hne3, if_neg hne4, if_neg hne5, if_neg hne6,
    if_neg (by rw [hos]; exact Bool.false_ne_true),
    if_neg (by rw [hoi]; exact Bool.false_ne_true),
    if_neg (fun hc => absurd hc.1 (by simp [hrange])),
    if_neg (by rw [hlist]; exact Bool.false_ne_true),
    if_neg (by rw [hdict]; exact Bool.false_ne_true),
    if_neg (by rw [hopt]; exact Bool.false_ne_true),
    if_pos hdflt]

theorem simpleType_cases (s : RS) : ∃ p : SpecPrim, (simpleType s).1 = renderPrim p := by
  have h := pyChoice_mem [str "String", str "Integer", str "Float", str "Boolean"] [] s
    (by decide)
  rcases List.mem_cons.mp h with h' | h'
  · exact ⟨.string, h'⟩
  rcases List.mem_cons.mp h' with h'' | h''
  · exact ⟨.integer, h''⟩
  rcases List.mem_cons.mp h'' with h3 | h3
  · exact ⟨.float, h3⟩
  rw [List.mem_singleton] at h3
  exact ⟨.boolean, h3⟩

theorem vft_listT (p : SpecPrim) (fuel : Nat) (reg : Reg) (s : RS) :
    ∃ v s', valueForTypeF (fuel + 1 + 1) reg (str "List(" ++ renderPrim p ++ str ")") s =
      (.ok v, s') ∧ accepts (.listT p) v := by
  have key := vft_list_reduce (fuel + 1) reg (str "List(" ++ renderPrim p ++ str ")") s
    (by cases p <;> decide) (by cases p <;> decide) (by cases p <;> decide)
    (by cases p <;> decide) (by cases p <;> decide) (by cases p <;> decide)
    (by cases p <;> decide) (by cases p <;> decide) (by cases p <;> decide)
    (by cases p <;> decide) (by cases p <;> decide) (by cases p <;> decide)
  rw [key, show (((str "List(" ++ renderPrim p ++ str ")").drop 5).dropLast) = renderPrim p
    from by cases p <;> decide]
  obtain ⟨items, s1, hmany, hlen, hQ⟩ :=
    synthManyF_ok (valueForTypeF (fuel + 1) reg (renderPrim p))
    (acceptsPrim p) (fun s0 => vft_prim p fuel reg s0)
    (pyRandNat 1 4 s).1 (pyRandNat 1 4 s).2
  have hlo := pyRandNat_le_left 1 4 s
  have hhi := pyRandNat_le_right 1 4 s (by omega)
  rw [hmany]
  exact ⟨_, s1, rfl, items, by omega, by omega, hQ, rfl⟩

theorem vft_dictT (p : SpecPrim) (fuel : Nat) (reg : Reg) (s : RS) :
    ∃ v s', valueForTypeF (fuel + 1 + 1) reg
      (str "Dict(String, " ++ renderPrim p ++ str ")") s =
      (.ok v, s') ∧ accepts (.dictT p) v := by
  have key := vft_dict_reduce (fuel + 1) reg (str "Dict(String, " ++ renderPrim p ++ str ")") s
    (by cases p <;> decide) (by cases p <;> decide) (by cases p <;> decide)
    (by cases p <;> decide) (by cases p <;> decide) (by cases p <;> decide)
    (by cases p <;> decide) (by cases p <;> decide) (by cases p <;> decide)
    (by cases p <;> decide) (by cases p <;> decide) (by cases p <;> decide) (by cases p <;> decide)
  rw [key, show (((str "Dict(String, " ++ renderPrim p ++ str ")").drop 13).dropLast) =
    renderPrim p from by cases p <;> decide]
  obtain ⟨kvs, s1, hpairs, hlen, hkeys, hQ⟩ :=
    synthPairsF_ok (valueForTypeF (fuel + 1) reg (renderPrim p))
    (acceptsPrim p) (fun s0 => vft_prim p fuel reg s0)
    (pyRandNat 1 3 s).1 0 (pyRandNat 1 3 s).2
  have hlo := pyRandNat_le_left 1 3 s
  have hhi := pyRandNat_le_right 1 3 s (by omega)
  have hkeys' : ∀ j : Nat, ∀ h : j < kvs.length,
      (kvs.get ⟨j, h⟩).1 = str "key_" ++ natChars j := by
    intro j h
    have hk := hkeys j h
    rwa [Nat.zero_add] at hk
  rw [hpairs]
  exact ⟨_, s1, rfl, kvs, by omega, by omega, hkeys', hQ, rfl⟩

theorem vft_optT (p : SpecPrim) (fuel : Nat) (reg : Reg) (s : RS) :
    ∃ v s', valueForTypeF (fuel + 1 + 1) reg (str "Optional(" ++ renderPrim p ++ str ")") s =
      (.ok v, s') ∧ accepts (.optT p) v := by
  have key := vft_opt_reduce (fuel + 1) reg (str "Optional(" ++ renderPrim p ++ str ")") s
    (by cases p <;> decide) (by cases p <;> decide) (by cases p <;> decide)
    (by cases p <;> decide) (by cases p <;> decide) (by cases p <;> decide)
    (by cases p <;> decide) (by cases p <;> decide) (by cases p <;> decide)
    (by cases p <;> decide) (by cases p <;> decide) (by cases p <;> decide)
    (by cases p <;> decide) (by cases p <;> decide)
  rw [key, show (((str "Optional(" ++ renderPrim p ++ str ")").drop 9).dropLast) =
    renderPrim p from by cases p <;> decide]
  obtain ⟨v, s', hv, hQ⟩ := vft_prim p fuel reg s
  exact ⟨v, s', hv, Or.inl hQ⟩

/-- The default literal `modifier_type` pairs with each base (lines 118-124). -/
def dfltLit : SpecPrim → Str
  | .string => quoteS (str "default")
  | .integer => str "0"
  | .float => str "0.0"
  | .boolean => str "false"

theorem vft_dfltT (p : SpecPrim) (fuel : Nat) (reg : Reg) (s : RS) :
    ∃ v s', valueForTypeF (fuel + 1 + 1) reg (renderTy (.dfltT p (dfltLit p))) s =
      (.ok v, s') ∧ accepts (.dfltT p (dfltLit p)) v := by
  have key := vft_dflt_reduce (fuel + 1) reg (renderTy (.dfltT p (dfltLit p))) s
    (by cases p <;> decide) (by cases p <;> decide) (by cases p <;> decide)
    (by cases p <;> decide) (by cases p <;> decide) (by cases p <;> decide)
    (by cases p <;> decide) (by cases p <;> decide) (by cases p <;> decide)
    (by cases p <;> decide) (by cases p <;> decide) (by cases p <;> decide)
    (by cases p <;> decide) (by cases p <;> decide) (by cases p <;> decide)
  rw [key, show (splitOnce (str ", ") (((renderTy (.dfltT p (dfltLit p))).drop 10).dropLast)).1
    = renderPrim p from by cases p <;> decide]
  exact vft_prim p fuel reg s

theorem simpleType_sound (s0 : RS) (fuel : Nat) (reg : Reg) (s2 : RS) :
    ∃ T v s', (simpleType s0).1 = renderTy T ∧
      valueForTypeF (fuel + 1 + 1) reg ((simpleType s0).1) s2 = (.ok v, s') ∧
      accepts T v := by
  obtain ⟨p, hp⟩ := simpleType_cases s0
  obtain ⟨v, s', hv, hQ⟩ := vft_prim p (fuel + 1) reg s2
  exact ⟨.prim p, v, s', hp, by rw [hp]; exact hv, hQ⟩

theorem oneofType_sound (base : Str) (s0 : RS) (fuel : Nat) (reg : Reg) (s2 : RS)
    (hb : base = str "String" ∨ base = str "Integer") :
    ∃ T v s', (oneofType base s0).1 = renderTy T ∧
      valueForTypeF (fuel + 1 + 1) reg ((oneofType base s0).1) s2 = (.ok v, s') ∧
      accepts T v := by
  rcases hb with hb | hb <;> subst hb
  · have hEq : oneofType (str "String") s0 =
        (str "String \x7b x | x in \x7b " ++ List.intercalate (str ", ")
          ((pySample [] oneofStringPool (pyRandNat 2 5 s0).1 (pyRandNat 2 5 s0).2).1.map
            quoteS) ++ str " \x7d \x7d",
          (pySample [] oneofStringPool (pyRandNat 2 5 s0).1 (pyRandNat 2 5 s0).2).2) := by
      dsimp only [oneofType]
      rw [if_pos rfl]
    have hlen := pySample_length ([] : Str) (pyRandNat 2 5 s0).1 oneofStringPool
      (pyRandNat 2 5 s0).2
    have hvne : (pySample [] oneofStringPool (pyRandNat 2 5 s0).1
        (pyRandNat 2 5 s0).2).1 ≠ [] := by
      intro he
      rw [he] at hlen
      have h2 := pyRandNat_le_left 2 5 s0
      simp at hlen
      omega
    have hsub := pySample_subset ([] : Str) (pyRandNat 2 5 s0).1 oneofStringPool
      (pyRandNat 2 5 s0).2 (by
        have h5 := pyRandNat_le_right 2 5 s0 (by omega)
        have h6 : oneofStringPool.length = 6 := by decide
        omega)
    have hcl : ∀ w ∈ (pySample [] oneofStringPool (pyRandNat 2 5 s0).1
        (pyRandNat 2 5 s0).2).1, ∀ c ∈ w, c ∈ asciiLower := by
      intro w hw
      have hpool : ∀ w ∈ oneofStringPool, ∀ c ∈ w, c ∈ asciiLower := by decide
      exact hpool w (hsub w hw)
    obtain ⟨w, s', hvft, hw⟩ := vft_oneofS (fuel + 1) reg _ s2 hvne hcl
    exact ⟨.oneofS _, quoteS w, s', by rw [hEq]; rfl, by rw [hEq]; exact hvft,
      ⟨w, hw, rfl⟩⟩
  · have hEq : oneofType (str "Integer") s0 =
        (str "Integer \x7b x | x in \x7b " ++ List.intercalate (str ", ")
          ((sortNats (pySample 0 (List.range' 1 99) (pyRandNat 2 4 s0).1
            (pyRandNat 2 4 s0).2).1).map natChars) ++ str " \x7d \x7d",
          (pySample 0 (List.range' 1 99) (pyRandNat 2 4 s0).1 (pyRandNat 2 4 s0).2).2) := by
      dsimp only [oneofType]
      rw [if_neg (by decide), if_pos rfl]
    have hlen := pySample_length (0 : Nat) (pyRandNat 2 4 s0).1 (List.range' 1 99)
      (pyRandNat 2 4 s0).2
    have hvne : sortNats (pySample 0 (List.range' 1 99) (pyRandNat 2 4 s0).1
        (pyRandNat 2 4 s0).2).1 ≠ [] := by
      intro he
      have hsl : (sortNats (pySample 0 (List.range' 1 99) (pyRandNat 2 4 s0).1
          (pyRandNat 2 4 s0).2).1).length =
          (pySample 0 (List.range' 1 99) (pyRandNat 2 4 s0).1
            (pyRandNat 2 4 s0).2).1.length :=
        (List.perm_insertionSort _ _).length_eq
      rw [he] at hsl
      have h2 := pyRandNat_le_left 2 4 s0
      simp at hsl
      omega
    obtain ⟨n, s', hvft, hn⟩ := vft_oneofI (fuel + 1) reg _ s2 hvne
    exact ⟨.oneofI _, natChars n, s', by rw [hEq]; rfl, by rw [hEq]; exact hvft,
      ⟨n, hn, rfl⟩⟩

theorem rangeType_sound (s0 : RS) (fuel : Nat) (reg : Reg) (s2 : RS) :
    ∃ T v s', (rangeType s0).1 = renderTy T ∧
      valueForTypeF (fuel + 1 + 1) reg ((rangeType s0).1) s2 = (.ok v, s') ∧
      accepts T v := by
  by_cases hc : (pyRandom s0).1 < qlit 50 100
  · have hr : (rangeType s0).1 = str "Float \x7b x | x in ( " ++
        renderFloat (pyRound 1 (pyUniform (qlit 0 1) (qlit 50 1) (pyRandom s0).2).1) ++
        str ".." ++ renderFloat (pyRound 1 (pyUniform (qlit 60 1) (qlit 100 1)
          (pyUniform (qlit 0 1) (qlit 50 1) (pyRandom s0).2).2).1) ++ str " ) \x7d" := by
      dsimp only [rangeType]
      rw [if_pos hc]
    have h0a : (0 : ℚ) ≤ pyRound 1 (pyUniform (qlit 0 1) (qlit 50 1) (pyRandom s0).2).1 := by
      calc (0 : ℚ) = pyRound 1 (qlit 0 1) := by decide
        _ ≤ _ := pyRound_mono 1 (pyUniform_le_left _ _ _ (by decide))
    have hab : pyRound 1 (pyUniform (qlit 0 1) (qlit 50 1) (pyRandom s0).2).1 ≤
        pyRound 1 (pyUniform (qlit 60 1) (qlit 100 1)
          (pyUniform (qlit 0 1) (qlit 50 1) (pyRandom s0).2).2).1 := by
      calc pyRound 1 (pyUniform (qlit 0 1) (qlit 50 1) (pyRandom s0).2).1
          ≤ pyRound 1 (qlit 50 1) := pyRound_mono 1 (pyUniform_le_right _ _ _ (by decide))
        _ ≤ pyRound 1 (qlit 60 1) := by decide
        _ ≤ _ := pyRound_mono 1 (pyUniform_le_left _ _ _ (by decide))
    obtain ⟨q, s', h1, h2, h3, hden⟩ := vft_range_float (fuel + 1) reg _ _ s2 h0a hab
      (pyRound_one_den _) (pyRound_one_den _)
    refine ⟨.rangeF _ _, renderFloat q, s', by rw [hr]; rfl, by rw [hr]; exact h1,
      ⟨q, h2, h3, parseFloatQ_renderFloat q (le_trans h0a h2) hden⟩⟩
  · have hr : (rangeType s0).1 = str "Integer \x7b x | x in ( " ++
        natChars (pyRandNat 0 50 (pyRandom s0).2).1 ++ str ".." ++
        natChars (pyRandNat 60 1000 (pyRandNat 0 50 (pyRandom s0).2).2).1 ++
        str " ) \x7d" := by
      dsimp only [rangeType]
      rw [if_neg hc]
    have hlohi : (pyRandNat 0 50 (pyRandom s0).2).1 ≤
        (pyRandNat 60 1000 (pyRandNat 0 50 (pyRandom s0).2).2).1 := by
      have h1 := pyRandNat_le_right 0 50 (pyRandom s0).2 (by omega)
      have h2 := pyRandNat_le_left 60 1000 (pyRandNat 0 50 (pyRandom s0).2).2
      omega
    obtain ⟨n, s', h1, h2, h3⟩ := vft_range_int (fuel + 1) reg _ _ s2 hlohi
    exact ⟨.rangeI _ _, natChars n, s', by rw [hr]; rfl, by rw [hr]; exact h1,
      ⟨n, h2, h3, rfl⟩⟩

theorem collectionType_sound (depth : Nat) (s0 : RS) (fuel : Nat) (reg : Reg) (s2 : RS) :
    ∃ T v s', (collectionType depth s0).1 = renderTy T ∧
      valueForTypeF (fuel + 1 + 1) reg ((collectionType depth s0).1) s2 = (.ok v, s') ∧
      accepts T v := by
  by_cases hdep : depth > 1
  · have hEq : collectionType depth s0 = simpleType s0 := by
      dsimp only [collectionType]
      rw [if_pos hdep]
    rw [hEq]
    exact simpleType_sound s0 fuel reg s2
  · by_cases h60 : (pyRandom s0).1 < qlit 60 100
    · have hEq : collectionType depth s0 =
          (str "List(" ++ (randomTypeNC (depth + 1) (pyRandom s0).2).1 ++ str ")",
            (randomTypeNC (depth + 1) (pyRandom s0).2).2) := by
        dsimp only [collectionType]
        rw [if_neg hdep, if_pos h60]
      obtain ⟨p, hp⟩ := simpleType_cases (pyRandom s0).2
      have hp' : (randomTypeNC (depth + 1) (pyRandom s0).2).1 = renderPrim p := hp
      obtain ⟨v, s', hvft, hacc⟩ := vft_listT p fuel reg s2
      refine ⟨.listT p, v, s', ?_, ?_, hacc⟩
      · rw [hEq, hp']
        rfl
      · rw [hEq, hp']
        exact hvft
    · have hEq : collectionType depth s0 =
          (str "Dict(String, " ++ (randomTypeNC (depth + 1) (pyRandom s0).2).1 ++ str ")",
            (randomTypeNC (depth + 1) (pyRandom s0).2).2) := by
        dsimp only [collectionType]
        rw [if_neg hdep, if_neg h60]
      obtain ⟨p, hp⟩ := simpleType_cases (pyRandom s0).2
      have hp' : (randomTypeNC (depth + 1) (pyRandom s0).2).1 = renderPrim p := hp
      obtain ⟨v, s', hvft, hacc⟩ := vft_dictT p fuel reg s2
      refine ⟨.dictT p, v, s', ?_, ?_, hacc⟩
      · rw [hEq, hp']
        rfl
      · rw [hEq, hp']
        exact hvft

theorem modifierType_sound (depth : Nat) (s0 : RS) (fuel : Nat) (reg : Reg) (s2 : RS) :
    ∃ T v s', (modifierType depth s0).1 = renderTy T ∧
      valueForTypeF (fuel + 1 + 1) reg ((modifierType depth s0).1) s2 = (.ok v, s') ∧
      accepts T v := by
  obtain ⟨p, hp⟩ := simpleType_cases s0
  have hp' : (randomTypeNC (depth + 1) s0).1 = renderPrim p := hp
  by_cases hm : (pyRandom (randomTypeNC (depth + 1) s0).2).1 < qlit 50 100
  · have hEq : modifierType depth s0 =
        (str "Optional(" ++ (randomTypeNC (depth + 1) s0).1 ++ str ")",
          (pyRandom (randomTypeNC (depth + 1) s0).2).2) := by
      dsimp only [modifierType]
      rw [if_pos hm]
    obtain ⟨v, s', hvft, hacc⟩ := vft_optT p fuel reg s2
    refine ⟨.optT p, v, s', ?_, ?_, hacc⟩
    · rw [hEq, hp']
      rfl
    · rw [hEq, hp']
      exact hvft
  · cases p with
    | string =>
      have hEq : modifierType depth s0 = (str "Defaulted(String, \"default\")",
          (pyRandom (randomTypeNC (depth + 1) s0).2).2) := by
        dsimp only [modifierType]
        rw [if_neg hm, hp', if_pos (by decide)]
      obtain ⟨v, s', hvft, hacc⟩ := vft_dfltT .string fuel reg s2
      refine ⟨.dfltT .string (dfltLit .string), v, s', ?_, ?_, hacc⟩
      · rw [hEq]
        rfl
      · rw [hEq]
        exact hvft
    | integer =>
      have hEq : modifierType depth s0 = (str "Defaulted(Integer, 0)",
          (pyRandom (randomTypeNC (depth + 1) s0).2).2) := by
        dsimp only [modifierType]
        rw [if_neg hm, hp', if_neg (by decide), if_pos (by decide)]
      obtain ⟨v, s', hvft, hacc⟩ := vft_dfltT .integer fuel reg s2
      refine ⟨.dfltT .integer (dfltLit .integer), v, s', ?_, ?_, hacc⟩
      · rw [hEq]
        rfl
      · rw [hEq]
        exact hvft
    | float =>
      have hEq : modifierType depth s0 = (str "Defaulted(Float, 0.0)",
          (pyRandom (randomTypeNC (depth + 1) s0).2).2) := by
        dsimp only [modifierType]
        rw [if_neg hm, hp', if_neg (by decide), if_neg (by decide), if_pos (by decide)]
      obtain ⟨v, s', hvft, hacc⟩ := vft_dfltT .float fuel reg s2
      refine ⟨.dfltT .float (dfltLit .float), v, s', ?_, ?_, hacc⟩
      · rw [hEq]
        rfl
      · rw [hEq]
        exact hvft
    | boolean =>
      have hEq : modifierType depth s0 = (str "Defaulted(Boolean, false)",
          (pyRandom (randomTypeNC (depth + 1) s0).2).2) := by
        dsimp only [modifierType]
        rw [if_neg hm, hp', if_neg (by decide), if_neg (by decide), if_neg (by decide),
          if_pos (by decide)]
      obtain ⟨v, s', hvft, hacc⟩ := vft_dfltT .boolean fuel reg s2
      refine ⟨.dfltT .boolean (dfltLit .boolean), v, s', ?_, ?_, hacc⟩
      · rw [hEq]
        rfl
      · rw [hEq]
        exact hvft

/-- Claim C1: round-trip soundness.  For every descriptor the Type Grammar
produces — any depth, any `allow_complex`, any state of the randomness
source — the descriptor is the rendering of a structured spec-side type `T`,
and the Value Synthesizer, run on that descriptor with any randomness state
and two units of recursion budget slack, returns (without error) a literal
inside `T`'s accepted value domain. -/
theorem c1_roundtrip (depth : Nat) (allowComplex : Bool) (reg : Reg) (s1 s2 : RS)
    (fuel : Nat) :
    ∃ T v s', (randomType depth allowComplex s1).1 = renderTy T ∧
      valueForTypeF (fuel + 1 + 1) reg ((randomType depth allowComplex s1).1) s2 =
        (.ok v, s') ∧
      accepts T v := by
  by_cases hd : depth > 2 ∨ allowComplex = false
  · have hr : randomType depth allowComplex s1 = simpleType s1 := by
      dsimp only [randomType]
      rw [if_pos hd]
    rw [hr]
    exact simpleType_sound s1 fuel reg s2
  · by_cases h40 : (pyRandom s1).1 < qlit 40 100
    · have hr : randomType depth allowComplex s1 = simpleType (pyRandom s1).2 := by
        dsimp only [randomType]
        rw [if_neg hd, if_pos h40]
      rw [hr]
      exact simpleType_sound _ fuel reg s2
    · by_cases h55 : (pyRandom s1).1 < qlit 55 100
      · have hr : randomType depth allowComplex s1 =
            oneofType (pyChoice [str "String", str "Integer"] [] (pyRandom s1).2).1
              (pyChoice [str "String", str "Integer"] [] (pyRandom s1).2).2 := by
          dsimp only [randomType]
          rw [if_neg hd, if_neg h40, if_pos h55]
        rw [hr]
        refine oneofType_sound _ _ fuel reg s2 ?_
        have hmem := pyChoice_mem [str "String", str "Integer"] [] (pyRandom s1).2 (by decide)
        rcases List.mem_cons.mp hmem with h | h
        · exact Or.inl h
        · rw [List.mem_singleton] at h
          exact Or.inr h
      · by_cases h65 : (pyRandom s1).1 < qlit 65 100
        · have hr : randomType depth allowComplex s1 = rangeType (pyRandom s1).2 := by
            dsimp only [randomType]
            rw [if_neg hd, if_neg h40, if_neg h55, if_pos h65]
          rw [hr]
          exact rangeType_sound _ fuel reg s2
        · by_cases h80 : (pyRandom s1).1 < qlit 80 100
          · have hr : randomType depth allowComplex s1 =
                collectionType depth (pyRandom s1).2 := by
              dsimp only [randomType]
              rw [if_neg hd, if_neg h40, if_neg h55, if_neg h65, if_pos h80]
            rw [hr]
            exact collectionType_sound depth _ fuel reg s2
          · have hr : randomType depth allowComplex s1 =
                modifierType depth (pyRandom s1).2 := by
              dsimp only [randomType]
              rw [if_neg hd, if_neg h40, if_neg h55, if_neg h65, if_neg h80]
            rw [hr]
            exact modifierType_sound depth _ fuel reg s2
